import Mathlib

/-!
# Text-buffer engine of `go-wayland-texteditor/editor_backend/main.go`

A shallow embedding of the request handlers `handlerCopy`, `handlerPaste`,
`handlerWrite` and of the rendering loop of `handlerContent`.

Modelling conventions.

* The global `file [][]string` is threaded explicitly: a handler takes the
  document and returns the new one.  A cell is a `String`, a line a list of
  cells, the document a list of lines.
* Request coordinates are Go `int`s and may be negative, so they are `Int`s
  here.  Every index and slice expression of the source is bounds checked the
  way the Go run time checks it; a failed check is a run-time panic, which is
  the result `none`.
* `int` is taken to be 64 bits wide.  A slice length always fits an `int`, so
  arithmetic on indices that passed a bounds check never wraps; the only sums
  of unchecked request values are the loop bounds of the viewport, which wrap
  (`wrapInt`).
* Rows of the document never share storage (every handler stores either a
  freshly allocated row or the sole remaining reference to an old one), and
  inside a handler the local `row` and `file[Y]` are always the same slice, so
  a write through `row` is a write to the document.  Both `append` forms used
  for splicing (`append(s[:i], s[i+1:]...)`, `append(s[:i+1], s[i:]...)`) copy
  with overlap handling, so their value is the concatenation of the operands.
* A pasted segment is taken after decoding (`[]rune(string(subarray))`): it is
  a list of code points.
-/

namespace Editor

/-- The constant `tabSize`. -/
def tabSize : Nat := 8

/-- A cell holds the text of one cluster; the empty string is tab padding. -/
abbrev Cell := String

/-- A line of the document. -/
abbrev Line := List String

/-- The document, the global `file`. -/
abbrev Doc := List (List String)

/-! ## Slice primitives with the bounds checks of the run time -/

/-- Index expression `s[i]`: panics unless `0 ≤ i < len(s)`. -/
def goIndex {α : Type} (s : List α) (i : Int) : Option α :=
  if i < 0 then none else s[i.toNat]?

/-- Slice expression `s[:i]`: panics unless `0 ≤ i ≤ len(s)`. -/
def goSliceTo {α : Type} (s : List α) (i : Int) : Option (List α) :=
  if i < 0 ∨ (s.length : Int) < i then none else some (s.take i.toNat)

/-- Slice expression `s[i:]`: panics unless `0 ≤ i ≤ len(s)`. -/
def goSliceFrom {α : Type} (s : List α) (i : Int) : Option (List α) :=
  if i < 0 ∨ (s.length : Int) < i then none else some (s.drop i.toNat)

/-- Assignment `s[i] = v`: panics unless `0 ≤ i < len(s)`. -/
def goSet {α : Type} (s : List α) (i : Int) (v : α) : Option (List α) :=
  if i < 0 ∨ (s.length : Int) ≤ i then none else some (s.set i.toNat v)

/-- Two's complement wrap of a 64 bit `int` sum: the representative of `i`
modulo `2^64` in `[-2^63, 2^63)`. -/
def wrapInt (i : Int) : Int :=
  (i + 9223372036854775808) % 18446744073709551616 - 9223372036854775808

/-! ## Requests and responses -/

structure WriteRequest where
  X : Int
  Y : Int
  Key : String
  Insert : Bool
deriving DecidableEq, Repr

structure PasteRequest where
  X : Int
  Y : Int
  Buffer : List (List Char)
deriving DecidableEq, Repr

structure CopyRequest where
  X0 : Int
  Y0 : Int
  X1 : Int
  Y1 : Int
deriving DecidableEq, Repr

structure CopyResponse where
  Buffer : List String
deriving DecidableEq, Repr

structure WriteResponse where
  MoveX : Int
  MoveY : Int
deriving DecidableEq, Repr

structure ContentRequest where
  Xpos : Int
  Ypos : Int
  Width : Int
  Height : Int
  Copy : Option CopyRequest
  Write : Option WriteRequest
  Paste : Option PasteRequest
deriving DecidableEq, Repr

/-- The response without `FgColor`, which an external collaborator fills. -/
structure ContentResponse where
  Content : List String
  Copy : Option CopyResponse
  Write : Option WriteResponse
deriving DecidableEq, Repr

/-! ## handlerWrite -/

/-- Key `Enter` of `handlerWrite` (lines 140-144). -/
def writeEnter (w : WriteRequest) (file : Doc) : Option (WriteResponse × Doc) := do
  -- file = append(file[:w.Y+1], file[w.Y:]...)
  let a ← goSliceTo file (w.Y + 1)
  let b ← goSliceFrom file w.Y
  let file1 := a ++ b
  -- file[w.Y] = append([]string{}, file[w.Y+1][:w.X]...)
  let r1 ← goIndex file1 (w.Y + 1)
  let h ← goSliceTo r1 w.X
  let file2 ← goSet file1 w.Y h
  -- file[w.Y+1] = file[w.Y+1][w.X:]
  let r2 ← goIndex file2 (w.Y + 1)
  let t ← goSliceFrom r2 w.X
  let file3 ← goSet file2 (w.Y + 1) t
  some (⟨-w.X, 1⟩, file3)

/-- The loop `for row[w.X] == ""` of key `Delete` (lines 151-153).  Every round
shortens `row` by one cell, so `len(row) + 1` rounds of fuel are never used
up; `none` is the panic of `row[w.X]`. -/
def deleteLoop (x : Int) : Nat → Line → Option Line
  | 0, _ => none
  | fuel + 1, row =>
    match goIndex row x with
    | none => none
    | some c =>
      if c = "" then do
        let a ← goSliceTo row x
        let b ← goSliceFrom row (x + 1)
        deleteLoop x fuel (a ++ b)
      else some row

/-- Key `Delete` of `handlerWrite` (lines 146-155). -/
def writeDelete (w : WriteRequest) (row : Line) (file : Doc) :
    Option (WriteResponse × Doc) :=
  if w.X = row.length then do
    -- file[w.Y] = append(row, file[w.Y+1]...)
    let next ← goIndex file (w.Y + 1)
    let file1 ← goSet file w.Y (row ++ next)
    -- file = append(file[:w.Y+1], file[w.Y+2:]...)
    let a ← goSliceTo file1 (w.Y + 1)
    let b ← goSliceFrom file1 (w.Y + 2)
    some (⟨0, 0⟩, a ++ b)
  else do
    let row1 ← deleteLoop w.X (row.length + 1) row
    -- row = append(row[:w.X], row[w.X+1:]...)
    let a ← goSliceTo row1 w.X
    let b ← goSliceFrom row1 (w.X + 1)
    let file1 ← goSet file w.Y (a ++ b)
    some (⟨0, 0⟩, file1)

/-- Key `Backspace` of `handlerWrite`, from the label `again` (lines 157-174).
`x` is `w.X`, `mx` is `wr.MoveX`.  Every jump back to `again` has decremented
`w.X`, which stays at least 1, so `len(row) + 1` rounds of fuel are never used
up. -/
def backspaceLoop (y : Int) : Nat → Int → Int → Line → Doc → Option (WriteResponse × Doc)
  | 0, _, _, _, _ => none
  | fuel + 1, x, mx, row, file =>
    if x = 0 then
      if y ≠ 0 then do
        -- wr.MoveX = len(file[w.Y-1])
        let prev ← goIndex file (y - 1)
        -- file[w.Y-1] = append(file[w.Y-1], row...)
        let file1 ← goSet file (y - 1) (prev ++ row)
        -- file = append(file[:w.Y], file[w.Y+1:]...)
        let a ← goSliceTo file1 y
        let b ← goSliceFrom file1 (y + 1)
        some (⟨prev.length, -1⟩, a ++ b)
      else some (⟨mx, 0⟩, file)
    else do
      -- row = append(row[:w.X-1], row[w.X:]...)
      let a ← goSliceTo row (x - 1)
      let b ← goSliceFrom row x
      let row1 := a ++ b
      let file1 ← goSet file y row1
      -- wr.MoveX--; w.X--
      if x - 1 ≥ 1 then do
        let c ← goIndex row1 (x - 1 - 1)
        if c = "" then backspaceLoop y fuel (x - 1) (mx - 1) row1 file1
        else some (⟨mx - 1, 0⟩, file1)
      else some (⟨mx - 1, 0⟩, file1)

/-- The first statement of a round of the tab loop (lines 177-183): a cell is
appended at the end of the line, or, in insert mode, the cells from `w.X` on
move one column to the right.  The result is the new `row` and the document
with `file[w.Y] = row`. -/
def tabRoom (key : String) (insert : Bool) (y x : Int) (row : Line) (file : Doc) :
    Option (Line × Doc) :=
  if x = row.length then do
    -- row = append(row, w.Key); file[w.Y] = row
    let f ← goSet file y (row ++ [key])
    some (row ++ [key], f)
  else if insert then do
    -- row = append(row[:w.X+1], row[w.X:]...); file[w.Y] = row
    let a ← goSliceTo row (x + 1)
    let b ← goSliceFrom row x
    let f ← goSet file y (a ++ b)
    some (a ++ b, f)
  else some (row, file)

/-- Key `"\t"` of `handlerWrite` (lines 176-195).  `x` is `w.X`, `mx` is
`wr.MoveX`.  The loop leaves at the first multiple of `tabSize` after the
starting column, so `tabSize` rounds of fuel are never used up. -/
def tabLoop (key : String) (insert : Bool) (y : Int) :
    Nat → Int → Int → Line → Doc → Option (WriteResponse × Doc)
  | 0, _, _, _, _ => none
  | fuel + 1, x, mx, row, file => do
    let (row1, file1) ← tabRoom key insert y x row file
    -- row[w.X] = w.Key  or  row[w.X] = ""   (row is file[w.Y])
    let row2 ← goSet row1 x
      (if Int.land x ((tabSize - 1 : Nat) : Int) = ((tabSize - 1 : Nat) : Int) then key else "")
    let file2 ← goSet file1 y row2
    if Int.land (x + 1) ((tabSize - 1 : Nat) : Int) = 0 then some (⟨mx + 1, 0⟩, file2)
    else tabLoop key insert y fuel (x + 1) (mx + 1) row2 file2

/-- The default case of `handlerWrite` (lines 197-206). -/
def writeDefault (w : WriteRequest) (row : Line) (file : Doc) :
    Option (WriteResponse × Doc) := do
  let (row1, file1) ←
    if w.X = row.length then do
      let f ← goSet file w.Y (row ++ [w.Key])
      some (row ++ [w.Key], f)
    else if w.Insert then do
      let c ← goIndex row w.X
      if c ≠ "" then do
        let a ← goSliceTo row (w.X + 1)
        let b ← goSliceFrom row w.X
        let f ← goSet file w.Y (a ++ b)
        some (a ++ b, f)
      else some (row, file)
    else some (row, file)
  -- row[w.X] = w.Key   (row is file[w.Y])
  let row2 ← goSet row1 w.X w.Key
  let file2 ← goSet file1 w.Y row2
  some (⟨1, 0⟩, file2)

/-- The function `handlerWrite`: the response and the new document, or `none`
when the run time panics. -/
def handlerWrite (w : WriteRequest) (file : Doc) : Option (WriteResponse × Doc) :=
  if w.Y ≥ file.length then some (⟨0, 0⟩, file)
  else
    match goIndex file w.Y with
    | none => none
    | some row =>
      if w.X > row.length then some (⟨0, 0⟩, file)
      else if w.Key = "Enter" then writeEnter w file
      else if w.Key = "Delete" then writeDelete w row file
      else if w.Key = "Backspace" then backspaceLoop w.Y (row.length + 1) w.X 0 row file
      else if w.Key = "\t" then tabLoop w.Key w.Insert w.Y tabSize w.X 0 row file
      else writeDefault w row file

/-! ## handlerCopy -/

/-- The inner loop of `handlerCopy` (lines 37-45) over the cells of line `y`
that are still to be visited; `x` is the column of the first of them. -/
def copyCells (p : CopyRequest) (y : Int) : List String → Int → List String → Option (List String)
  | [], _, buf => some buf
  | c :: cs, x, buf =>
    if y = p.Y0 ∧ x < p.X0 then copyCells p y cs (x + 1) buf
    else if y = p.Y1 ∧ x ≥ p.X1 then some buf
    else do
      -- cr.Buffer[len(cr.Buffer)-1] = append(cr.Buffer[len(cr.Buffer)-1], []byte(file[y][x])...)
      let last ← goIndex buf ((buf.length : Int) - 1)
      let buf1 ← goSet buf ((buf.length : Int) - 1) (last ++ c)
      copyCells p y cs (x + 1) buf1

/-- The outer loop of `handlerCopy` (lines 36-49), with the number of lines
from `y` to `p.Y1` that are still to be visited. -/
def copyLines (p : CopyRequest) (file : Doc) : Nat → Int → List String → Option (List String)
  | 0, _, buf => some buf
  | n + 1, y, buf => do
    let row ← goIndex file y
    let buf1 ← copyCells p y row 0 buf
    let buf2 := if y ≠ p.Y1 then buf1 ++ [""] else buf1
    copyLines p file n (y + 1) buf2

/-- The endpoint swap of `handlerCopy` (lines 19-22). -/
def normalize (p : CopyRequest) : CopyRequest :=
  if p.Y0 > p.Y1 ∨ (p.Y0 = p.Y1 ∧ p.X0 > p.X1) then ⟨p.X1, p.Y1, p.X0, p.Y0⟩ else p

/-- The function `handlerCopy`; a `nil` buffer is the empty list. -/
def handlerCopy (p0 : CopyRequest) (file : Doc) : Option CopyResponse :=
  let p := normalize p0
  if p.Y0 ≥ file.length then some ⟨[]⟩
  else
    match goIndex file p.Y0 with
    | none => none
    | some row0 =>
      if p.X0 > row0.length then some ⟨[]⟩
      else if p.Y1 ≥ file.length then some ⟨[]⟩
      else
        match goIndex file p.Y1 with
        | none => none
        | some row1 =>
          if p.X1 > row1.length then some ⟨[]⟩
          else (copyLines p file (p.Y1 - p.Y0 + 1).toNat p.Y0 [""]).map CopyResponse.mk

/-! ## handlerPaste -/

/-- The function `isCombinable`. -/
def isCombinable (r : Char) : Bool :=
  r.toNat > 128

/-- The function `isCombiner`. -/
def isCombiner (r : Char) : Bool :=
  if r.toNat ≥ 0x300 ∧ r.toNat ≤ 0x36f then true
  else if r.toNat ∈ [0x900, 0x901, 0x902, 0x903, 0x93a, 0x93b, 0x93c, 0x93e, 0x93f, 0x940] then true
  else if r.toNat ∈ [0x941, 0x942, 0x943, 0x944, 0x945, 0x946, 0x947, 0x948, 0x949, 0x94a] then true
  else if r.toNat ∈ [0x94b, 0x94c, 0x94d, 0x94e, 0x94f, 0x955, 0x956, 0x957, 0x962, 0x963] then true
  else false

/-- The padding loop `for len(row)&(tabSize-1) != (tabSize - 1)` (lines 107-109).
It appends fewer than `tabSize` cells, so the fuel `tabSize` is never used up. -/
def padLoop : Nat → Line → Option Line
  | 0, _ => none
  | fuel + 1, row =>
    if Nat.land row.length (tabSize - 1) ≠ tabSize - 1 then padLoop fuel (row ++ [""])
    else some row

/-- One round of the loop over the code points of a segment (lines 105-116):
the new `row` and the new flag `isCombinAble`. -/
def pasteRune (c : Char) (row : Line) (isCombinAble : Bool) : Option (Line × Bool) := do
  let char := String.singleton c
  let row1 ← if char = "\t" then padLoop tabSize row else some row
  if row1.length > 0 ∧ isCombiner c = true ∧ isCombinAble = true then do
    -- row[len(row)-1] = row[len(row)-1] + char
    let last ← goIndex row1 ((row1.length : Int) - 1)
    let row2 ← goSet row1 ((row1.length : Int) - 1) (last ++ char)
    some (row2, isCombinAble)
  else some (row1 ++ [char], isCombinable c)

/-- The loop over the code points of a segment (lines 104-117). -/
def pasteRunes : List Char → Line → Bool → Option Line
  | [], row, _ => some row
  | c :: cs, row, isCombinAble => do
    let (row1, b1) ← pasteRune c row isCombinAble
    pasteRunes cs row1 b1

/-- The variables the segment loop of `handlerPaste` updates; `rrow = none`
is the `nil` slice.  (A captured `rrow` is `nil` in the source only when it
was cut from a `nil`, hence empty, row; the later rounds then cut it again
from rows the handler has just made, which are empty too, so the value of
`rrow` is the one recorded here.) -/
structure PasteState where
  file : Doc
  X : Int
  Y : Int
  rrow : Option (List String)
deriving DecidableEq, Repr

/-- The loop over the segments (lines 85-122): `m` is `len(temp)`, `i` the
index of the first segment still to be visited. -/
def pasteLoop (m : Nat) : List (List Char) → Nat → PasteState → Option PasteState
  | [], _, st => some st
  | subarray :: rest, i, st =>
    if subarray.length = 0 ∧ i + 1 = m then some st
    else do
      let file1 := if st.Y ≥ st.file.length then st.file ++ [[]] else st.file
      let row ← goIndex file1 st.Y
      let x := if st.X > row.length then 0 else st.X
      let rrow ← match st.rrow with
        | none => goSliceFrom row x
        | some r => some r
      -- row = row[:p.X:p.X]
      let row1 ← goSliceTo row x
      let row2 ← pasteRunes subarray row1 false
      let file2 ← goSet file1 st.Y row2
      pasteLoop m rest (i + 1) ⟨file2, 0, st.Y + 1, some rrow⟩

/-- The function `handlerPaste`: the new document, or `none` when the run
time panics. -/
def handlerPaste (p : PasteRequest) (file : Doc) : Option Doc :=
  if p.Y ≥ file.length then some file
  else
    match goIndex file p.Y with
    | none => none
    | some row0 =>
      if p.X > row0.length then some file
      else do
        let temp := p.Buffer
        let file1 ←
          if temp.length > 0 then do
            -- file = append(file[:p.Y+1], append(make([][]string, len(temp)-1), file[p.Y+1:]...)...)
            let a ← goSliceTo file (p.Y + 1)
            let b ← goSliceFrom file (p.Y + 1)
            some (a ++ (List.replicate (temp.length - 1) [] ++ b))
          else some file
        let st ← pasteLoop temp.length temp 0 ⟨file1, p.X, p.Y, none⟩
        let file2 := if st.Y ≥ st.file.length then st.file ++ [[]] else st.file
        -- file[p.Y] = append(file[p.Y], rrow...)
        let last ← goIndex file2 st.Y
        goSet file2 st.Y (last ++ st.rrow.getD [])

/-! ## handlerContent -/

/-- The inner rendering loop (lines 273-279): `n` columns from `x` on. -/
def renderRow (file : Doc) (y : Int) : Nat → Int → List String → Option (List String)
  | 0, _, content => some content
  | n + 1, x, content =>
    if y ≥ file.length then renderRow file y n (x + 1) (content ++ [""])
    else
      match goIndex file y with
      | none => none
      | some row =>
        if x ≥ row.length then renderRow file y n (x + 1) (content ++ [""])
        else
          match goIndex row x with
          | none => none
          | some c => renderRow file y n (x + 1) (content ++ [c])

/-- The outer rendering loop (lines 272-280): `n` lines from `y` on. -/
def renderRows (cr : ContentRequest) (file : Doc) : Nat → Int → List String → Option (List String)
  | 0, _, content => some content
  | n + 1, y, content => do
    let content1 ← renderRow file y (wrapInt (cr.Xpos + cr.Width) - cr.Xpos).toNat cr.Xpos content
    renderRows cr file n (y + 1) content1

/-- The viewport of `handlerContent`: `resp.Content` after lines 272-280. -/
def renderContent (cr : ContentRequest) (file : Doc) : Option (List String) :=
  renderRows cr file (wrapInt (cr.Ypos + cr.Height) - cr.Ypos).toNat cr.Ypos []

/-- The body of `handlerContent` from the decoded request on (lines 261-280):
the response and the document it leaves, or `none` when the run time panics. -/
def handlerContent (cr : ContentRequest) (file : Doc) : Option (ContentResponse × Doc) := do
  let copy ← match cr.Copy with
    | none => some none
    | some p => (handlerCopy p file).map some
  let (write, file1) ← match cr.Write with
    | none => some (none, file)
    | some w => (handlerWrite w file).map (fun r => (some r.1, r.2))
  let file2 ← match cr.Paste with
    | none => some file1
    | some p => handlerPaste p file1
  let content ← renderContent cr file2
  some (⟨content, copy, write⟩, file2)

/-! ## Vocabulary of the statements -/

/-- The cells of a segment in which every code point gets a cell of its own
(`string(c)` for every code point `c`). -/
def cells (s : List Char) : List String :=
  s.map String.singleton

/-- The text a copy of the range `(x0, y0)`-`(x1, y1)` is to hold for line `y`:
the cells of the line from column `x0` (from 0 when `y` is not the first line)
up to, excluding, column `x1` (the end of the line when `y` is not the last
line), concatenated. -/
def copySegment (file : Doc) (x0 y0 x1 y1 y : Nat) : String :=
  String.join
    (((file.getD y []).take (if y = y1 then x1 else (file.getD y []).length)).drop
      (if y = y0 then x0 else 0))

/-- The text the viewport is to show at column `x` of line `y`: the text of
the cell when `(x, y)` is within the document, the empty string otherwise. -/
def cellAt (file : Doc) (x y : Nat) : String :=
  if y < file.length ∧ x < (file.getD y []).length then (file.getD y []).getD x "" else ""

/-- The cursor `(X, Y)` is in range for the document: `Y` is the index of a
line and `X` a column of that line or its end. -/
def cursorInRange (file : Doc) (X Y : Int) : Prop :=
  0 ≤ Y ∧ Y < file.length ∧ 0 ≤ X ∧ X ≤ ((file.getD Y.toNat []).length : Int)

/-- Tab-run well-formedness of the cells of a line from column `i` on: a cell
holding the tab glyph sits at a column congruent to 7 modulo 8, and an empty
padding cell is followed by a padding cell or by the tab glyph, so that every
maximal run of padding cells ends right before a cell holding the tab glyph. -/
def wellFormedFrom : Nat → List String → Bool
  | _, [] => true
  | i, c :: cs =>
    (if c = "\t" then decide (i % 8 = 7) else true)
      && (if c = "" then
            (match cs with
              | [] => false
              | d :: _ => decide (d = "" ∨ d = "\t"))
          else true)
      && wellFormedFrom (i + 1) cs

/-- Tab-run well-formedness of the document: every line is well formed. -/
def wellFormed (file : Doc) : Bool :=
  file.all (wellFormedFrom 0)

/-- No cell of the list holds the tab glyph. -/
def noTab (l : List String) : Bool :=
  l.all (fun c => decide (c ≠ "\t"))

/-- The column `x` does not come right after a padding cell, so that cells put
at `x`, or a line cut at `x`, leave no padding run without its tab glyph. -/
def notCut (row : List String) (x : Nat) : Bool :=
  decide (x = 0 ∨ row[x - 1]? ≠ some "")

/-- Cells that move from column `a` to column `b` keep their tab glyphs on tab
stops: the two columns are congruent modulo 8, or no cell holds the tab
glyph. -/
def keepsStops (a b : Nat) (l : List String) : Bool :=
  decide (a % 8 = b % 8) || noTab l

/-- The start of the padding run that ends before column `n`: the least `j`
such that the cells at `[j, n)` are all padding. -/
def runStart (row : List String) : Nat → Nat
  | 0 => 0
  | n + 1 => if row[n]? = some "" then runStart row n else n + 1

/-- The number of padding cells at the head of a list of cells. -/
def padLen : List String → Nat
  | [] => 0
  | c :: cs => if c = "" then padLen cs + 1 else 0

/-- The list of cells starts with a padding cell or with the tab glyph. -/
def padHead (l : List String) : Bool :=
  match l with
  | [] => false
  | d :: _ => decide (d = "" ∨ d = "\t")

/-- The write at the cursor `(x, y)` neither leaves a padding run without its
tab glyph nor moves a tab glyph to a column of another residue modulo 8.

* `Enter` cuts the line at `x`, which must not come right after a padding
  cell, and moves the cells from `x` on to column 0.
* `Delete` at the end of the line needs a next line, whose cells move from
  column 0 to the end of line `y`.  Inside the line it removes the padding at
  `x` and the cell that ends it; the cells behind them move to column `x`,
  and when `x` comes right after a padding cell the first of them must be
  padding or the tab glyph.
* `Backspace` at the origin changes nothing, and at column 0 of another line
  it moves the cells of the line to the end of the line before.  Inside the
  line it removes the cell before `x` and the padding run before that cell,
  and the cells from `x` on move to the start of that run.
* The tab key in insert mode moves the cells from `x` on to the next multiple
  of 8; in overwrite mode it moves no cell.
* Any other key that overwrites a cell (overwrite mode, or insert mode on a
  padding cell) moves no cell: a non-empty key must not come right after a
  padding cell, and the empty key must have padding or the tab glyph in the
  next cell.
* Any other key that is appended or inserted must not be empty, must not come
  right after a padding cell, and moves the cells from `x` on by one column,
  so none of them may hold the tab glyph. -/
def writeKeeps (file : Doc) (x y : Nat) (key : String) (ins : Bool) : Bool :=
  let row := file.getD y []
  if key = "Enter" then
    notCut row x && keepsStops x 0 (row.drop x)
  else if key = "Delete" then
    if x = row.length then
      decide (y + 1 < file.length) && keepsStops 0 row.length (file.getD (y + 1) [])
    else
      (notCut row x || padHead (row.drop (x + padLen (row.drop x) + 1)))
        && keepsStops (x + padLen (row.drop x) + 1) x (row.drop (x + padLen (row.drop x) + 1))
  else if key = "Backspace" then
    if x = 0 then decide (y = 0) || keepsStops 0 (file.getD (y - 1) []).length row
    else keepsStops x (runStart row (x - 1)) (row.drop x)
  else if key = "\t" then
    !ins || keepsStops x (x + (8 - x % 8)) (row.drop x)
  else if x < row.length ∧ ¬ (ins = true ∧ row[x]? ≠ some "") then
    if key = "" then padHead (row.drop (x + 1)) else notCut row x
  else
    decide (key ≠ "") && notCut row x && noTab (row.drop x)

/-- The paste at the cursor `(x, y)` neither leaves a padding run without its
tab glyph nor moves a tab glyph to a column of another residue modulo 8.  An
empty buffer and a buffer of one empty segment change nothing.  Otherwise the
pasted cells are put at column `x`, which must not come right after a padding
cell unless the first pasted code point is a tab, and the cells from `x` on
move to column 0 of a new line when the last segment is empty and to the end
of the line after `y` (column 0 when there is none) when it is not. -/
def pasteKeeps (file : Doc) (x y : Nat) (buf : List (List Char)) : Bool :=
  let row := file.getD y []
  if buf = [] ∨ buf = [[]] then true
  else
    (notCut row x || decide ((buf.headD []).head? = some '\t'))
      && keepsStops x (if buf.getLast? = some [] then 0 else (file.getD (y + 1) []).length)
          (row.drop x)

/-! ## Bounds checks on indices that are natural numbers -/

theorem goIndex_nat {α : Type} (s : List α) (n : Nat) : goIndex s (n : Int) = s[n]? := by
  simp [goIndex]

theorem goIndex_nat_succ {α : Type} (s : List α) (n : Nat) :
    goIndex s ((n : Int) + 1) = s[n + 1]? := by
  have h : ((n : Int) + 1) = ((n + 1 : Nat) : Int) := by push_cast; rfl
  rw [h, goIndex_nat]

theorem goSliceTo_nat {α : Type} (s : List α) (n : Nat) (h : n ≤ s.length) :
    goSliceTo s (n : Int) = some (s.take n) := by
  simp [goSliceTo]; omega

theorem goSliceFrom_nat {α : Type} (s : List α) (n : Nat) (h : n ≤ s.length) :
    goSliceFrom s (n : Int) = some (s.drop n) := by
  simp [goSliceFrom]; omega

theorem goSet_nat {α : Type} (s : List α) (n : Nat) (v : α) (h : n < s.length) :
    goSet s (n : Int) v = some (s.set n v) := by
  simp [goSet]; omega

theorem goSliceTo_nat_succ {α : Type} (s : List α) (n : Nat) (h : n + 1 ≤ s.length) :
    goSliceTo s ((n : Int) + 1) = some (s.take (n + 1)) := by
  have h1 : ((n : Int) + 1) = ((n + 1 : Nat) : Int) := by push_cast; rfl
  rw [h1, goSliceTo_nat _ _ h]

theorem goSliceFrom_nat_succ {α : Type} (s : List α) (n : Nat) (h : n + 1 ≤ s.length) :
    goSliceFrom s ((n : Int) + 1) = some (s.drop (n + 1)) := by
  have h1 : ((n : Int) + 1) = ((n + 1 : Nat) : Int) := by push_cast; rfl
  rw [h1, goSliceFrom_nat _ _ h]

theorem goSet_nat_succ {α : Type} (s : List α) (n : Nat) (v : α) (h : n + 1 < s.length) :
    goSet s ((n : Int) + 1) v = some (s.set (n + 1) v) := by
  have h1 : ((n : Int) + 1) = ((n + 1 : Nat) : Int) := by push_cast; rfl
  rw [h1, goSet_nat _ _ _ h]

/-- A line of the document splits it into the lines before and after. -/
theorem split_at {α : Type} {l : List α} {n : Nat} {a : α} (h : l[n]? = some a) :
    ∃ pre post, l = pre ++ a :: post ∧ pre.length = n := by
  have hn : n < l.length := by
    rcases Nat.lt_or_ge n l.length with h1 | h1
    · exact h1
    · rw [List.getElem?_eq_none h1] at h; cases h
  refine ⟨l.take n, l.drop (n + 1), ?_, ?_⟩
  · rw [List.getElem?_eq_getElem hn] at h
    cases h
    simp
  · simp; omega


theorem getElem?_app_add {α : Type} (pre l : List α) (k : Nat) :
    (pre ++ l)[pre.length + k]? = l[k]? := by
  rw [List.getElem?_append_right (by omega)]
  simp

theorem getElem?_app_len {α : Type} (pre l : List α) :
    (pre ++ l)[pre.length]? = l[0]? := by
  simpa using getElem?_app_add pre l 0

theorem set_app_add {α : Type} (pre l : List α) (k : Nat) (v : α) :
    (pre ++ l).set (pre.length + k) v = pre ++ l.set k v := by
  rw [List.set_append_right _ _ (by omega)]
  simp

theorem set_app_len {α : Type} (pre l : List α) (v : α) :
    (pre ++ l).set pre.length v = pre ++ l.set 0 v := by
  simp

theorem take_app_add {α : Type} (pre l : List α) (k : Nat) :
    (pre ++ l).take (pre.length + k) = pre ++ l.take k := by
  simp [List.take_append]

theorem take_app_len {α : Type} (pre l : List α) :
    (pre ++ l).take pre.length = pre := by
  simp

theorem drop_app_add {α : Type} (pre l : List α) (k : Nat) :
    (pre ++ l).drop (pre.length + k) = l.drop k := by
  simp [List.drop_append]

theorem drop_app_len {α : Type} (pre l : List α) :
    (pre ++ l).drop pre.length = l := by
  simp

theorem handlerWrite_inrange (w : WriteRequest) (file : Doc) (x y : Nat) (row : Line)
    (hY : w.Y = y) (hX : w.X = x) (hy : file[y]? = some row) (hx : x ≤ row.length) :
    handlerWrite w file =
      if w.Key = "Enter" then writeEnter w file
      else if w.Key = "Delete" then writeDelete w row file
      else if w.Key = "Backspace" then backspaceLoop w.Y (row.length + 1) w.X 0 row file
      else if w.Key = "\t" then tabLoop w.Key w.Insert w.Y tabSize w.X 0 row file
      else writeDefault w row file := by
  have hn : y < file.length := by
    rcases Nat.lt_or_ge y file.length with h1 | h1
    · exact h1
    · rw [List.getElem?_eq_none h1] at hy; cases hy
  unfold handlerWrite
  rw [if_neg (by rw [hY]; simp; omega), hY, goIndex_nat, hy]
  simp only []
  rw [if_neg (by rw [hX]; simp; omega)]


theorem handlerWrite_default (file : Doc) (x y : Nat) (row : Line) (key : String) (ins : Bool)
    (hy : file[y]? = some row) (hx : x ≤ row.length)
    (hk1 : key ≠ "Enter") (hk2 : key ≠ "Delete") (hk3 : key ≠ "Backspace") (hk4 : key ≠ "\t") :
    handlerWrite ⟨x, y, key, ins⟩ file
      = some (⟨1, 0⟩, file.set y
          (if x = row.length then row ++ [key]
           else if ins = true ∧ row[x]? ≠ some "" then row.take x ++ [key] ++ row.drop x
           else row.set x key)) := by
  rw [handlerWrite_inrange _ file x y row rfl rfl hy hx]
  obtain ⟨pre, post, rfl, rfl⟩ := split_at hy
  simp only [if_neg hk1, if_neg hk2, if_neg hk3, if_neg hk4, writeDefault]
  by_cases hxl : x = row.length
  · subst hxl
    simp only [if_true, Option.bind_eq_bind]
    rw [goSet_nat _ _ _ (by simp)]
    simp only [Option.some_bind]
    rw [goSet_nat _ _ _ (by simp)]
    simp only [Option.some_bind]
    rw [goSet_nat _ _ _ (by simp)]
    simp only [set_app_len, List.set_cons_zero, List.nil_append, List.set_nil]
    simp
  · have hlt : x < row.length := by omega
    have hc : ∃ c, row[x]? = some c := ⟨row[x], List.getElem?_eq_getElem hlt⟩
    obtain ⟨c, hc⟩ := hc
    obtain ⟨rpre, rpost, rfl, rfl⟩ := split_at hc
    have hne : ¬ ((rpre.length : Int) = ((rpre ++ c :: rpost).length : Int)) := by
      simp; omega
    simp only [if_neg hne, if_neg hxl, Option.bind_eq_bind]
    cases ins
    · simp only [Bool.false_eq_true, if_false, false_and, Option.some_bind]
      rw [goSet_nat _ _ _ (by simp)]
      simp only [Option.some_bind]
      rw [goSet_nat _ _ _ (by simp)]
      simp only [set_app_len, List.set_cons_zero, Option.some_bind]
    · simp only [if_true, true_and]
      rw [goIndex_nat, hc]
      simp only [Option.some_bind]
      by_cases hce : c = ""
      · subst hce
        simp only [ne_eq, not_true_eq_false, if_false, Option.some_bind]
        rw [goSet_nat _ _ _ (by simp)]
        simp only [Option.some_bind]
        rw [goSet_nat _ _ _ (by simp)]
        simp only [set_app_len, List.set_cons_zero, Option.some_bind]
      · have hce2 : ¬ (some c = some "") := by simpa using hce
        simp only [ne_eq, hce, hce2, not_false_eq_true, if_true]
        rw [goSliceTo_nat_succ _ _ (by simp), goSliceFrom_nat _ _ (by simp)]
        simp only [Option.some_bind]
        rw [goSet_nat _ _ _ (by simp)]
        simp only [Option.some_bind]
        rw [goSet_nat _ _ _ (by simp; omega)]
        simp only [Option.some_bind]
        rw [goSet_nat _ _ _ (by simp)]
        simp only [take_app_add, take_app_len, drop_app_len, set_app_len, List.set_cons_zero,
          List.take_succ_cons, List.take_zero, List.append_assoc, List.singleton_append,
          List.cons_append, List.nil_append, Option.some_bind]


/-! ## Key `Enter` and the merging `Backspace` -/

theorem handlerWrite_enter (file : Doc) (x y : Nat) (row : Line) (ins : Bool)
    (hy : file[y]? = some row) (hx : x ≤ row.length) :
    handlerWrite ⟨x, y, "Enter", ins⟩ file
      = some (⟨-(x : Int), 1⟩, file.take y ++ [row.take x, row.drop x] ++ file.drop (y + 1)) := by
  rw [handlerWrite_inrange _ file x y row rfl rfl hy hx]
  obtain ⟨pre, post, rfl, rfl⟩ := split_at hy
  simp only [if_true, writeEnter]
  rw [goSliceTo_nat_succ _ _ (by simp), goSliceFrom_nat _ _ (by simp)]
  simp only [Option.bind_eq_bind, Option.some_bind, take_app_add, take_app_len, drop_app_add,
    drop_app_len, List.take_succ_cons, List.take_zero, List.drop_succ_cons, List.drop_zero,
    List.append_assoc, List.singleton_append, List.cons_append, List.nil_append]
  rw [goIndex_nat_succ, getElem?_app_add]
  simp only [List.getElem?_cons_succ, List.getElem?_cons_zero, Option.some_bind]
  rw [goSliceTo_nat _ _ hx]
  simp only [Option.some_bind]
  rw [goSet_nat _ _ _ (by simp)]
  simp only [Option.some_bind, set_app_len, List.set_cons_zero]
  rw [goIndex_nat_succ, getElem?_app_add]
  simp only [List.getElem?_cons_succ, List.getElem?_cons_zero, Option.some_bind]
  rw [goSliceFrom_nat _ _ hx]
  simp only [Option.some_bind]
  rw [goSet_nat_succ _ _ _ (by simp)]
  simp only [Option.some_bind, set_app_add, List.set_cons_succ, List.set_cons_zero]

/-- Key `Backspace` at column 0 of a line that has a predecessor joins the two. -/
theorem handlerWrite_backspace_join (pre post : Doc) (prev row : Line) (ins : Bool)
    (X Y : Int) (hX : X = 0) (hY : Y = (pre.length : Int) + 1) :
    handlerWrite ⟨X, Y, "Backspace", ins⟩ (pre ++ prev :: row :: post)
      = some (⟨prev.length, -1⟩, pre ++ (prev ++ row) :: post) := by
  have hrow : (pre ++ prev :: row :: post)[pre.length + 1]? = some row := by
    rw [getElem?_app_add]; simp
  rw [handlerWrite_inrange _ _ 0 (pre.length + 1) row (by rw [hY]; push_cast; rfl)
    (by rw [hX]; rfl) hrow (Nat.zero_le _)]
  subst hX
  subst hY
  have hy0 : ¬ ((pre.length : Int) + 1 = 0) := by omega
  simp only [show ¬ ("Backspace" = "Enter") by decide, show ¬ ("Backspace" = "Delete") by decide,
    if_false, if_true, backspaceLoop, ne_eq, hy0, not_false_eq_true, add_sub_cancel_right,
    Option.bind_eq_bind]
  rw [goIndex_nat, getElem?_app_len]
  simp only [List.getElem?_cons_zero, Option.some_bind]
  rw [goSet_nat _ _ _ (by simp)]
  simp only [Option.some_bind, set_app_len, List.set_cons_zero]
  rw [goSliceTo_nat_succ _ _ (by simp)]
  simp only [Option.some_bind]
  have h2 : ((pre.length : Int) + 1 + 1) = (((pre.length + 1 : Nat) : Int) + 1) := by push_cast; rfl
  rw [h2, goSliceFrom_nat_succ _ _ (by simp; omega)]
  simp only [Option.some_bind, take_app_add, List.take_succ_cons, List.take_zero,
    List.append_assoc, List.singleton_append, List.cons_append, List.nil_append]
  rw [show pre.length + 1 + 1 = pre.length + 2 by omega, drop_app_add]
  simp

/-! ## Claims -/

/-- C1: for an in-range cursor `(x, y)`, key `Enter` replaces line `y` (`row`)
by the two lines `row[0..x)` and `row[x..)`, leaves every other line as it
was, and returns `MoveX = -x`, `MoveY = 1`. -/
theorem enter_splits_line (file : Doc) (x y : Nat) (row : Line) (ins : Bool)
    (hy : file[y]? = some row) (hx : x ≤ row.length) :
    handlerWrite ⟨x, y, "Enter", ins⟩ file
        = some (⟨-(x : Int), 1⟩, file.take y ++ [row.take x, row.drop x] ++ file.drop (y + 1))
      ∧ (file.take y ++ [row.take x, row.drop x] ++ file.drop (y + 1)).length = file.length + 1 := by
  refine ⟨handlerWrite_enter file x y row ins hy hx, ?_⟩
  obtain ⟨pre, post, rfl, rfl⟩ := split_at hy
  simp
  omega

theorem enter_splits_line_witness :
    handlerWrite ⟨(5 : Nat), (0 : Nat), "Enter", false⟩
        [["H", "e", "l", "l", "o", "!"], ["w", "o", "r", "l", "d"]]
      = some (⟨-5, 1⟩, [["H", "e", "l", "l", "o"], ["!"], ["w", "o", "r", "l", "d"]]) :=
  (enter_splits_line [["H", "e", "l", "l", "o", "!"], ["w", "o", "r", "l", "d"]] 5 0
    ["H", "e", "l", "l", "o", "!"] false rfl (by decide)).1

/-- C2: for an in-range cursor `(x, y)` and a key other than `Enter`,
`Delete`, `Backspace` and the tab, `handlerWrite` returns `MoveX = 1`,
`MoveY = 0` and changes line `y` only: the key is appended at the end of the
line, shift-inserted before a non-empty cell in insert mode, and written over
the cell at `x` otherwise. -/
theorem printable_key_writes_cell (file : Doc) (x y : Nat) (row : Line) (key : String)
    (ins : Bool) (hy : file[y]? = some row) (hx : x ≤ row.length)
    (hk1 : key ≠ "Enter") (hk2 : key ≠ "Delete") (hk3 : key ≠ "Backspace") (hk4 : key ≠ "\t") :
    handlerWrite ⟨x, y, key, ins⟩ file
      = some (⟨1, 0⟩, file.set y
          (if x = row.length then row ++ [key]
           else if ins = true ∧ row[x]? ≠ some "" then row.take x ++ [key] ++ row.drop x
           else row.set x key)) :=
  handlerWrite_default file x y row key ins hy hx hk1 hk2 hk3 hk4

theorem printable_key_writes_cell_witness :
    handlerWrite ⟨(5 : Nat), (0 : Nat), "!", false⟩
        [["H", "e", "l", "l", "o"], ["w", "o", "r", "l", "d"]]
      = some (⟨1, 0⟩, [["H", "e", "l", "l", "o", "!"], ["w", "o", "r", "l", "d"]]) :=
  printable_key_writes_cell [["H", "e", "l", "l", "o"], ["w", "o", "r", "l", "d"]] 5 0
    ["H", "e", "l", "l", "o"] "!" false rfl (by decide) (by decide) (by decide) (by decide)
    (by decide)

/-- C3: for an in-range cursor `(x, y)`, `Enter` at `(x, y)` followed by
`Backspace` at the cursor the displacement of `Enter` leads to, `(0, y + 1)`,
gives back the original document, and that `Backspace` returns the
displacement `(x, -1)`. -/
theorem enter_backspace_roundtrip (file : Doc) (x y : Nat) (row : Line) (ins ins2 : Bool)
    (hy : file[y]? = some row) (hx : x ≤ row.length) :
    ((handlerWrite ⟨x, y, "Enter", ins⟩ file).bind fun r =>
        handlerWrite ⟨(x : Int) + r.1.MoveX, (y : Int) + r.1.MoveY, "Backspace", ins2⟩ r.2)
      = some (⟨x, -1⟩, file) := by
  rw [handlerWrite_enter file x y row ins hy hx]
  obtain ⟨pre, post, rfl, rfl⟩ := split_at hy
  simp only [Option.some_bind, take_app_len, drop_app_add, List.drop_succ_cons, List.drop_zero,
    List.append_assoc, List.cons_append, List.nil_append]
  rw [handlerWrite_backspace_join pre post (row.take x) (row.drop x) ins2 _ _ (by simp) rfl]
  simp [hx]

theorem enter_backspace_roundtrip_witness :
    ((handlerWrite ⟨(5 : Nat), (0 : Nat), "Enter", false⟩
          [["H", "e", "l", "l", "o", "!"], ["w", "o", "r", "l", "d"]]).bind fun r =>
        handlerWrite ⟨((5 : Nat) : Int) + r.1.MoveX, ((0 : Nat) : Int) + r.1.MoveY, "Backspace",
          false⟩ r.2)
      = some (⟨(5 : Nat), -1⟩, [["H", "e", "l", "l", "o", "!"], ["w", "o", "r", "l", "d"]]) :=
  enter_backspace_roundtrip [["H", "e", "l", "l", "o", "!"], ["w", "o", "r", "l", "d"]] 5 0
    ["H", "e", "l", "l", "o", "!"] false false rfl (by decide)


/-! ## Paste -/

theorem singleton_eq_tab (c : Char) : String.singleton c = "\t" ↔ c = '\t' := by
  constructor
  · intro h
    have h2 : (String.singleton c).data = ("\t" : String).data := by rw [h]
    simpa [String.singleton] using h2
  · intro h; subst h; rfl

theorem pasteRunes_plain (s : List Char) :
    ∀ (row : Line) (b : Bool), (∀ c ∈ s, c ≠ '\t' ∧ isCombiner c = false) →
      pasteRunes s row b = some (row ++ cells s) := by
  induction s with
  | nil => intro row b _; simp [pasteRunes, cells]
  | cons c cs ih =>
    intro row b h
    have hc := h c (List.mem_cons_self _ _)
    have htab : ¬ (String.singleton c = "\t") := by
      rw [singleton_eq_tab]; exact hc.1
    simp only [pasteRunes, pasteRune, if_neg htab, hc.2, Option.bind_eq_bind, Option.some_bind,
      Bool.false_eq_true, false_and, and_false, if_false]
    rw [ih _ _ (fun c' hc' => h c' (List.mem_cons_of_mem _ hc'))]
    simp [cells]

/-- One round of the segment loop on a segment without tabs and combining
marks. -/
theorem pasteLoop_step (m : Nat) (s : List Char) (rest : List (List Char)) (i : Nat)
    (A tail : Doc) (cur : Line) (xn : Nat) (X Y : Int) (rr : Option Line)
    (hclean : ∀ c ∈ s, c ≠ '\t' ∧ isCombiner c = false)
    (hbrk : ¬ (s.length = 0 ∧ i + 1 = m)) (hx : xn ≤ cur.length)
    (hX : X = xn) (hY : Y = A.length) :
    pasteLoop m (s :: rest) i ⟨A ++ cur :: tail, X, Y, rr⟩
      = pasteLoop m rest (i + 1)
          ⟨A ++ (cur.take xn ++ cells s) :: tail, 0, Y + 1, some (rr.getD (cur.drop xn))⟩ := by
  subst hX; subst hY
  have hlen : ¬ ((A.length : Int) ≥ ((A ++ cur :: tail).length : Int)) := by
    simp
  have hxc : ¬ ((xn : Int) > (cur.length : Int)) := by omega
  simp only [pasteLoop, if_neg hbrk, if_neg hlen, Option.bind_eq_bind]
  rw [goIndex_nat, getElem?_app_len]
  simp only [List.getElem?_cons_zero, Option.some_bind, if_neg hxc]
  rw [goSliceTo_nat _ _ hx]
  simp only [Option.some_bind]
  rw [pasteRunes_plain _ _ _ hclean]
  simp only [Option.some_bind]
  rw [goSet_nat _ _ _ (by simp)]
  simp only [Option.some_bind, set_app_len, List.set_cons_zero]
  cases rr with
  | none =>
    simp only [Option.getD_none]
    rw [goSliceFrom_nat _ _ hx]
    simp only [Option.some_bind]
  | some r => simp only [Option.getD_some, Option.some_bind]

theorem pasteLoop_plain (m : Nat) (post : Doc) :
    ∀ (rest : List (List Char)) (s : List Char) (i : Nat) (A : Doc) (cur : Line) (xn : Nat)
      (X Y : Int) (rr : Option Line),
      (∀ t ∈ s :: rest, ∀ c ∈ t, c ≠ '\t' ∧ isCombiner c = false) →
      i + rest.length + 2 = m → xn ≤ cur.length → X = xn → Y = A.length →
      pasteLoop m (s :: rest ++ [[]]) i
          ⟨A ++ cur :: (List.replicate (rest.length + 1) [] ++ post), X, Y, rr⟩
        = some ⟨A ++ (cur.take xn ++ cells s) :: (rest.map cells ++ [] :: post), 0,
            ((A.length + rest.length + 1 : Nat) : Int), some (rr.getD (cur.drop xn))⟩ := by
  intro rest
  induction rest with
  | nil =>
    intro s i A cur xn X Y rr hclean hm hx hX hY
    simp only [List.length_nil] at hm
    rw [List.cons_append, pasteLoop_step m s _ i A _ cur xn X Y rr
      (hclean s (List.mem_cons_self _ _)) (by omega) hx hX hY]
    have hbrk : i + 1 + 1 = m := by omega
    simp only [List.nil_append, pasteLoop, List.length_nil, true_and, if_pos hbrk, List.map_nil]
    subst hY
    simp
  | cons s1 rest ih =>
    intro s i A cur xn X Y rr hclean hm hx hX hY
    simp only [List.length_cons] at hm
    rw [List.cons_append, pasteLoop_step m s _ i A _ cur xn X Y rr
      (hclean s (List.mem_cons_self _ _)) (by omega) hx hX hY]
    have e : A ++ (cur.take xn ++ cells s) ::
          (List.replicate ((s1 :: rest).length + 1) [] ++ post)
        = (A ++ [cur.take xn ++ cells s]) ++
          [] :: (List.replicate (rest.length + 1) [] ++ post) := by
      simp [List.replicate_succ]
    rw [e, ih s1 (i + 1) (A ++ [cur.take xn ++ cells s]) [] 0 0 (Y + 1) _
      (fun t ht => hclean t (List.mem_cons_of_mem _ ht)) (by omega) (Nat.zero_le _) rfl
      (by subst hY; simp)]
    simp [cells]
    omega

theorem handlerPaste_plain (file : Doc) (x y : Nat) (row : Line) (s0 : List Char)
    (rest : List (List Char)) (hy : file[y]? = some row) (hx : x ≤ row.length)
    (hclean : ∀ t ∈ s0 :: rest, ∀ c ∈ t, c ≠ '\t' ∧ isCombiner c = false) :
    handlerPaste ⟨x, y, s0 :: rest ++ [[]]⟩ file
      = some (file.take y ++ ((row.take x ++ cells s0) :: (rest.map cells ++ [row.drop x]))
          ++ file.drop (y + 1)) := by
  obtain ⟨pre, post, rfl, rfl⟩ := split_at hy
  have hlen : ¬ ((pre.length : Int) ≥ ((pre ++ row :: post).length : Int)) := by
    simp
  have hxc : ¬ ((x : Int) > (row.length : Int)) := by omega
  have hpos : (s0 :: rest ++ [[]]).length > 0 := by simp
  simp only [handlerPaste, if_neg hlen]
  rw [goIndex_nat, hy]
  simp only [if_neg hxc, if_pos hpos, Option.bind_eq_bind]
  rw [goSliceTo_nat_succ _ _ (by simp), goSliceFrom_nat_succ _ _ (by simp)]
  simp only [Option.some_bind, take_app_add, drop_app_add, List.take_succ_cons, List.take_zero,
    List.drop_succ_cons, List.drop_zero, List.append_assoc, List.singleton_append,
    List.cons_append, List.nil_append, List.length_append, List.length_cons, List.length_nil,
    Nat.zero_add, Nat.add_sub_cancel]
  rw [← List.cons_append, pasteLoop_plain _ post rest s0 0 pre row x x pre.length none hclean
    (by simp) hx rfl rfl]
  simp only [Option.some_bind, Option.getD_none]
  have hlen2 : ¬ (((pre.length + rest.length + 1 : Nat) : Int)
      ≥ ((pre ++ (List.take x row ++ cells s0) :: (List.map cells rest ++ [] :: post)).length : Int)) := by
    simp
    omega
  rw [if_neg hlen2]
  have e : pre ++ (List.take x row ++ cells s0) :: (List.map cells rest ++ [] :: post)
      = (pre ++ (List.take x row ++ cells s0) :: List.map cells rest) ++ [] :: post := by
    simp
  have el : pre.length + rest.length + 1
      = (pre ++ (List.take x row ++ cells s0) :: List.map cells rest).length := by
    simp
    omega
  rw [e, el, goIndex_nat, getElem?_app_len]
  simp only [List.getElem?_cons_zero, Option.some_bind]
  rw [goSet_nat _ _ _ (by simp), set_app_len]
  simp

/-- C6: for an in-range cursor `(x, y)` and a buffer `[s0, ..., ""]` of at
least two segments whose last segment is empty and whose other segments hold
no tab and no combining mark, `handlerPaste` replaces line `y` (`row`) by
`row[0..x) ++ cells s0`, one line `cells s` for each further segment, and the
line `row[x..)`; all other lines stay. -/
theorem paste_segments_then_suffix (file : Doc) (x y : Nat) (row : Line) (s0 : List Char)
    (rest : List (List Char)) (hy : file[y]? = some row) (hx : x ≤ row.length)
    (hclean : ∀ t ∈ s0 :: rest, ∀ c ∈ t, c ≠ '\t' ∧ isCombiner c = false) :
    handlerPaste ⟨x, y, s0 :: rest ++ [[]]⟩ file
      = some (file.take y ++ ((row.take x ++ cells s0) :: (rest.map cells ++ [row.drop x]))
          ++ file.drop (y + 1)) :=
  handlerPaste_plain file x y row s0 rest hy hx hclean

theorem paste_segments_then_suffix_witness :
    handlerPaste ⟨(5 : Nat), (0 : Nat), ["cruel ".toList, "friend".toList, []]⟩
        [["H", "e", "l", "l", "o"], ["w", "o", "r", "l", "d"]]
      = some [["H", "e", "l", "l", "o", "c", "r", "u", "e", "l", " "],
          ["f", "r", "i", "e", "n", "d"], [], ["w", "o", "r", "l", "d"]] :=
  paste_segments_then_suffix [["H", "e", "l", "l", "o"], ["w", "o", "r", "l", "d"]] 5 0
    ["H", "e", "l", "l", "o"] "cruel ".toList ["friend".toList] rfl (by decide) (by decide)

/-- C4 (the code departs from it): with the single segment `XY` pasted at
`(2, 0)` of `Hello` / `world`, the cells `llo` that followed the cursor do not
end line 0, the last line the paste touched; they end the next line. -/
theorem paste_suffix_leaves_last_pasted_line :
    handlerPaste ⟨2, 0, [['X', 'Y']]⟩ [["H", "e", "l", "l", "o"], ["w", "o", "r", "l", "d"]]
      = some [["H", "e", "X", "Y"], ["w", "o", "r", "l", "d", "l", "l", "o"]] := by
  decide

/-- C5 (the code departs from it): with the single segment `XY` pasted at
`(2, 1)`, on the last line of `Hello` / `world`, the document grows by one
line although the buffer has `m = 1` segment. -/
theorem paste_grows_by_m_on_last_line :
    handlerPaste ⟨2, 1, [['X', 'Y']]⟩ [["H", "e", "l", "l", "o"], ["w", "o", "r", "l", "d"]]
        = some [["H", "e", "l", "l", "o"], ["w", "o", "X", "Y"], ["r", "l", "d"]]
      ∧ (handlerPaste ⟨2, 1, [['X', 'Y']]⟩
          [["H", "e", "l", "l", "o"], ["w", "o", "r", "l", "d"]]).map List.length
        = some (2 + 1) := by
  decide


/-! ## Copy -/

theorem foldl_append_join (l : List String) :
    ∀ acc : String, List.foldl (fun r s => r ++ s) acc l = acc ++ String.join l := by
  induction l with
  | nil => intro acc; simp [String.join]
  | cons c l ih =>
    intro acc
    simp only [List.foldl_cons, String.join]
    rw [ih, ih ("" ++ c), String.empty_append, String.append_assoc]

theorem join_cons (c : String) (l : List String) : String.join (c :: l) = c ++ String.join l := by
  simp only [String.join, List.foldl_cons]
  rw [foldl_append_join, String.empty_append]
  simp [String.join]

theorem copyCells_spec (p : CopyRequest) (y : Int) (lo hi n : Nat)
    (hlo : ∀ x : Nat, (y = p.Y0 ∧ (x : Int) < p.X0) ↔ x < lo)
    (hhi : ∀ x : Nat, x < n → ((y = p.Y1 ∧ (x : Int) ≥ p.X1) ↔ hi ≤ x))
    (hle : lo ≤ hi) :
    ∀ (cs : List String) (x : Nat) (X : Int) (done : List String) (cur : String),
      x + cs.length = n → X = x →
      copyCells p y cs X (done ++ [cur])
        = some (done ++ [cur ++ String.join ((cs.take (hi - x)).drop (lo - x))]) := by
  intro cs
  induction cs with
  | nil => intro x X done cur _ _; simp [copyCells, String.join]
  | cons c cs ih =>
    intro x X done cur hn hX
    subst hX
    simp only [List.length_cons] at hn
    by_cases h1 : x < lo
    · have h1' := (hlo x).2 h1
      simp only [copyCells, if_pos h1']
      rw [ih (x + 1) _ done cur (by omega) (by push_cast; rfl)]
      have e1 : hi - x = (hi - (x + 1)) + 1 := by omega
      have e2 : lo - x = (lo - (x + 1)) + 1 := by omega
      rw [e1, e2, List.take_succ_cons, List.drop_succ_cons]
    · have h1' : ¬ (y = p.Y0 ∧ (x : Int) < p.X0) := fun h => h1 ((hlo x).1 h)
      by_cases h2 : hi ≤ x
      · have h2' := (hhi x (by omega)).2 h2
        simp only [copyCells, if_neg h1', if_pos h2']
        have e1 : hi - x = 0 := by omega
        simp [e1, String.join]
      · have h2' : ¬ (y = p.Y1 ∧ (x : Int) ≥ p.X1) := fun h => h2 ((hhi x (by omega)).1 h)
        simp only [copyCells, if_neg h1', if_neg h2', Option.bind_eq_bind]
        have hl : ((done ++ [cur]).length : Int) - 1 = (done.length : Int) := by simp
        rw [hl, goIndex_nat, getElem?_app_len]
        simp only [List.getElem?_cons_zero, Option.some_bind]
        rw [goSet_nat _ _ _ (by simp), set_app_len]
        simp only [Option.some_bind, List.set_cons_zero]
        rw [ih (x + 1) _ done (cur ++ c) (by omega) (by push_cast; rfl)]
        have e1 : hi - x = (hi - (x + 1)) + 1 := by omega
        have e2 : lo - x = 0 := by omega
        have e3 : lo - (x + 1) = 0 := by omega
        rw [e1, e2, e3, List.take_succ_cons, List.drop_zero, List.drop_zero, join_cons,
          String.append_assoc]

theorem copyCells_line (file : Doc) (x0 y0 x1 y1 y : Nat) (done : List String)
    (hnorm : y0 < y1 ∨ (y0 = y1 ∧ x0 ≤ x1)) (hx0 : x0 ≤ (file.getD y0 []).length) :
    copyCells ⟨x0, y0, x1, y1⟩ (y : Int) (file.getD y []) 0 (done ++ [""])
      = some (done ++ [copySegment file x0 y0 x1 y1 y]) := by
  have h := copyCells_spec ⟨x0, y0, x1, y1⟩ (y : Int) (if y = y0 then x0 else 0)
    (if y = y1 then x1 else (file.getD y []).length) (file.getD y []).length
    (by
      intro x
      by_cases h : y = y0
      · subst h; simp
      · simp only [if_neg h]
        constructor
        · intro h2; exact absurd (by exact_mod_cast h2.1) h
        · intro h2; omega)
    (by
      intro x hx
      by_cases h : y = y1
      · subst h; simp
      · simp only [if_neg h]
        constructor
        · intro h2; exact absurd (by exact_mod_cast h2.1) h
        · intro h2; omega)
    (by
      by_cases h : y = y0
      · by_cases h' : y = y1
        · simp only [if_pos h, if_pos h']; omega
        · simp only [if_pos h, if_neg h']; subst h; exact hx0
      · simp only [if_neg h]; omega)
    (file.getD y []) 0 0 done "" (by simp) rfl
  rw [h]
  simp [copySegment]

theorem copyLines_spec (file : Doc) (x0 y0 x1 y1 : Nat)
    (hnorm : y0 < y1 ∨ (y0 = y1 ∧ x0 ≤ x1)) (hy1 : y1 < file.length)
    (hx0 : x0 ≤ (file.getD y0 []).length) :
    ∀ (n y : Nat) (Y : Int) (done : List String), y + n = y1 → Y = y →
      copyLines ⟨x0, y0, x1, y1⟩ file (n + 1) Y (done ++ [""])
        = some (done ++ (List.range (n + 1)).map (fun k => copySegment file x0 y0 x1 y1 (y + k))) := by
  intro n
  induction n with
  | zero =>
    intro y Y done hy hY
    subst hY
    have hyl : y < file.length := by omega
    have hrow : file[y]? = some (file.getD y []) := by
      rw [List.getD_eq_getElem?_getD, List.getElem?_eq_getElem hyl]; rfl
    have hne : ¬ ((y : Int) ≠ (y1 : Int)) := by
      simp only [ne_eq, not_not]; exact_mod_cast hy
    simp only [copyLines, Option.bind_eq_bind]
    rw [goIndex_nat, hrow]
    simp only [Option.some_bind]
    rw [copyCells_line file x0 y0 x1 y1 y done hnorm hx0]
    simp only [Option.some_bind, if_neg hne, copyLines]
    rw [List.range_succ_eq_map]
    simp
  | succ n ih =>
    intro y Y done hy hY
    subst hY
    have hyl : y < file.length := by omega
    have hrow : file[y]? = some (file.getD y []) := by
      rw [List.getD_eq_getElem?_getD, List.getElem?_eq_getElem hyl]; rfl
    have hne : ((y : Int) ≠ (y1 : Int)) := by
      intro h
      have : y = y1 := by exact_mod_cast h
      omega
    rw [copyLines]
    simp only [Option.bind_eq_bind]
    rw [goIndex_nat, hrow]
    simp only [Option.some_bind]
    rw [copyCells_line file x0 y0 x1 y1 y done hnorm hx0]
    simp only [Option.some_bind, if_pos hne]
    rw [ih (y + 1) _ (done ++ [copySegment file x0 y0 x1 y1 y]) (by omega) (by push_cast; rfl)]
    rw [List.range_succ_eq_map (n + 1)]
    simp only [List.map_cons, List.map_map, List.append_assoc, List.singleton_append,
      Nat.add_zero]
    congr 3
    apply List.map_congr_left
    intro k _
    simp only [Function.comp, Nat.succ_eq_add_one]
    congr 1
    omega

theorem handlerCopy_spec (file : Doc) (x0 y0 x1 y1 : Nat)
    (hnorm : y0 < y1 ∨ (y0 = y1 ∧ x0 ≤ x1)) (hy1 : y1 < file.length)
    (hx0 : x0 ≤ (file.getD y0 []).length) (hx1 : x1 ≤ (file.getD y1 []).length) :
    handlerCopy ⟨x0, y0, x1, y1⟩ file
      = some ⟨(List.range (y1 - y0 + 1)).map (fun k => copySegment file x0 y0 x1 y1 (y0 + k))⟩ := by
  have hy0 : y0 < file.length := by omega
  have hn : ¬ (((y0 : Int) > (y1 : Int)) ∨ ((y0 : Int) = (y1 : Int) ∧ (x0 : Int) > (x1 : Int))) := by
    omega
  have hrow0 : file[y0]? = some (file.getD y0 []) := by
    rw [List.getD_eq_getElem?_getD, List.getElem?_eq_getElem hy0]; rfl
  have hrow1 : file[y1]? = some (file.getD y1 []) := by
    rw [List.getD_eq_getElem?_getD, List.getElem?_eq_getElem hy1]; rfl
  have g0 : ¬ ((y0 : Int) ≥ (file.length : Int)) := by omega
  have g1 : ¬ ((x0 : Int) > ((file.getD y0 []).length : Int)) := by omega
  have g2 : ¬ ((y1 : Int) ≥ (file.length : Int)) := by omega
  have g3 : ¬ ((x1 : Int) > ((file.getD y1 []).length : Int)) := by omega
  have hcount : ((y1 : Int) - (y0 : Int) + 1).toNat = (y1 - y0) + 1 := by omega
  simp only [handlerCopy, normalize, if_neg hn, if_neg g0, if_neg g2]
  rw [goIndex_nat, hrow0]
  simp only [if_neg g1]
  rw [goIndex_nat, hrow1]
  simp only [if_neg g3, hcount]
  have h := copyLines_spec file x0 y0 x1 y1 hnorm hy1 hx0 (y1 - y0) y0 y0 [] (by omega) rfl
  rw [List.nil_append] at h
  rw [h]
  simp

theorem normalize_swap (X0 Y0 X1 Y1 : Int) :
    normalize ⟨X0, Y0, X1, Y1⟩ = normalize ⟨X1, Y1, X0, Y0⟩ := by
  unfold normalize
  by_cases h1 : Y0 > Y1 ∨ (Y0 = Y1 ∧ X0 > X1)
  · have h2 : ¬ (Y1 > Y0 ∨ (Y1 = Y0 ∧ X1 > X0)) := by omega
    simp only [if_pos h1, if_neg h2]
  · by_cases h2 : Y1 > Y0 ∨ (Y1 = Y0 ∧ X1 > X0)
    · simp only [if_neg h1, if_pos h2]
    · simp only [if_neg h1, if_neg h2]
      have hy : Y0 = Y1 := by omega
      have hx : X0 = X1 := by omega
      subst hy; subst hx; rfl

/-- C7: for a normalized range within the document, `handlerCopy` returns
`y1 - y0 + 1` segments, and the segment of line `y` is the concatenated text
of the cells of that line from column `x0` (0 after the first line) up to,
excluding, column `x1` (the end of the line before the last line). -/
theorem copy_returns_segment_per_line (file : Doc) (x0 y0 x1 y1 : Nat)
    (hnorm : y0 < y1 ∨ (y0 = y1 ∧ x0 ≤ x1)) (hy1 : y1 < file.length)
    (hx0 : x0 ≤ (file.getD y0 []).length) (hx1 : x1 ≤ (file.getD y1 []).length) :
    ∃ buf, handlerCopy ⟨x0, y0, x1, y1⟩ file = some ⟨buf⟩
      ∧ buf.length = y1 - y0 + 1
      ∧ ∀ k, k ≤ y1 - y0 → buf[k]? = some (copySegment file x0 y0 x1 y1 (y0 + k)) := by
  refine ⟨_, handlerCopy_spec file x0 y0 x1 y1 hnorm hy1 hx0 hx1, by simp, ?_⟩
  intro k hk
  rw [List.getElem?_map, List.getElem?_range (by omega)]
  rfl

theorem copy_returns_segment_per_line_witness :
    handlerCopy ⟨(1 : Nat), (0 : Nat), (5 : Nat), (1 : Nat)⟩
        [["H", "e", "l", "l", "o"], ["w", "o", "r", "l", "d"]] = some ⟨["ello", "world"]⟩
    ∧ ∃ buf, handlerCopy ⟨(1 : Nat), (0 : Nat), (5 : Nat), (1 : Nat)⟩
          [["H", "e", "l", "l", "o"], ["w", "o", "r", "l", "d"]] = some ⟨buf⟩
      ∧ buf.length = 1 - 0 + 1
      ∧ ∀ k, k ≤ 1 - 0 → buf[k]?
          = some (copySegment [["H", "e", "l", "l", "o"], ["w", "o", "r", "l", "d"]] 1 0 5 1 (0 + k)) :=
  ⟨by decide,
    copy_returns_segment_per_line [["H", "e", "l", "l", "o"], ["w", "o", "r", "l", "d"]] 1 0 5 1
      (by decide) (by decide) (by decide) (by decide)⟩

/-- C8: `handlerCopy` returns the same result for a range and for the range
with its two endpoints exchanged, whatever the endpoints are. -/
theorem copy_endpoints_exchange (file : Doc) (X0 Y0 X1 Y1 : Int) :
    handlerCopy ⟨X0, Y0, X1, Y1⟩ file = handlerCopy ⟨X1, Y1, X0, Y0⟩ file := by
  simp only [handlerCopy, normalize_swap X0 Y0 X1 Y1]


/-! ## Viewport -/

theorem renderRow_spec (file : Doc) (y : Nat) :
    ∀ (n x : Nat) (X : Int) (content : List String), X = x →
      renderRow file (y : Int) n X content
        = some (content ++ (List.range n).map (fun j => cellAt file (x + j) y)) := by
  intro n
  induction n with
  | zero => intro x X content _; simp [renderRow]
  | succ n ih =>
    intro x X content hX
    subst hX
    have hstep : ∀ c, c = cellAt file x y →
        renderRow file (y : Int) n ((x : Int) + 1) (content ++ [c])
          = some (content ++ (List.range (n + 1)).map (fun j => cellAt file (x + j) y)) := by
      intro c hc
      rw [ih (x + 1) _ (content ++ [c]) (by push_cast; rfl), List.range_succ_eq_map, hc]
      simp only [List.map_cons, List.map_map, List.append_assoc, List.singleton_append,
        Nat.add_zero]
      congr 3
      apply List.map_congr_left
      intro k _
      simp only [Function.comp, Nat.succ_eq_add_one]
      congr 1
      omega
    by_cases hy : y < file.length
    · have g0 : ¬ ((y : Int) ≥ (file.length : Int)) := by omega
      obtain ⟨row, hrow⟩ : ∃ row, file[y]? = some row := ⟨_, List.getElem?_eq_getElem hy⟩
      have hgetD : file.getD y [] = row := by
        rw [List.getD_eq_getElem?_getD, hrow]; rfl
      rw [renderRow]
      simp only [if_neg g0]
      rw [goIndex_nat, hrow]
      simp only []
      by_cases hx : x < row.length
      · have g1 : ¬ ((x : Int) ≥ (row.length : Int)) := by omega
        obtain ⟨c, hc⟩ : ∃ c, row[x]? = some c := ⟨_, List.getElem?_eq_getElem hx⟩
        simp only [if_neg g1]
        rw [goIndex_nat, hc]
        simp only []
        apply hstep
        unfold cellAt
        rw [hgetD, if_pos ⟨hy, hx⟩, List.getD_eq_getElem?_getD, hc]
        rfl
      · have g1 : ((x : Int) ≥ (row.length : Int)) := by omega
        simp only [if_pos g1]
        apply hstep
        unfold cellAt
        rw [hgetD, if_neg (fun h => hx h.2)]
    · have g0 : ((y : Int) ≥ (file.length : Int)) := by omega
      rw [renderRow]
      simp only [if_pos g0]
      apply hstep
      unfold cellAt
      rw [if_neg (fun h => hy h.1)]

theorem renderRows_spec (cr : ContentRequest) (file : Doc) (xpos width : Nat)
    (hX : cr.Xpos = xpos) (hW : cr.Width = width) (hx : xpos + width < 2 ^ 63) :
    ∀ (n y : Nat) (Y : Int) (content : List String), Y = y →
      renderRows cr file n Y content
        = some (content ++ (List.range n).flatMap
            (fun i => (List.range width).map (fun j => cellAt file (xpos + j) (y + i)))) := by
  have hcount : (wrapInt (cr.Xpos + cr.Width) - cr.Xpos).toNat = width := by
    rw [hX, hW]
    unfold wrapInt
    omega
  intro n
  induction n with
  | zero => intro y Y content _; simp [renderRows]
  | succ n ih =>
    intro y Y content hY
    subst hY
    rw [renderRows]
    simp only [Option.bind_eq_bind, hcount]
    rw [hX, renderRow_spec file y width xpos _ content rfl]
    simp only [Option.some_bind]
    rw [ih (y + 1) _ _ (by push_cast; rfl), List.range_succ_eq_map]
    simp only [List.flatMap_cons, List.append_assoc, Nat.add_zero, List.flatMap_map]
    have e : ∀ a : Nat, y + 1 + a = y + a.succ := by intro a; omega
    simp only [e]

theorem length_flatMap_range {α : Type} (f : Nat → List α) (w : Nat)
    (hf : ∀ i, (f i).length = w) : ∀ h, ((List.range h).flatMap f).length = h * w := by
  intro h
  induction h with
  | zero => simp
  | succ h ih =>
    rw [List.range_succ, List.flatMap_append, List.length_append, ih, List.flatMap_singleton, hf,
      Nat.succ_mul]

theorem getElem?_flatMap_range {α : Type} (f : Nat → List α) (w : Nat)
    (hf : ∀ i, (f i).length = w) :
    ∀ h i j, i < h → j < w → ((List.range h).flatMap f)[i * w + j]? = (f i)[j]? := by
  intro h
  induction h with
  | zero => intro i j hi; omega
  | succ h ih =>
    intro i j hi hj
    rw [List.range_succ, List.flatMap_append, List.flatMap_singleton]
    by_cases hih : i < h
    · have hlt : i * w + j < ((List.range h).flatMap f).length := by
        rw [length_flatMap_range f w hf]
        calc i * w + j < i * w + w := by omega
          _ = (i + 1) * w := by rw [Nat.succ_mul]
          _ ≤ h * w := Nat.mul_le_mul_right w hih
      rw [List.getElem?_append_left hlt]
      exact ih i j hih hj
    · have hi' : i = h := by omega
      subst hi'
      rw [List.getElem?_append_right (by rw [length_flatMap_range f w hf]; omega),
        length_flatMap_range f w hf]
      congr 1
      omega

theorem renderContent_spec (cr : ContentRequest) (file : Doc) (xpos ypos width height : Nat)
    (hX : cr.Xpos = xpos) (hY : cr.Ypos = ypos) (hW : cr.Width = width) (hH : cr.Height = height)
    (hx : xpos + width < 2 ^ 63) (hy : ypos + height < 2 ^ 63) :
    renderContent cr file
      = some ((List.range height).flatMap
          (fun i => (List.range width).map (fun j => cellAt file (xpos + j) (ypos + i)))) := by
  have hcount : (wrapInt (cr.Ypos + cr.Height) - cr.Ypos).toNat = height := by
    rw [hY, hH]
    unfold wrapInt
    omega
  unfold renderContent
  rw [hcount, renderRows_spec cr file xpos width hX hW hx height ypos _ [] hY]
  simp

/-- C9 as stated fails: a viewport of non-negative coordinates whose sum
`Ypos + Height` exceeds the largest `int` renders no entry at all, where
`Width * Height = 1`. -/
theorem viewport_bound_wraps :
    renderContent ⟨0, 9223372036854775807, 1, 1, none, none, none⟩ [["a"]] = some []
      ∧ ([] : List String).length ≠ 1 * 1 := by
  decide

/-- C9, amended: for a viewport of non-negative `Xpos`, `Ypos`, `Width`,
`Height` whose sums `Xpos + Width` and `Ypos + Height` fit an `int`, the
rendered content has `Width * Height` entries, and the entry at index
`(y - Ypos) * Width + (x - Xpos)` is the text of cell `x` of line `y` when
`(x, y)` is within the document and the empty string otherwise. -/
theorem viewport_content (file : Doc) (xpos ypos width height : Nat)
    (cp : Option CopyRequest) (wr : Option WriteRequest) (ps : Option PasteRequest)
    (hx : xpos + width < 2 ^ 63) (hy : ypos + height < 2 ^ 63) :
    ∃ content, renderContent ⟨xpos, ypos, width, height, cp, wr, ps⟩ file = some content
      ∧ content.length = width * height
      ∧ ∀ y x, ypos ≤ y → y < ypos + height → xpos ≤ x → x < xpos + width →
          content[(y - ypos) * width + (x - xpos)]? = some (cellAt file x y) := by
  refine ⟨_, renderContent_spec _ file xpos ypos width height rfl rfl rfl rfl hx hy, ?_, ?_⟩
  · rw [length_flatMap_range _ width (by intro i; simp), Nat.mul_comm]
  · intro y x hy1 hy2 hx1 hx2
    rw [getElem?_flatMap_range _ width (by intro i; simp) height (y - ypos) (x - xpos)
      (by omega) (by omega), List.getElem?_map, List.getElem?_range (by omega)]
    simp only [Option.map_some']
    congr 2 <;> omega

theorem viewport_content_witness :
    ∃ content, renderContent ⟨(1 : Nat), (0 : Nat), (6 : Nat), (3 : Nat), none, none, none⟩
          [["H", "e", "l", "l", "o"], ["w", "o", "r", "l", "d"]] = some content
      ∧ content.length = 6 * 3
      ∧ ∀ y x, 0 ≤ y → y < 0 + 3 → 1 ≤ x → x < 1 + 6 →
          content[(y - 0) * 6 + (x - 1)]?
            = some (cellAt [["H", "e", "l", "l", "o"], ["w", "o", "r", "l", "d"]] x y) :=
  viewport_content [["H", "e", "l", "l", "o"], ["w", "o", "r", "l", "d"]] 1 0 6 3 none none none
    (by decide) (by decide)


/-! ## Key tab -/

theorem land_tab (n : Nat) :
    Int.land (n : Int) ((tabSize - 1 : Nat) : Int) = ((n % 8 : Nat) : Int) := by
  have h : n &&& 7 = n % 8 := by
    have := Nat.and_pow_two_sub_one_eq_mod n 3
    simpa using this
  show ((n &&& 7 : Nat) : Int) = _
  rw [h]

theorem tabRoom_spec (key : String) (ins : Bool) (pre post : Doc) (row : Line) (x : Nat)
    (hx : x ≤ row.length) :
    ∃ row1, tabRoom key ins (pre.length : Int) (x : Int) row (pre ++ row :: post)
        = some (row1, pre ++ row1 :: post)
      ∧ x < row1.length ∧ ∀ c, c < x → row1[c]? = row[c]? := by
  unfold tabRoom
  by_cases hxl : x = row.length
  · refine ⟨row ++ [key], ?_, by simp; omega, ?_⟩
    · have h : ((x : Int) = (row.length : Int)) := by exact_mod_cast hxl
      simp only [if_pos h, Option.bind_eq_bind]
      rw [goSet_nat _ _ _ (by simp), set_app_len]
      simp
    · intro c hc
      rw [List.getElem?_append_left (by omega)]
  · have h : ¬ ((x : Int) = (row.length : Int)) := by exact_mod_cast hxl
    cases ins
    · refine ⟨row, ?_, by omega, fun _ _ => rfl⟩
      simp only [if_neg h, Bool.false_eq_true, if_false]
    · refine ⟨row.take (x + 1) ++ row.drop x, ?_, by simp; omega, ?_⟩
      · simp only [if_neg h, if_true, Option.bind_eq_bind]
        rw [goSliceTo_nat_succ _ _ (by omega), goSliceFrom_nat _ _ hx]
        simp only [Option.some_bind]
        rw [goSet_nat _ _ _ (by simp), set_app_len]
        simp
      · intro c hc
        rw [List.getElem?_append_left (by simp; omega), List.getElem?_take_of_lt (by omega)]

theorem tabLoop_spec (ins : Bool) (pre post : Doc) :
    ∀ (fuel x : Nat) (mx : Int) (row : Line), x ≤ row.length → 8 - x % 8 ≤ fuel →
      ∃ row', tabLoop "\t" ins (pre.length : Int) fuel (x : Int) mx row (pre ++ row :: post)
          = some (⟨mx + ((8 - x % 8 : Nat) : Int), 0⟩, pre ++ row' :: post)
        ∧ row'[x + (8 - x % 8) - 1]? = some "\t"
        ∧ (∀ c, x ≤ c → c < x + (8 - x % 8) - 1 → row'[c]? = some "")
        ∧ (∀ c, c < x → row'[c]? = row[c]?) := by
  intro fuel
  induction fuel with
  | zero => intro x mx row _ hf; omega
  | succ fuel ih =>
    intro x mx row hx hf
    obtain ⟨row1, hroom, hlen1, hpre1⟩ := tabRoom_spec "\t" ins pre post row x hx
    have hx1 : ((x : Int) + 1) = ((x + 1 : Nat) : Int) := by push_cast; rfl
    rw [tabLoop]
    simp only [Option.bind_eq_bind]
    rw [hroom]
    simp only [Option.some_bind]
    rw [goSet_nat _ _ _ hlen1]
    simp only [Option.some_bind]
    rw [goSet_nat _ _ _ (by simp), set_app_len, hx1, land_tab, land_tab]
    simp only [Option.some_bind, List.set_cons_zero]
    by_cases h7 : x % 8 = 7
    · have e1 : (x + 1) % 8 = 0 := by omega
      have e2 : 8 - x % 8 = 1 := by omega
      have c1 : (((x % 8 : Nat) : Int) = ((tabSize - 1 : Nat) : Int)) := by
        rw [h7]; rfl
      simp only [e1, e2, if_pos c1, Nat.cast_zero, if_true, Nat.cast_one]
      refine ⟨_, rfl, ?_, ?_, ?_⟩
      · rw [show x + 1 - 1 = x by omega, List.getElem?_set_self hlen1]
      · intro c h1 h2; omega
      · intro c hc
        rw [List.getElem?_set_ne (by omega)]
        exact hpre1 c hc
    · have e1 : ¬ ((((x + 1) % 8 : Nat) : Int) = 0) := by
        have : (x + 1) % 8 ≠ 0 := by omega
        exact_mod_cast this
      have c1 : ¬ (((x % 8 : Nat) : Int) = ((tabSize - 1 : Nat) : Int)) := by
        intro h
        have h' : x % 8 = tabSize - 1 := by exact_mod_cast h
        exact h7 h'
      simp only [if_neg e1, if_neg c1]
      obtain ⟨row', hrun, htab, hpad, hpre⟩ := ih (x + 1) (mx + 1) (row1.set x "")
        (by simp; omega) (by omega)
      have e2 : 8 - x % 8 = (8 - (x + 1) % 8) + 1 := by omega
      refine ⟨row', ?_, ?_, ?_, ?_⟩
      · rw [hrun, e2]
        push_cast
        congr 3
        ring
      · rw [← htab]
        congr 1
        omega
      · intro c h1 h2
        by_cases hc : c = x
        · subst hc
          rw [hpre c (by omega), List.getElem?_set_self hlen1]
        · exact hpad c (by omega) (by omega)
      · intro c hc
        rw [hpre c (by omega), List.getElem?_set_ne (by omega)]
        exact hpre1 c hc

/-- C10: for an in-range cursor `(x, y)` and either insert mode, the tab key
returns `MoveY = 0` and `MoveX = d` with `1 ≤ d ≤ 8` and `((x + d) & 7) = 0`,
changes line `y` only, and in the new line the cell at `x + d - 1` holds the
tab glyph and every cell at a column in `[x, x + d - 1)` is empty padding. -/
theorem tab_reaches_next_stop (file : Doc) (x y : Nat) (row : Line) (ins : Bool)
    (hy : file[y]? = some row) (hx : x ≤ row.length) :
    ∃ (d : Nat) (row' : Line),
      handlerWrite ⟨x, y, "\t", ins⟩ file = some (⟨d, 0⟩, file.set y row')
        ∧ 1 ≤ d ∧ d ≤ 8
        ∧ Int.land ((x : Int) + (d : Int)) 7 = 0
        ∧ row'[x + d - 1]? = some "\t"
        ∧ ∀ c, x ≤ c → c < x + d - 1 → row'[c]? = some "" := by
  rw [handlerWrite_inrange _ file x y row rfl rfl hy hx]
  obtain ⟨pre, post, rfl, rfl⟩ := split_at hy
  obtain ⟨row', hrun, htab, hpad, _⟩ := tabLoop_spec ins pre post tabSize x 0 row hx
    (by unfold tabSize; omega)
  refine ⟨8 - x % 8, row', ?_, by omega, by omega, ?_, htab, hpad⟩
  · simp only [show ¬ ("\t" = "Enter") by decide, show ¬ ("\t" = "Delete") by decide,
      show ¬ ("\t" = "Backspace") by decide, if_false, if_true]
    rw [hrun, set_app_len]
    simp
  · have h7 : (7 : Int) = ((tabSize - 1 : Nat) : Int) := rfl
    have hs : ((x : Int) + ((8 - x % 8 : Nat) : Int)) = ((x + (8 - x % 8) : Nat) : Int) := by
      push_cast; rfl
    rw [h7, hs, land_tab]
    have : (x + (8 - x % 8)) % 8 = 0 := by omega
    rw [this]
    rfl

theorem tab_reaches_next_stop_witness :
    ∃ (d : Nat) (row' : Line),
      handlerWrite ⟨(2 : Nat), (0 : Nat), "\t", true⟩
          [["H", "e", "l", "l", "o"], ["w", "o", "r", "l", "d"]]
        = some (⟨d, 0⟩, [["H", "e", "l", "l", "o"], ["w", "o", "r", "l", "d"]].set 0 row')
        ∧ 1 ≤ d ∧ d ≤ 8
        ∧ Int.land (((2 : Nat) : Int) + (d : Int)) 7 = 0
        ∧ row'[2 + d - 1]? = some "\t"
        ∧ ∀ c, 2 ≤ c → c < 2 + d - 1 → row'[c]? = some "" :=
  tab_reaches_next_stop [["H", "e", "l", "l", "o"], ["w", "o", "r", "l", "d"]] 2 0
    ["H", "e", "l", "l", "o"] true rfl (by decide)


/-! ## Key `Backspace` inside a line -/

theorem backspaceLoop_spec (pre post : Doc) :
    ∀ (fuel n j : Nat) (mx : Int) (row : Line), n + 1 ≤ row.length → j ≤ n →
      (∀ c, j ≤ c → c < n → row[c]? = some "") → (j = 0 ∨ row[j - 1]? ≠ some "") →
      n + 1 - j ≤ fuel →
      backspaceLoop (pre.length : Int) fuel ((n : Int) + 1) mx row (pre ++ row :: post)
        = some (⟨mx - ((n + 1 - j : Nat) : Int), 0⟩,
            pre ++ (row.take j ++ row.drop (n + 1)) :: post) := by
  intro fuel
  induction fuel with
  | zero => intro n j mx row _ hj _ _ hf; omega
  | succ fuel ih =>
    intro n j mx row hlen hj hpad hstop hf
    have hx0 : ¬ ((n : Int) + 1 = 0) := by omega
    have hx1 : ((n : Int) + 1 - 1) = (n : Int) := by omega
    rw [backspaceLoop]
    simp only [if_neg hx0, Option.bind_eq_bind, hx1]
    rw [goSliceTo_nat _ _ (by omega), goSliceFrom_nat_succ _ _ hlen]
    simp only [Option.some_bind]
    rw [goSet_nat _ _ _ (by simp), set_app_len]
    simp only [Option.some_bind, List.set_cons_zero]
    cases n with
    | zero =>
      have hj0 : j = 0 := by omega
      subst hj0
      simp
    | succ n' =>
      have hge : ((n' + 1 : Nat) : Int) ≥ 1 := by omega
      have hx2 : (((n' + 1 : Nat) : Int) - 1) = (n' : Int) := by omega
      simp only [if_pos hge, hx2]
      obtain ⟨c, hc⟩ : ∃ c, row[n']? = some c := ⟨_, List.getElem?_eq_getElem (by omega)⟩
      have hc1 : (row.take (n' + 1) ++ row.drop (n' + 1 + 1))[n']? = some c := by
        rw [List.getElem?_append_left (by simp; omega), List.getElem?_take_of_lt (by omega), hc]
      rw [goIndex_nat, hc1]
      simp only [Option.some_bind]
      by_cases hce : c = ""
      · subst hce
        have hjn : j ≤ n' := by
          rcases Nat.lt_or_ge n' j with h | h
          · have hjeq : j = n' + 1 := by omega
            rcases hstop with h0 | h1
            · omega
            · exfalso; apply h1; rw [hjeq]; simpa using hc
          · exact h
        simp only [if_true]
        have hcast : ((n' + 1 : Nat) : Int) = (n' : Int) + 1 := by push_cast; rfl
        rw [hcast, ih n' j (mx - 1) _ (by simp; omega) hjn ?_ ?_ (by omega)]
        · have e1 : List.take j (row.take (n' + 1) ++ row.drop (n' + 1 + 1)) = row.take j := by
            rw [List.take_append_of_le_length (by simp; omega), List.take_take]
            congr 1; omega
          have e2 : List.drop (n' + 1) (row.take (n' + 1) ++ row.drop (n' + 1 + 1))
              = row.drop (n' + 1 + 1) := by
            have hl : (row.take (n' + 1)).length = n' + 1 := by simp; omega
            exact List.drop_left' hl
          rw [e1, e2]
          have e3 : mx - 1 - ((n' + 1 - j : Nat) : Int) = mx - ((n' + 1 + 1 - j : Nat) : Int) := by
            omega
          rw [e3]
        · intro k hk1 hk2
          rw [List.getElem?_append_left (by simp; omega), List.getElem?_take_of_lt (by omega)]
          exact hpad k hk1 (by omega)
        · rcases hstop with h0 | h1
          · exact Or.inl h0
          · refine Or.inr ?_
            rw [List.getElem?_append_left (by simp; omega), List.getElem?_take_of_lt (by omega)]
            exact h1
      · have hjn : j = n' + 1 := by
          rcases Nat.lt_or_ge n' j with h | h
          · omega
          · exfalso
            have := hpad n' h (by omega)
            rw [hc] at this
            exact hce (by simpa using this)
        subst hjn
        simp only [if_neg hce]
        have e3 : mx - 1 = mx - ((n' + 1 + 1 - (n' + 1) : Nat) : Int) := by omega
        rw [← e3]

theorem handlerWrite_backspace_run (pre post : Doc) (row : Line) (n j : Nat) (ins : Bool)
    (X Y : Int) (hX : X = (n : Int) + 1) (hY : Y = (pre.length : Int))
    (hlen : n + 1 ≤ row.length) (hj : j ≤ n)
    (hpad : ∀ c, j ≤ c → c < n → row[c]? = some "") (hstop : j = 0 ∨ row[j - 1]? ≠ some "") :
    handlerWrite ⟨X, Y, "Backspace", ins⟩ (pre ++ row :: post)
      = some (⟨(j : Int) - ((n : Int) + 1), 0⟩,
          pre ++ (row.take j ++ row.drop (n + 1)) :: post) := by
  have hrow : (pre ++ row :: post)[pre.length]? = some row := by
    rw [getElem?_app_len]; simp
  rw [handlerWrite_inrange _ _ (n + 1) pre.length row hY (by rw [hX]; push_cast; rfl) hrow hlen]
  subst hX; subst hY
  simp only [show ¬ ("Backspace" = "Enter") by decide, show ¬ ("Backspace" = "Delete") by decide,
    if_false, if_true]
  rw [backspaceLoop_spec pre post (row.length + 1) n j 0 row hlen hj hpad hstop (by omega)]
  have e : (0 : Int) - ((n + 1 - j : Nat) : Int) = (j : Int) - ((n : Int) + 1) := by omega
  rw [e]

/-- The start of the padding run that ends before column `n`. -/
theorem padding_run_start (row : Line) :
    ∀ n, ∃ j, j ≤ n ∧ (∀ c, j ≤ c → c < n → row[c]? = some "")
      ∧ (j = 0 ∨ row[j - 1]? ≠ some "") := by
  intro n
  induction n with
  | zero => exact ⟨0, Nat.le_refl _, fun c _ h => absurd h (Nat.not_lt_zero c), Or.inl rfl⟩
  | succ n ih =>
    by_cases h : row[n]? = some ""
    · obtain ⟨j, hj, hpad, hstop⟩ := ih
      refine ⟨j, by omega, ?_, hstop⟩
      intro c h1 h2
      by_cases hc : c = n
      · subst hc; exact h
      · exact hpad c h1 (by omega)
    · refine ⟨n + 1, Nat.le_refl _, fun c h1 h2 => by omega, Or.inr ?_⟩
      simpa using h

/-- C12: for an in-range cursor `(x, y)` with `x > 0`, key `Backspace` removes
the cell at `x - 1` and the maximal run of empty cells right before it: with
`j` the least index such that the cells at `[j, x - 1)` are all empty, the new
line `y` is `row[0..j) ++ row[x..)`, the displacement is `(j - x, 0)` and no
other line changes. -/
theorem backspace_removes_padding_run (file : Doc) (x y : Nat) (row : Line) (ins : Bool)
    (hy : file[y]? = some row) (hx0 : 0 < x) (hx : x ≤ row.length) :
    ∃ j, j ≤ x - 1 ∧ (∀ c, j ≤ c → c < x - 1 → row[c]? = some "")
      ∧ (∀ j', j' ≤ x - 1 → (∀ c, j' ≤ c → c < x - 1 → row[c]? = some "") → j ≤ j')
      ∧ handlerWrite ⟨x, y, "Backspace", ins⟩ file
          = some (⟨(j : Int) - (x : Int), 0⟩, file.set y (row.take j ++ row.drop x)) := by
  obtain ⟨j, hj, hpad, hstop⟩ := padding_run_start row (x - 1)
  refine ⟨j, hj, hpad, ?_, ?_⟩
  · intro j' hj' hpad'
    rcases Nat.lt_or_ge j' j with h | h
    · exfalso
      rcases hstop with h0 | h1
      · omega
      · exact h1 (hpad' (j - 1) (by omega) (by omega))
    · exact h
  · obtain ⟨pre, post, rfl, rfl⟩ := split_at hy
    have hxe : x = (x - 1) + 1 := by omega
    rw [handlerWrite_backspace_run pre post row (x - 1) j ins _ _ (by omega) rfl (by omega) hj
      hpad hstop, set_app_len, List.set_cons_zero, ← hxe]
    congr 3
    omega

theorem backspace_removes_padding_run_witness :
    handlerWrite ⟨(8 : Nat), (0 : Nat), "Backspace", false⟩
        [["H", "e", "", "", "", "", "", "\t", "w"]] = some (⟨-6, 0⟩, [["H", "e", "w"]])
    ∧ ∃ j, j ≤ 8 - 1
      ∧ (∀ c, j ≤ c → c < 8 - 1 → ["H", "e", "", "", "", "", "", "\t", "w"][c]? = some "")
      ∧ (∀ j', j' ≤ 8 - 1 →
          (∀ c, j' ≤ c → c < 8 - 1 → ["H", "e", "", "", "", "", "", "\t", "w"][c]? = some "") →
          j ≤ j')
      ∧ handlerWrite ⟨(8 : Nat), (0 : Nat), "Backspace", false⟩
            [["H", "e", "", "", "", "", "", "\t", "w"]]
          = some (⟨(j : Int) - ((8 : Nat) : Int), 0⟩,
              [["H", "e", "", "", "", "", "", "\t", "w"]].set 0
                (["H", "e", "", "", "", "", "", "\t", "w"].take j
                  ++ ["H", "e", "", "", "", "", "", "\t", "w"].drop 8)) :=
  ⟨by decide,
    backspace_removes_padding_run [["H", "e", "", "", "", "", "", "\t", "w"]] 8 0
      ["H", "e", "", "", "", "", "", "\t", "w"] false rfl (by decide) (by decide)⟩


/-! ## Tab followed by `Backspace` -/

theorem handlerWrite_tab (pre post : Doc) (row : Line) (x : Nat) (ins : Bool)
    (hx : x ≤ row.length) :
    ∃ row', handlerWrite ⟨x, pre.length, "\t", ins⟩ (pre ++ row :: post)
        = some (⟨((8 - x % 8 : Nat) : Int), 0⟩, pre ++ row' :: post)
      ∧ row'[x + (8 - x % 8) - 1]? = some "\t"
      ∧ (∀ c, x ≤ c → c < x + (8 - x % 8) - 1 → row'[c]? = some "")
      ∧ (∀ c, c < x → row'[c]? = row[c]?) := by
  have hrow : (pre ++ row :: post)[pre.length]? = some row := by
    rw [getElem?_app_len]; simp
  obtain ⟨row', hrun, htab, hpad, hpre⟩ := tabLoop_spec ins pre post tabSize x 0 row hx
    (by unfold tabSize; omega)
  refine ⟨row', ?_, htab, hpad, hpre⟩
  rw [handlerWrite_inrange _ _ x pre.length row rfl rfl hrow hx]
  simp only [show ¬ ("\t" = "Enter") by decide, show ¬ ("\t" = "Delete") by decide,
    show ¬ ("\t" = "Backspace") by decide, if_false, if_true]
  rw [hrun]
  simp

/-- C11 as stated fails: in a line that is one tab run, the tab key at column 3
returns `MoveX = 5`, and `Backspace` at column 8 of the result returns
`MoveX = -8`, since it also removes the padding before column 3. -/
theorem tab_backspace_overshoots :
    handlerWrite ⟨3, 0, "\t", false⟩ [["", "", "", "", "", "", "", "\t"]]
        = some (⟨5, 0⟩, [["", "", "", "", "", "", "", "\t"]])
      ∧ handlerWrite ⟨3 + 5, 0, "Backspace", false⟩ [["", "", "", "", "", "", "", "\t"]]
        = some (⟨-8, 0⟩, [[]]) := by
  decide

/-- C11, amended: for an in-range cursor `(x, y)` with `x = 0` or a non-empty
cell at column `x - 1`, and either insert mode: the tab key at `(x, y)`
returns `MoveX = d`, and `Backspace` at `(x + d, y)` on the resulting document
returns `MoveX = -d`, `MoveY = 0`. -/
theorem tab_then_backspace_returns (file : Doc) (x y : Nat) (row : Line) (ins ins2 : Bool)
    (hy : file[y]? = some row) (hx : x ≤ row.length)
    (hprev : x = 0 ∨ row[x - 1]? ≠ some "") :
    ∃ (d : Int) (file1 file2 : Doc),
      handlerWrite ⟨x, y, "\t", ins⟩ file = some (⟨d, 0⟩, file1)
        ∧ handlerWrite ⟨(x : Int) + d, y, "Backspace", ins2⟩ file1 = some (⟨-d, 0⟩, file2) := by
  obtain ⟨pre, post, rfl, rfl⟩ := split_at hy
  obtain ⟨row', hrun, htab, hpad, hpre⟩ := handlerWrite_tab pre post row x ins hx
  have hlen : x + (8 - x % 8) - 1 < row'.length := by
    rcases Nat.lt_or_ge (x + (8 - x % 8) - 1) row'.length with h | h
    · exact h
    · rw [List.getElem?_eq_none h] at htab; cases htab
  refine ⟨((8 - x % 8 : Nat) : Int), pre ++ row' :: post,
    pre ++ (row'.take x ++ row'.drop (x + (8 - x % 8) - 1 + 1)) :: post, hrun, ?_⟩
  have hstop : x = 0 ∨ row'[x - 1]? ≠ some "" := by
    rcases Nat.eq_zero_or_pos x with hz | hp
    · exact Or.inl hz
    · rcases hprev with h0 | h1
      · exact Or.inl h0
      · refine Or.inr ?_
        rw [hpre (x - 1) (by omega)]
        exact h1
  rw [handlerWrite_backspace_run pre post row' (x + (8 - x % 8) - 1) x ins2 _ _ (by omega) rfl
    (by omega) (by omega) hpad hstop]
  congr 3
  omega

theorem tab_then_backspace_returns_witness :
    ∃ (d : Int) (file1 file2 : Doc),
      handlerWrite ⟨(2 : Nat), (0 : Nat), "\t", true⟩
          [["H", "e", "l", "l", "o"], ["w", "o", "r", "l", "d"]] = some (⟨d, 0⟩, file1)
        ∧ handlerWrite ⟨((2 : Nat) : Int) + d, (0 : Nat), "Backspace", false⟩ file1
          = some (⟨-d, 0⟩, file2) :=
  tab_then_backspace_returns [["H", "e", "l", "l", "o"], ["w", "o", "r", "l", "d"]] 2 0
    ["H", "e", "l", "l", "o"] true false rfl (by decide) (by decide)


/-! ## Key `Delete` -/

theorem handlerWrite_delete_join (pre post : Doc) (row next : Line) (ins : Bool) :
    handlerWrite ⟨row.length, pre.length, "Delete", ins⟩ (pre ++ row :: next :: post)
      = some (⟨0, 0⟩, pre ++ (row ++ next) :: post) := by
  have hrow : (pre ++ row :: next :: post)[pre.length]? = some row := by
    rw [getElem?_app_len]; simp
  rw [handlerWrite_inrange _ _ row.length pre.length row rfl rfl hrow (Nat.le_refl _)]
  simp only [show ¬ ("Delete" = "Enter") by decide, if_false, if_true, writeDelete,
    Option.bind_eq_bind]
  rw [goIndex_nat_succ, getElem?_app_add]
  simp only [List.getElem?_cons_succ, List.getElem?_cons_zero, Option.some_bind]
  rw [goSet_nat _ _ _ (by simp), set_app_len]
  simp only [Option.some_bind, List.set_cons_zero]
  rw [goSliceTo_nat_succ _ _ (by simp)]
  simp only [Option.some_bind]
  have h2 : ((pre.length : Int) + 2) = (((pre.length + 1 : Nat) : Int) + 1) := by
    push_cast; ring
  rw [h2, goSliceFrom_nat_succ _ _ (by simp; omega)]
  simp only [Option.some_bind, take_app_add, List.take_succ_cons, List.take_zero]
  rw [show pre.length + 1 + 1 = pre.length + 2 by omega, drop_app_add]
  simp

theorem deleteLoop_spec (a rest : Line) (t : String) (ht : t ≠ "") :
    ∀ (m fuel : Nat), m + 1 ≤ fuel →
      deleteLoop (a.length : Int) fuel (a ++ (List.replicate m "" ++ t :: rest))
        = some (a ++ t :: rest) := by
  intro m
  induction m with
  | zero =>
    intro fuel hf
    obtain ⟨f, rfl⟩ : ∃ f, fuel = f + 1 := ⟨fuel - 1, by omega⟩
    rw [deleteLoop, goIndex_nat, getElem?_app_len]
    simp [ht]
  | succ m ih =>
    intro fuel hf
    obtain ⟨f, rfl⟩ : ∃ f, fuel = f + 1 := ⟨fuel - 1, by omega⟩
    rw [deleteLoop, goIndex_nat, getElem?_app_len]
    simp only [List.replicate_succ, List.cons_append, List.getElem?_cons_zero, if_true,
      Option.bind_eq_bind]
    rw [goSliceTo_nat _ _ (by simp), goSliceFrom_nat_succ _ _ (by simp)]
    simp only [Option.some_bind, take_app_len]
    rw [show a.length + 1 = a.length + 1 from rfl, drop_app_add]
    simp only [List.drop_succ_cons, List.drop_zero]
    exact ih f (by omega)

theorem handlerWrite_delete_run (pre post : Doc) (lpre lpost : Line) (k i : Nat) (ins : Bool)
    (hi : i ≤ k) :
    handlerWrite ⟨((lpre.length + i : Nat) : Int), pre.length, "Delete", ins⟩
        (pre ++ (lpre ++ List.replicate k "" ++ ["\t"] ++ lpost) :: post)
      = some (⟨0, 0⟩, pre ++ (lpre ++ List.replicate i "" ++ lpost) :: post) := by
  have hsplit : lpre ++ List.replicate k "" ++ ["\t"] ++ lpost
      = (lpre ++ List.replicate i "") ++ (List.replicate (k - i) "" ++ "\t" :: lpost) := by
    have hr : List.replicate k "" = List.replicate i "" ++ List.replicate (k - i) "" := by
      rw [← List.replicate_add]
      congr 1
      omega
    rw [hr]
    simp only [List.append_assoc, List.singleton_append, List.cons_append, List.nil_append]
  have hal : (lpre ++ List.replicate i "").length = lpre.length + i := by simp
  rw [hsplit, ← hal]
  generalize lpre ++ List.replicate i "" = a
  have hrow : (pre ++ (a ++ (List.replicate (k - i) "" ++ "\t" :: lpost)) :: post)[pre.length]?
      = some (a ++ (List.replicate (k - i) "" ++ "\t" :: lpost)) := by
    rw [getElem?_app_len]; simp
  rw [handlerWrite_inrange _ _ a.length pre.length _ rfl rfl hrow (by simp)]
  have hne : ¬ ((a.length : Int)
      = ((a ++ (List.replicate (k - i) "" ++ "\t" :: lpost)).length : Int)) := by
    simp
    omega
  simp only [show ¬ ("Delete" = "Enter") by decide, if_false, if_true, writeDelete, if_neg hne,
    Option.bind_eq_bind]
  rw [deleteLoop_spec a lpost "\t" (by decide) (k - i) _ (by simp; omega)]
  simp only [Option.some_bind]
  rw [goSliceTo_nat _ _ (by simp), goSliceFrom_nat_succ _ _ (by simp)]
  simp only [Option.some_bind, take_app_len]
  rw [show a.length + 1 = a.length + 1 from rfl, drop_app_add]
  simp only [List.drop_succ_cons, List.drop_zero]
  rw [goSet_nat _ _ _ (by simp), set_app_len]
  simp

/-- C13: with the cursor at the end of line `y` and a line `y + 1` present,
key `Delete` replaces line `y` by line `y` followed by line `y + 1`, removes
line `y + 1`, keeps all other lines, and returns the zero displacement. -/
theorem delete_joins_next_line (file : Doc) (y : Nat) (row next : Line) (ins : Bool)
    (hy : file[y]? = some row) (hnext : file[y + 1]? = some next) :
    handlerWrite ⟨row.length, y, "Delete", ins⟩ file
        = some (⟨0, 0⟩, file.take y ++ [row ++ next] ++ file.drop (y + 2))
      ∧ (file.take y ++ [row ++ next] ++ file.drop (y + 2)).length + 1 = file.length := by
  obtain ⟨pre, post, rfl, rfl⟩ := split_at hy
  rw [getElem?_app_add] at hnext
  obtain ⟨post', rfl⟩ : ∃ post', post = next :: post' := by
    cases post with
    | nil => simp at hnext
    | cons n p => simp at hnext; exact ⟨p, by rw [hnext]⟩
  refine ⟨?_, ?_⟩
  · rw [handlerWrite_delete_join, take_app_len, drop_app_add]
    simp
  · rw [take_app_len, drop_app_add]
    simp
    omega

theorem delete_joins_next_line_witness :
    handlerWrite ⟨(["H", "e", "l", "l", "o"].length : Nat), (0 : Nat), "Delete", false⟩
        [["H", "e", "l", "l", "o"], ["w", "o", "r", "l", "d"]]
      = some (⟨0, 0⟩, [["H", "e", "l", "l", "o", "w", "o", "r", "l", "d"]]) :=
  (delete_joins_next_line [["H", "e", "l", "l", "o"], ["w", "o", "r", "l", "d"]] 0
    ["H", "e", "l", "l", "o"] ["w", "o", "r", "l", "d"] false rfl rfl).1

/-- C14 as stated fails: `Delete` at column 3, inside the tab run of the line
`a`, six padding cells, tab, `b`, keeps the two padding cells before the
cursor; the line does not become `a`, `b`. -/
theorem delete_keeps_padding_before_cursor :
    handlerWrite ⟨3, 0, "Delete", false⟩ [["a", "", "", "", "", "", "", "\t", "b"]]
        = some (⟨0, 0⟩, [["a", "", "", "b"]])
      ∧ ["a", "", "", "b"] ≠ ["a"] ++ ["b"] := by
  decide

/-- C14, amended: in a line `lpre ++ pad ++ [tab] ++ lpost` with `pad` made of
`k` empty cells, `Delete` at a column `x` inside the run
(`len lpre ≤ x ≤ len lpre + k`) removes the padding from `x` on and the tab
cell: the line becomes `lpre`, the `x - len lpre` padding cells before the
cursor, `lpost`; it is `lpre ++ lpost` when `x = len lpre`. -/
theorem delete_in_tab_run (file : Doc) (x y : Nat) (lpre lpost : Line) (k : Nat) (ins : Bool)
    (hy : file[y]? = some (lpre ++ List.replicate k "" ++ ["\t"] ++ lpost))
    (h1 : lpre.length ≤ x) (h2 : x ≤ lpre.length + k) :
    handlerWrite ⟨x, y, "Delete", ins⟩ file
        = some (⟨0, 0⟩, file.set y (lpre ++ List.replicate (x - lpre.length) "" ++ lpost))
      ∧ (x = lpre.length →
          lpre ++ List.replicate (x - lpre.length) "" ++ lpost = lpre ++ lpost) := by
  refine ⟨?_, ?_⟩
  · obtain ⟨pre, post, rfl, rfl⟩ := split_at hy
    have hxe : x = lpre.length + (x - lpre.length) := by omega
    have h := handlerWrite_delete_run pre post lpre lpost k (x - lpre.length) ins (by omega)
    rw [← hxe] at h
    rw [h, set_app_len, List.set_cons_zero]
  · intro hx
    simp [hx]

theorem delete_in_tab_run_witness :
    handlerWrite ⟨(1 : Nat), (0 : Nat), "Delete", false⟩
        [["a"] ++ List.replicate 6 "" ++ ["\t"] ++ ["b"]]
        = some (⟨0, 0⟩, [["a"] ++ List.replicate 6 "" ++ ["\t"] ++ ["b"]].set 0
            (["a"] ++ List.replicate (1 - ["a"].length) "" ++ ["b"]))
      ∧ (1 = ["a"].length →
          ["a"] ++ List.replicate (1 - ["a"].length) "" ++ ["b"] = ["a"] ++ ["b"]) :=
  delete_in_tab_run [["a"] ++ List.replicate 6 "" ++ ["\t"] ++ ["b"]] 1 0 ["a"] ["b"] 6 false
    rfl (by decide) (by decide)

/-- C15 (the code departs from it): `Delete` with the cursor at the end of the
last line indexes `file[w.Y+1]` past the end of the document, and `Delete` on
a padding cell whose run reaches the end of the line indexes `row[w.X]` past
the end of the line; both are run-time panics. -/
theorem delete_panics_at_document_end :
    handlerWrite ⟨5, 1, "Delete", false⟩ [["H", "e", "l", "l", "o"], ["w", "o", "r", "l", "d"]]
        = none
      ∧ handlerWrite ⟨1, 0, "Delete", false⟩ [["a", "", ""]] = none := by
  decide


/-! ## Cursors and ranges outside the document -/

/-- C16: for a cursor of non-negative coordinates with `y` past the last line
or `x` past the end of line `y`, `handlerWrite` returns the zero displacement
and leaves the document as it was, for every key and insert mode, and
`handlerPaste` leaves the document as it was, for every buffer. -/
theorem cursor_out_of_range_is_noop (file : Doc) (x y : Nat) (key : String) (ins : Bool)
    (buf : List (List Char))
    (h : y ≥ file.length ∨ ∃ row, file[y]? = some row ∧ x > row.length) :
    handlerWrite ⟨x, y, key, ins⟩ file = some (⟨0, 0⟩, file)
      ∧ handlerPaste ⟨x, y, buf⟩ file = some file := by
  rcases h with h | ⟨row, hrow, hx⟩
  · have g : ((y : Int) ≥ (file.length : Int)) := by omega
    constructor
    · simp only [handlerWrite, if_pos g]
    · simp only [handlerPaste, if_pos g]
  · have hyl : y < file.length := by
      rcases Nat.lt_or_ge y file.length with h1 | h1
      · exact h1
      · rw [List.getElem?_eq_none h1] at hrow; cases hrow
    have g : ¬ ((y : Int) ≥ (file.length : Int)) := by omega
    have gx : ((x : Int) > (row.length : Int)) := by omega
    constructor
    · simp only [handlerWrite, if_neg g]
      rw [goIndex_nat, hrow]
      simp only [if_pos gx]
    · simp only [handlerPaste, if_neg g]
      rw [goIndex_nat, hrow]
      simp only [if_pos gx]

theorem cursor_out_of_range_is_noop_witness :
    handlerWrite ⟨(6 : Nat), (1 : Nat), "a", true⟩
        [["H", "e", "l", "l", "o"], ["w", "o", "r", "l", "d"]]
        = some (⟨0, 0⟩, [["H", "e", "l", "l", "o"], ["w", "o", "r", "l", "d"]])
      ∧ handlerPaste ⟨(6 : Nat), (1 : Nat), [['a'], []]⟩
        [["H", "e", "l", "l", "o"], ["w", "o", "r", "l", "d"]]
        = some [["H", "e", "l", "l", "o"], ["w", "o", "r", "l", "d"]] :=
  cursor_out_of_range_is_noop [["H", "e", "l", "l", "o"], ["w", "o", "r", "l", "d"]] 6 1 "a" true
    [['a'], []] (Or.inr ⟨["w", "o", "r", "l", "d"], rfl, by decide⟩)

/-- C17 (the code departs from it): a negative coordinate passes the guards,
which test upper bounds only. A write or paste with `Y = -1` and a copy with
`Y0 = -1` panic on `file[-1]`, a write with `X = -1` panics on `row[-1]`, and a
copy with `X0 = -1` is not rejected but returns the text from column 0. -/
theorem negative_coordinate_panics :
    handlerWrite ⟨0, -1, "a", false⟩ [["H", "e", "l", "l", "o"], ["w", "o", "r", "l", "d"]] = none
      ∧ handlerWrite ⟨-1, 0, "a", false⟩ [["H", "e", "l", "l", "o"], ["w", "o", "r", "l", "d"]]
        = none
      ∧ handlerPaste ⟨0, -1, [['a']]⟩ [["H", "e", "l", "l", "o"], ["w", "o", "r", "l", "d"]]
        = none
      ∧ handlerCopy ⟨0, -1, 0, 0⟩ [["H", "e", "l", "l", "o"], ["w", "o", "r", "l", "d"]] = none
      ∧ handlerCopy ⟨-1, 0, 3, 0⟩ [["H", "e", "l", "l", "o"], ["w", "o", "r", "l", "d"]]
        = some ⟨["Hel"]⟩ := by
  decide

theorem normalize_nat (x0 y0 x1 y1 : Nat) :
    ∃ a b c d : Nat, normalize ⟨x0, y0, x1, y1⟩ = ⟨a, b, c, d⟩ := by
  unfold normalize
  split
  · exact ⟨x1, y1, x0, y0, rfl⟩
  · exact ⟨x0, y0, x1, y1, rfl⟩

/-- C18: for a range of non-negative coordinates that, once its endpoints are
in order, has `Y0` or `Y1` past the last line, `X0` past the end of line `Y0`
or `X1` past the end of line `Y1`, `handlerCopy` returns a buffer without
segments. -/
theorem copy_out_of_range_is_empty (file : Doc) (x0 y0 x1 y1 : Nat)
    (h : (normalize ⟨x0, y0, x1, y1⟩).Y0 ≥ (file.length : Int)
      ∨ (normalize ⟨x0, y0, x1, y1⟩).Y1 ≥ (file.length : Int)
      ∨ (normalize ⟨x0, y0, x1, y1⟩).X0
          > ((file.getD (normalize ⟨x0, y0, x1, y1⟩).Y0.toNat []).length : Int)
      ∨ (normalize ⟨x0, y0, x1, y1⟩).X1
          > ((file.getD (normalize ⟨x0, y0, x1, y1⟩).Y1.toNat []).length : Int)) :
    handlerCopy ⟨x0, y0, x1, y1⟩ file = some ⟨[]⟩ := by
  obtain ⟨a, b, c, d, hn⟩ := normalize_nat x0 y0 x1 y1
  rw [hn] at h
  simp only [Int.toNat_ofNat] at h
  simp only [handlerCopy, hn]
  by_cases g0 : ((b : Int) ≥ (file.length : Int))
  · simp only [if_pos g0]
  · have hb : b < file.length := by omega
    have hrow0 : file[b]? = some (file.getD b []) := by
      rw [List.getD_eq_getElem?_getD, List.getElem?_eq_getElem hb]; rfl
    simp only [if_neg g0]
    rw [goIndex_nat, hrow0]
    simp only []
    by_cases g1 : ((a : Int) > ((file.getD b []).length : Int))
    · simp only [if_pos g1]
    · simp only [if_neg g1]
      by_cases g2 : ((d : Int) ≥ (file.length : Int))
      · simp only [if_pos g2]
      · have hd : d < file.length := by omega
        have hrow1 : file[d]? = some (file.getD d []) := by
          rw [List.getD_eq_getElem?_getD, List.getElem?_eq_getElem hd]; rfl
        simp only [if_neg g2]
        rw [goIndex_nat, hrow1]
        simp only []
        have g3 : ((c : Int) > ((file.getD d []).length : Int)) := by
          rcases h with h | h | h | h
          · exact absurd h g0
          · exact absurd h g2
          · exact absurd h g1
          · exact h
        simp only [if_pos g3]

theorem copy_out_of_range_is_empty_witness :
    handlerCopy ⟨(1 : Nat), (0 : Nat), (3 : Nat), (2 : Nat)⟩
        [["H", "e", "l", "l", "o"], ["w", "o", "r", "l", "d"]] = some ⟨[]⟩ :=
  copy_out_of_range_is_empty [["H", "e", "l", "l", "o"], ["w", "o", "r", "l", "d"]] 1 0 3 2
    (Or.inr (Or.inl (by decide)))


/-! ## Tabs and combining marks in a pasted segment -/

theorem padLoop_spec :
    ∀ (fuel : Nat) (row : Line), 7 - row.length % 8 + 1 ≤ fuel →
      padLoop fuel row = some (row ++ List.replicate (7 - row.length % 8) "") := by
  intro fuel
  induction fuel with
  | zero => intro row hf; omega
  | succ fuel ih =>
    intro row hf
    have hland : Nat.land row.length (tabSize - 1) = row.length % 8 := by
      have := Nat.and_pow_two_sub_one_eq_mod row.length 3
      simpa using this
    rw [padLoop, hland]
    by_cases h7 : row.length % 8 = 7
    · have c1 : ¬ (row.length % 8 ≠ tabSize - 1) := by
        simp only [ne_eq, not_not]; rw [h7]; rfl
      rw [if_neg c1, h7]
      simp
    · have c1 : row.length % 8 ≠ tabSize - 1 := by
        intro h; exact h7 (by rw [h]; rfl)
      rw [if_pos c1, ih (row ++ [""]) (by simp; omega)]
      have e : 7 - row.length % 8 = (7 - (row ++ [""]).length % 8) + 1 := by
        simp; omega
      rw [e, List.replicate_succ]
      simp

theorem pasteRune_tab (row : Line) (b : Bool) :
    pasteRune '\t' row b
      = some (row ++ List.replicate (7 - row.length % 8) "" ++ ["\t"], false) := by
  have hs : String.singleton '\t' = "\t" := rfl
  have hc : isCombiner '\t' = false := by decide
  have hb : isCombinable '\t' = false := by decide
  simp only [pasteRune, hs, if_true, Option.bind_eq_bind]
  rw [padLoop_spec tabSize row (by unfold tabSize; omega)]
  simp only [Option.some_bind, hc, hb, Bool.false_eq_true, false_and, and_false, if_false]

/-- One round of the segment loop, for any segment, from the cells its code
point loop leaves. -/
theorem pasteLoop_round (m : Nat) (s : List Char) (rest : List (List Char)) (i : Nat)
    (A tail : Doc) (cur row2 : Line) (xn : Nat) (X Y : Int) (rr : Option Line)
    (hrun : pasteRunes s (cur.take xn) false = some row2)
    (hbrk : ¬ (s.length = 0 ∧ i + 1 = m)) (hx : xn ≤ cur.length)
    (hX : X = xn) (hY : Y = A.length) :
    pasteLoop m (s :: rest) i ⟨A ++ cur :: tail, X, Y, rr⟩
      = pasteLoop m rest (i + 1)
          ⟨A ++ row2 :: tail, 0, Y + 1, some (rr.getD (cur.drop xn))⟩ := by
  subst hX; subst hY
  have hlen : ¬ ((A.length : Int) ≥ ((A ++ cur :: tail).length : Int)) := by
    simp
  have hxc : ¬ ((xn : Int) > (cur.length : Int)) := by omega
  simp only [pasteLoop, if_neg hbrk, if_neg hlen, Option.bind_eq_bind]
  rw [goIndex_nat, getElem?_app_len]
  simp only [List.getElem?_cons_zero, Option.some_bind, if_neg hxc]
  rw [goSliceTo_nat _ _ hx]
  simp only [Option.some_bind]
  rw [hrun]
  simp only [Option.some_bind]
  rw [goSet_nat _ _ _ (by simp)]
  simp only [Option.some_bind, set_app_len, List.set_cons_zero]
  cases rr with
  | none =>
    simp only [Option.getD_none]
    rw [goSliceFrom_nat _ _ hx]
    simp only [Option.some_bind]
  | some r => simp only [Option.getD_some, Option.some_bind]

/-- A paste of one segment followed by the empty final segment. -/
theorem handlerPaste_segment (file : Doc) (x y : Nat) (row row2 : Line) (s : List Char)
    (hy : file[y]? = some row) (hx : x ≤ row.length)
    (hrun : pasteRunes s (row.take x) false = some row2) :
    handlerPaste ⟨x, y, [s, []]⟩ file
      = some (file.take y ++ [row2, row.drop x] ++ file.drop (y + 1)) := by
  obtain ⟨pre, post, rfl, rfl⟩ := split_at hy
  have hlen : ¬ ((pre.length : Int) ≥ ((pre ++ row :: post).length : Int)) := by
    simp
  have hxc : ¬ ((x : Int) > (row.length : Int)) := by omega
  have hpos : ([s, []] : List (List Char)).length > 0 := by simp
  simp only [handlerPaste, if_neg hlen]
  rw [goIndex_nat, hy]
  simp only [if_neg hxc, if_pos hpos, Option.bind_eq_bind]
  rw [goSliceTo_nat_succ _ _ (by simp), goSliceFrom_nat_succ _ _ (by simp)]
  simp only [Option.some_bind, take_app_add, drop_app_add, List.take_succ_cons, List.take_zero,
    List.drop_succ_cons, List.drop_zero, List.append_assoc, List.singleton_append,
    List.cons_append, List.nil_append, List.length_cons, List.length_nil,
    Nat.zero_add, Nat.add_sub_cancel, List.replicate_succ, List.replicate_zero]
  rw [pasteLoop_round 2 s [[]] 0 pre ([] :: post) row row2 x x pre.length none hrun (by omega)
    hx rfl rfl]
  simp only [pasteLoop, List.length_nil, true_and, Nat.zero_add, Nat.reduceAdd, if_true,
    Option.some_bind, Option.getD_none]
  have hlen2 : ¬ (((pre.length : Int) + 1) ≥ ((pre ++ row2 :: [] :: post).length : Int)) := by
    simp
  rw [if_neg hlen2, goIndex_nat_succ, getElem?_app_add]
  simp only [List.getElem?_cons_succ, List.getElem?_cons_zero, Option.some_bind]
  rw [goSet_nat_succ _ _ _ (by simp), set_app_add]
  simp

/-- C19: when the code point loop of `handlerPaste` meets a tab while the
active line `active` holds `n` cells, it appends `k` empty cells, `k` the
least number with `(n + k) mod 8 = 7`, then one cell with the tab glyph, so
the line has `n + k + 1` cells, a multiple of 8, and goes on with the flag
`isCombinAble` off; pasted at an in-range cursor `(x, y)`, a tab alone puts
these cells after the `x` cells before the cursor. -/
theorem paste_tab_pads_to_stop (file : Doc) (x y : Nat) (row : Line)
    (hy : file[y]? = some row) (hx : x ≤ row.length) :
    (∀ (cs : List Char) (active : Line) (b : Bool),
        pasteRunes ('\t' :: cs) active b
          = pasteRunes cs (active ++ List.replicate (7 - active.length % 8) "" ++ ["\t"]) false
        ∧ (active.length + (7 - active.length % 8)) % 8 = 7
        ∧ (∀ k, (active.length + k) % 8 = 7 → 7 - active.length % 8 ≤ k)
        ∧ (active ++ List.replicate (7 - active.length % 8) "" ++ ["\t"]).length
            = active.length + (7 - active.length % 8) + 1
        ∧ (active ++ List.replicate (7 - active.length % 8) "" ++ ["\t"]).length % 8 = 0)
      ∧ handlerPaste ⟨x, y, [['\t'], []]⟩ file
        = some (file.take y
            ++ [row.take x ++ List.replicate (7 - x % 8) "" ++ ["\t"], row.drop x]
            ++ file.drop (y + 1)) := by
  refine ⟨?_, ?_⟩
  · intro cs active b
    refine ⟨?_, by omega, fun k hk => by omega, by simp; omega, by simp; omega⟩
    rw [pasteRunes, pasteRune_tab]
    simp only [Option.bind_eq_bind, Option.some_bind]
  · have hl : (row.take x).length = x := by simp; omega
    have hrun : pasteRunes ['\t'] (row.take x) false
        = some (row.take x ++ List.replicate (7 - x % 8) "" ++ ["\t"]) := by
      rw [pasteRunes, pasteRune_tab, hl]
      simp only [Option.bind_eq_bind, Option.some_bind, pasteRunes]
    exact handlerPaste_segment file x y row _ ['\t'] hy hx hrun

theorem paste_tab_pads_to_stop_witness :
    (∀ (cs : List Char) (active : Line) (b : Bool),
        pasteRunes ('\t' :: cs) active b
          = pasteRunes cs (active ++ List.replicate (7 - active.length % 8) "" ++ ["\t"]) false
        ∧ (active.length + (7 - active.length % 8)) % 8 = 7
        ∧ (∀ k, (active.length + k) % 8 = 7 → 7 - active.length % 8 ≤ k)
        ∧ (active ++ List.replicate (7 - active.length % 8) "" ++ ["\t"]).length
            = active.length + (7 - active.length % 8) + 1
        ∧ (active ++ List.replicate (7 - active.length % 8) "" ++ ["\t"]).length % 8 = 0)
      ∧ handlerPaste ⟨(2 : Nat), (0 : Nat), [['\t'], []]⟩ [["H", "e", "l", "l", "o"]]
        = some ([["H", "e", "l", "l", "o"]].take 0
            ++ [["H", "e", "l", "l", "o"].take 2 ++ List.replicate (7 - 2 % 8) "" ++ ["\t"],
                ["H", "e", "l", "l", "o"].drop 2]
            ++ [["H", "e", "l", "l", "o"]].drop (0 + 1)) :=
  paste_tab_pads_to_stop [["H", "e", "l", "l", "o"]] 2 0 ["H", "e", "l", "l", "o"] rfl (by decide)

/-- C20 as stated fails: the base `e` is neither a tab nor a combining mark,
and pasted with U+0301 after it, it gives two cells, since `isCombinable`
accepts code points above 128 only. -/
theorem ascii_base_does_not_merge :
    isCombiner 'e' = false
      ∧ isCombiner (Char.ofNat 0x301) = true
      ∧ handlerPaste ⟨5, 0, [['e', Char.ofNat 0x301], []]⟩ [["H", "e", "l", "l", "o"]]
        = some [["H", "e", "l", "l", "o", "e", String.singleton (Char.ofNat 0x301)], []] := by
  decide

theorem pasteRunes_base_mark (b c : Char) (active : Line) (hb : b.toNat > 128)
    (hc1 : 0x300 ≤ c.toNat) (hc2 : c.toNat ≤ 0x36f) :
    pasteRunes [b, c] active false
      = some (active ++ [String.singleton b ++ String.singleton c]) := by
  have hbt : ¬ (String.singleton b = "\t") := by
    rw [singleton_eq_tab]
    intro h
    rw [h] at hb
    exact absurd hb (by decide)
  have hct : ¬ (String.singleton c = "\t") := by
    rw [singleton_eq_tab]
    intro h
    rw [h] at hc1
    exact absurd hc1 (by decide)
  have hcomb : isCombinable b = true := by
    simp [isCombinable, hb]
  have hmark : isCombiner c = true := by
    unfold isCombiner
    rw [if_pos ⟨hc1, hc2⟩]
  have hl : (((active ++ [String.singleton b]).length : Int) - 1) = (active.length : Int) := by
    simp
  simp only [pasteRunes, pasteRune, if_neg hbt, if_neg hct, Option.bind_eq_bind,
    Option.some_bind, Bool.false_eq_true, and_false, if_false, hcomb, hmark, and_true]
  rw [if_pos (by simp), hl, goIndex_nat, getElem?_app_len]
  simp only [List.getElem?_cons_zero, Option.some_bind]
  rw [goSet_nat _ _ _ (by simp), set_app_len]
  simp

/-- C20, amended: for every base code point `b` above 128 and every code
point `c` in U+0300..U+036F, the segment `b`, `c` gives one cell, whose text
is `b` followed by `c`: after whatever cells the active line holds, and, when
pasted at an in-range cursor `(x, y)`, after the `x` cells before the
cursor. -/
theorem base_above_128_merges_mark (file : Doc) (x y : Nat) (row : Line) (b c : Char)
    (hy : file[y]? = some row) (hx : x ≤ row.length) (hb : b.toNat > 128)
    (hc1 : 0x300 ≤ c.toNat) (hc2 : c.toNat ≤ 0x36f) :
    (∀ active : Line, pasteRunes [b, c] active false
        = some (active ++ [String.singleton b ++ String.singleton c]))
      ∧ handlerPaste ⟨x, y, [[b, c], []]⟩ file
        = some (file.take y
            ++ [row.take x ++ [String.singleton b ++ String.singleton c], row.drop x]
            ++ file.drop (y + 1)) :=
  ⟨fun active => pasteRunes_base_mark b c active hb hc1 hc2,
    handlerPaste_segment file x y row _ [b, c] hy hx
      (pasteRunes_base_mark b c (row.take x) hb hc1 hc2)⟩

theorem base_above_128_merges_mark_witness :
    (∀ active : Line, pasteRunes [Char.ofNat 0xe9, Char.ofNat 0x301] active false
        = some (active
            ++ [String.singleton (Char.ofNat 0xe9) ++ String.singleton (Char.ofNat 0x301)]))
      ∧ handlerPaste ⟨(5 : Nat), (0 : Nat), [[Char.ofNat 0xe9, Char.ofNat 0x301], []]⟩
          [["H", "e", "l", "l", "o"]]
        = some ([["H", "e", "l", "l", "o"]].take 0
            ++ [["H", "e", "l", "l", "o"].take 5
                  ++ [String.singleton (Char.ofNat 0xe9) ++ String.singleton (Char.ofNat 0x301)],
                ["H", "e", "l", "l", "o"].drop 5]
            ++ [["H", "e", "l", "l", "o"]].drop (0 + 1)) :=
  base_above_128_merges_mark [["H", "e", "l", "l", "o"]] 5 0 ["H", "e", "l", "l", "o"]
    (Char.ofNat 0xe9) (Char.ofNat 0x301) rfl (by decide) (by decide) (by decide) (by decide)


/-! ## Order of the sub-requests -/

/-- C22: for a request with copy, write and paste sub-requests, the handler
answers `resp` and leaves the document `file'` exactly when the copy result
is `handlerCopy` on the document before the request, the write is applied to
that document, the paste to the document the write produced, and the content
is rendered from the document after the paste. -/
theorem content_applies_copy_write_paste_render (file file' : Doc) (xp yp w h : Int)
    (cp : CopyRequest) (wq : WriteRequest) (ps : PasteRequest) (resp : ContentResponse) :
    handlerContent ⟨xp, yp, w, h, some cp, some wq, some ps⟩ file = some (resp, file')
      ↔ ∃ (c : CopyResponse) (wr : WriteResponse) (f1 : Doc),
          handlerCopy cp file = some c
            ∧ handlerWrite wq file = some (wr, f1)
            ∧ handlerPaste ps f1 = some file'
            ∧ renderContent ⟨xp, yp, w, h, some cp, some wq, some ps⟩ file' = some resp.Content
            ∧ resp.Copy = some c ∧ resp.Write = some wr := by
  simp only [handlerContent, Option.bind_eq_bind]
  constructor
  · intro hrun
    cases hc : handlerCopy cp file with
    | none => rw [hc] at hrun; simp at hrun
    | some c =>
      cases hw : handlerWrite wq file with
      | none => rw [hc, hw] at hrun; simp at hrun
      | some r =>
        obtain ⟨wr, f1⟩ := r
        cases hp : handlerPaste ps f1 with
        | none => rw [hc, hw] at hrun; simp [hp] at hrun
        | some f2 =>
          cases hr : renderContent ⟨xp, yp, w, h, some cp, some wq, some ps⟩ f2 with
          | none => rw [hc, hw] at hrun; simp [hp, hr] at hrun
          | some content =>
            rw [hc, hw] at hrun
            simp [hp, hr] at hrun
            obtain ⟨h1, h2⟩ := hrun
            subst h2
            subst h1
            exact ⟨c, wr, f1, rfl, rfl, hp, hr, rfl, rfl⟩
  · rintro ⟨c, wr, f1, hc, hw, hp, hr, h1, h2⟩
    rw [hc, hw]
    simp [hp, hr]
    cases resp
    simp_all

theorem content_applies_copy_write_paste_render_witness :
    handlerContent ⟨0, 0, 8, 1, some ⟨0, 0, 5, 0⟩, some ⟨5, 0, "!", false⟩,
        some ⟨6, 0, [['X'], []]⟩⟩ [["H", "e", "l", "l", "o"]]
      = some (⟨["H", "e", "l", "l", "o", "!", "X", ""], some ⟨["Hello"]⟩, some ⟨1, 0⟩⟩,
          [["H", "e", "l", "l", "o", "!", "X"], []]) :=
  (content_applies_copy_write_paste_render [["H", "e", "l", "l", "o"]]
    [["H", "e", "l", "l", "o", "!", "X"], []] 0 0 8 1 ⟨0, 0, 5, 0⟩ ⟨5, 0, "!", false⟩
    ⟨6, 0, [['X'], []]⟩ ⟨["H", "e", "l", "l", "o", "!", "X", ""], some ⟨["Hello"]⟩, some ⟨1, 0⟩⟩).mpr
    ⟨⟨["Hello"]⟩, ⟨1, 0⟩, [["H", "e", "l", "l", "o", "!"]], by decide, by decide, by decide,
      by decide, rfl, rfl⟩

/-! ## Key `Delete` on a non-empty cell -/

/-- C23: for an in-range cursor `(x, y)` on a non-empty cell, key `Delete`
removes that one cell: the new line `y` is `row[0..x) ++ row[x+1..)`, whatever
follows the cell; the displacement is zero and no other line changes. -/
theorem delete_removes_one_cell (file : Doc) (x y : Nat) (row : Line) (c : String) (ins : Bool)
    (hy : file[y]? = some row) (hc : row[x]? = some c) (hne : c ≠ "") :
    handlerWrite ⟨x, y, "Delete", ins⟩ file
      = some (⟨0, 0⟩, file.set y (row.take x ++ row.drop (x + 1))) := by
  obtain ⟨pre, post, rfl, rfl⟩ := split_at hy
  obtain ⟨rpre, rpost, rfl, rfl⟩ := split_at hc
  have hrow : (pre ++ (rpre ++ c :: rpost) :: post)[pre.length]? = some (rpre ++ c :: rpost) := by
    rw [getElem?_app_len]; simp
  rw [handlerWrite_inrange _ _ rpre.length pre.length _ rfl rfl hrow (by simp)]
  have hnl : ¬ ((rpre.length : Int) = ((rpre ++ c :: rpost).length : Int)) := by
    simp
    omega
  have hloop := deleteLoop_spec rpre rpost c hne 0 ((rpre ++ c :: rpost).length + 1) (by omega)
  simp only [List.replicate_zero, List.nil_append] at hloop
  simp only [show ¬ ("Delete" = "Enter") by decide, if_false, if_true, writeDelete, if_neg hnl,
    Option.bind_eq_bind]
  rw [hloop]
  simp only [Option.some_bind]
  rw [goSliceTo_nat _ _ (by simp), goSliceFrom_nat_succ _ _ (by simp)]
  simp only [Option.some_bind, take_app_len]
  rw [show rpre.length + 1 = rpre.length + 1 from rfl, drop_app_add]
  simp only [List.drop_succ_cons, List.drop_zero]
  rw [goSet_nat _ _ _ (by simp), set_app_len]
  simp

theorem delete_removes_one_cell_witness :
    handlerWrite ⟨(0 : Nat), (0 : Nat), "Delete", false⟩ [["a", "", "", "\t", "b"]]
      = some (⟨0, 0⟩, [["a", "", "", "\t", "b"]].set 0
          (["a", "", "", "\t", "b"].take 0 ++ ["a", "", "", "\t", "b"].drop (0 + 1))) :=
  delete_removes_one_cell [["a", "", "", "\t", "b"]] 0 0 ["a", "", "", "\t", "b"] "a" false
    rfl rfl (by decide)


/-! ## A chain of combining marks -/

theorem combiner_ne_tab (m : Char) (hm : isCombiner m = true) : ¬ (String.singleton m = "\t") := by
  rw [singleton_eq_tab]
  intro h
  rw [h] at hm
  exact absurd hm (by decide)

theorem append_singleton_mk (s : String) (m : Char) (ms : List Char) :
    (s ++ String.singleton m) ++ String.mk ms = s ++ String.mk (m :: ms) := by
  rw [String.append_assoc]
  rfl

/-- The marks of a chain all merge into the last cell. -/
theorem pasteRunes_marks (rest : List Char) (init : Line) :
    ∀ (marks : List Char) (s : String), (∀ m ∈ marks, isCombiner m = true) →
      pasteRunes (marks ++ rest) (init ++ [s]) true
        = pasteRunes rest (init ++ [s ++ String.mk marks]) true := by
  intro marks
  induction marks with
  | nil =>
    intro s _
    have e : s ++ String.mk [] = s := String.append_empty s
    rw [List.nil_append, e]
  | cons m ms ih =>
    intro s hmarks
    have hm := hmarks m (List.mem_cons_self _ _)
    have hl : (((init ++ [s]).length : Int) - 1) = (init.length : Int) := by simp
    rw [List.cons_append, pasteRunes]
    simp only [pasteRune, if_neg (combiner_ne_tab m hm), hm, Option.bind_eq_bind,
      Option.some_bind, and_true]
    rw [if_pos (by simp), hl, goIndex_nat, getElem?_app_len]
    simp only [List.getElem?_cons_zero, Option.some_bind]
    rw [goSet_nat _ _ _ (by simp), set_app_len]
    simp only [Option.some_bind, List.set_cons_zero]
    rw [ih (s ++ String.singleton m) (fun m' hm' => hmarks m' (List.mem_cons_of_mem _ hm')),
      append_singleton_mk]

/-- A code point above 128 that starts a cell, and the marks after it. -/
theorem pasteRunes_chain (c : Char) (marks rest : List Char) (active : Line) (b : Bool)
    (hc : c.toNat > 128) (hmarks : ∀ m ∈ marks, isCombiner m = true)
    (hnew : ¬ (active.length > 0 ∧ isCombiner c = true ∧ b = true)) :
    pasteRunes (c :: marks ++ rest) active b
      = pasteRunes rest (active ++ [String.mk (c :: marks)]) true := by
  have hct : ¬ (String.singleton c = "\t") := by
    rw [singleton_eq_tab]
    intro h
    rw [h] at hc
    exact absurd hc (by decide)
  have hcomb : isCombinable c = true := by
    simp [isCombinable, hc]
  rw [List.cons_append, pasteRunes]
  simp only [pasteRune, if_neg hct, Option.bind_eq_bind, Option.some_bind, if_neg hnew, hcomb]
  rw [pasteRunes_marks rest active marks (String.singleton c) hmarks]
  rfl

/-- C24: in one pasted segment, a code point `c` above 128 that starts a new
cell and the combining marks `marks` that follow it give one cell, whose text
is `c` followed by all the marks; the code points after the chain go on from
that cell. At the head of a segment pasted at an in-range cursor `(x, y)`
the cell comes right after the `x` cells before the cursor. -/
theorem mark_chain_merges_into_one_cell (file : Doc) (x y : Nat) (row : Line) (c : Char)
    (marks : List Char) (hy : file[y]? = some row) (hx : x ≤ row.length)
    (hc : c.toNat > 128) (hmarks : ∀ m ∈ marks, isCombiner m = true) :
    (∀ (rest : List Char) (active : Line) (b : Bool),
        ¬ (active.length > 0 ∧ isCombiner c = true ∧ b = true) →
        pasteRunes (c :: marks ++ rest) active b
          = pasteRunes rest (active ++ [String.mk (c :: marks)]) true)
      ∧ handlerPaste ⟨x, y, [c :: marks, []]⟩ file
        = some (file.take y ++ [row.take x ++ [String.mk (c :: marks)], row.drop x]
            ++ file.drop (y + 1)) := by
  refine ⟨fun rest active b hnew => pasteRunes_chain c marks rest active b hc hmarks hnew, ?_⟩
  have hrun : pasteRunes (c :: marks) (row.take x) false
      = some (row.take x ++ [String.mk (c :: marks)]) := by
    have h := pasteRunes_chain c marks [] (row.take x) false hc hmarks (by simp)
    rw [List.append_nil] at h
    rw [h, pasteRunes]
  exact handlerPaste_segment file x y row _ (c :: marks) hy hx hrun

theorem mark_chain_merges_into_one_cell_witness :
    (∀ (rest : List Char) (active : Line) (b : Bool),
        ¬ (active.length > 0 ∧ isCombiner (Char.ofNat 0xe9) = true ∧ b = true) →
        pasteRunes (Char.ofNat 0xe9 :: [Char.ofNat 0x301, Char.ofNat 0x94d] ++ rest) active b
          = pasteRunes rest
              (active ++ [String.mk (Char.ofNat 0xe9 :: [Char.ofNat 0x301, Char.ofNat 0x94d])])
              true)
      ∧ handlerPaste ⟨(5 : Nat), (0 : Nat),
          [Char.ofNat 0xe9 :: [Char.ofNat 0x301, Char.ofNat 0x94d], []]⟩
          [["H", "e", "l", "l", "o"]]
        = some ([["H", "e", "l", "l", "o"]].take 0
            ++ [["H", "e", "l", "l", "o"].take 5
                  ++ [String.mk (Char.ofNat 0xe9 :: [Char.ofNat 0x301, Char.ofNat 0x94d])],
                ["H", "e", "l", "l", "o"].drop 5]
            ++ [["H", "e", "l", "l", "o"]].drop (0 + 1)) :=
  mark_chain_merges_into_one_cell [["H", "e", "l", "l", "o"]] 5 0 ["H", "e", "l", "l", "o"]
    (Char.ofNat 0xe9) [Char.ofNat 0x301, Char.ofNat 0x94d] rfl (by decide) (by decide)
    (by decide)


/-! ## The cursor after a write -/

theorem cursorInRange_line (pre post : Doc) (r : Line) (X Y : Int) (hY : Y = (pre.length : Int))
    (h0 : 0 ≤ X) (h1 : X ≤ (r.length : Int)) :
    cursorInRange (pre ++ r :: post) X Y := by
  subst hY
  refine ⟨by omega, by simp, h0, ?_⟩
  rw [Int.toNat_ofNat, List.getD_eq_getElem?_getD, getElem?_app_len]
  simpa using h1

theorem deleteLoop_some (x : Nat) :
    ∀ (fuel : Nat) (row row1 : Line), deleteLoop (x : Int) fuel row = some row1 →
      x < row1.length := by
  intro fuel
  induction fuel with
  | zero => intro row row1 h; simp [deleteLoop] at h
  | succ fuel ih =>
    intro row row1 h
    rw [deleteLoop, goIndex_nat] at h
    cases hc : row[x]? with
    | none => rw [hc] at h; simp at h
    | some c =>
      have hxl : x < row.length := by
        rcases Nat.lt_or_ge x row.length with h1 | h1
        · exact h1
        · rw [List.getElem?_eq_none h1] at hc; cases hc
      rw [hc] at h
      simp only [] at h
      by_cases hce : c = ""
      · simp only [if_pos hce, Option.bind_eq_bind] at h
        rw [goSliceTo_nat _ _ (by omega), goSliceFrom_nat_succ _ _ (by omega)] at h
        simp only [Option.some_bind] at h
        exact ih _ _ h
      · simp only [if_neg hce] at h
        cases h
        exact hxl

theorem handlerWrite_delete_some (pre post : Doc) (row : Line) (x : Nat) (ins : Bool)
    (resp : WriteResponse) (file' : Doc) (hx : x ≤ row.length)
    (hrun : handlerWrite ⟨x, pre.length, "Delete", ins⟩ (pre ++ row :: post)
      = some (resp, file')) :
    resp = ⟨0, 0⟩ ∧ ∃ (r : Line) (post' : Doc), file' = pre ++ r :: post' ∧ x ≤ r.length := by
  have hrow : (pre ++ row :: post)[pre.length]? = some row := by
    rw [getElem?_app_len]; simp
  by_cases hxl : x = row.length
  · subst hxl
    cases post with
    | nil =>
      rw [handlerWrite_inrange _ _ row.length pre.length row rfl rfl hrow hx] at hrun
      simp only [show ¬ ("Delete" = "Enter") by decide, if_false, if_true, writeDelete,
        Option.bind_eq_bind] at hrun
      rw [goIndex_nat_succ, getElem?_app_add] at hrun
      simp at hrun
    | cons next post' =>
      rw [handlerWrite_delete_join] at hrun
      cases hrun
      exact ⟨rfl, row ++ next, post', rfl, by simp⟩
  · rw [handlerWrite_inrange _ _ x pre.length row rfl rfl hrow hx] at hrun
    have hnl : ¬ ((x : Int) = (row.length : Int)) := by omega
    simp only [show ¬ ("Delete" = "Enter") by decide, if_false, if_true, writeDelete,
      if_neg hnl, Option.bind_eq_bind] at hrun
    cases hdl : deleteLoop (x : Int) (row.length + 1) row with
    | none => rw [hdl] at hrun; simp at hrun
    | some row1 =>
      have hlt := deleteLoop_some x _ _ _ hdl
      rw [hdl] at hrun
      simp only [Option.some_bind] at hrun
      rw [goSliceTo_nat _ _ (by omega), goSliceFrom_nat_succ _ _ (by omega)] at hrun
      simp only [Option.some_bind] at hrun
      rw [goSet_nat _ _ _ (by simp), set_app_len] at hrun
      simp only [Option.some_bind, List.set_cons_zero] at hrun
      cases hrun
      exact ⟨rfl, _, post, rfl, by simp; omega⟩

theorem handlerWrite_backspace_origin (file : Doc) (row : Line) (ins : Bool)
    (hy : file[0]? = some row) :
    handlerWrite ⟨(0 : Nat), (0 : Nat), "Backspace", ins⟩ file = some (⟨0, 0⟩, file) := by
  rw [handlerWrite_inrange _ file 0 0 row rfl rfl hy (Nat.zero_le _)]
  simp [backspaceLoop]

/-- C25: for an in-range cursor `(x, y)`, every key and insert mode, when
`handlerWrite` returns a displacement and a document, the cursor
`(x + MoveX, y + MoveY)` is in range for that document. -/
theorem displacement_keeps_cursor_in_range (file file' : Doc) (x y : Nat) (row : Line)
    (key : String) (ins : Bool) (resp : WriteResponse)
    (hy : file[y]? = some row) (hx : x ≤ row.length)
    (hrun : handlerWrite ⟨x, y, key, ins⟩ file = some (resp, file')) :
    cursorInRange file' ((x : Int) + resp.MoveX) ((y : Int) + resp.MoveY) := by
  by_cases hk1 : key = "Enter"
  · subst hk1
    rw [handlerWrite_enter file x y row ins hy hx] at hrun
    cases hrun
    obtain ⟨pre, post, rfl, rfl⟩ := split_at hy
    rw [take_app_len, drop_app_add]
    have e : pre ++ [List.take x row, List.drop x row] ++ List.drop 1 (row :: post)
        = (pre ++ [List.take x row]) ++ List.drop x row :: post := by simp
    rw [e]
    exact cursorInRange_line _ _ _ _ _ (by simp) (by simp) (by simp)
  by_cases hk2 : key = "Delete"
  · subst hk2
    obtain ⟨pre, post, rfl, rfl⟩ := split_at hy
    obtain ⟨hresp, r, post', hf, hr⟩ := handlerWrite_delete_some pre post row x ins resp file'
      hx hrun
    subst hresp; subst hf
    exact cursorInRange_line _ _ _ _ _ (by simp) (by simp) (by simp; omega)
  by_cases hk3 : key = "Backspace"
  · subst hk3
    rcases Nat.eq_zero_or_pos x with hx0 | hx0
    · subst hx0
      rcases Nat.eq_zero_or_pos y with hy0 | hy0
      · subst hy0
        rw [handlerWrite_backspace_origin file row ins hy] at hrun
        cases hrun
        obtain ⟨pre, post, rfl, hpre⟩ := split_at hy
        exact cursorInRange_line _ _ _ _ _ (by simp [hpre]) (by simp) (by simp)
      · obtain ⟨pre, post, rfl, rfl⟩ := split_at hy
        obtain ⟨pre', prev, rfl⟩ : ∃ pre' prev, pre = pre' ++ [prev] := by
          rcases List.eq_nil_or_concat pre with h | ⟨l, a, h⟩
          · subst h; simp at hy0
          · exact ⟨l, a, by rw [h, List.concat_eq_append]⟩
        have e : (pre' ++ [prev]) ++ row :: post = pre' ++ prev :: row :: post := by simp
        rw [e, handlerWrite_backspace_join pre' post prev row ins _ _ (by simp) (by simp)] at hrun
        cases hrun
        exact cursorInRange_line _ _ _ _ _ (by simp) (by simp) (by simp)
    · obtain ⟨pre, post, rfl, rfl⟩ := split_at hy
      obtain ⟨j, hj, hpad, hstop⟩ := padding_run_start row (x - 1)
      rw [handlerWrite_backspace_run pre post row (x - 1) j ins _ _ (by omega) rfl (by omega) hj
        hpad hstop] at hrun
      cases hrun
      exact cursorInRange_line _ _ _ _ _ (by simp) (by simp; omega) (by simp; omega)
  by_cases hk4 : key = "\t"
  · subst hk4
    obtain ⟨pre, post, rfl, rfl⟩ := split_at hy
    obtain ⟨row', hrun', htab, _, _⟩ := handlerWrite_tab pre post row x ins hx
    rw [hrun'] at hrun
    cases hrun
    have hlen : x + (8 - x % 8) - 1 < row'.length := by
      rcases Nat.lt_or_ge (x + (8 - x % 8) - 1) row'.length with h | h
      · exact h
      · rw [List.getElem?_eq_none h] at htab; cases htab
    exact cursorInRange_line _ _ _ _ _ (by simp) (by simp; omega) (by simp; omega)
  · rw [handlerWrite_default file x y row key ins hy hx hk1 hk2 hk3 hk4] at hrun
    cases hrun
    obtain ⟨pre, post, rfl, rfl⟩ := split_at hy
    rw [set_app_len, List.set_cons_zero]
    refine cursorInRange_line _ _ _ _ _ (by simp) (by simp; omega) ?_
    by_cases h1 : x = row.length
    · simp [h1]
    · rw [if_neg h1]
      by_cases h2 : ins = true ∧ row[x]? ≠ some ""
      · rw [if_pos h2]; simp; omega
      · rw [if_neg h2]; simp; omega

theorem displacement_keeps_cursor_in_range_witness :
    cursorInRange [["H", "e", "w", "o", "r", "l", "d"]]
      (((2 : Nat) : Int) + (WriteResponse.mk 0 0).MoveX)
      (((0 : Nat) : Int) + (WriteResponse.mk 0 0).MoveY) :=
  displacement_keeps_cursor_in_range [["H", "e"], ["w", "o", "r", "l", "d"]]
    [["H", "e", "w", "o", "r", "l", "d"]] 2 0 ["H", "e"] "Delete" false ⟨0, 0⟩ rfl (by decide)
    (by decide)


/-! ## Tab-run well-formedness -/

theorem wellFormedFrom_cons (i : Nat) (c : String) (cs : List String) :
    wellFormedFrom i (c :: cs) = true
      ↔ (c = "\t" → i % 8 = 7)
        ∧ (c = "" → ∃ d rest, cs = d :: rest ∧ (d = "" ∨ d = "\t"))
        ∧ wellFormedFrom (i + 1) cs = true := by
  simp only [wellFormedFrom]
  by_cases h1 : c = "\t"
  · have h2 : ¬ (c = "") := by rw [h1]; decide
    simp [h1]
  · by_cases h2 : c = ""
    · cases cs with
      | nil => simp [h2]
      | cons d rest => simp [h2]
    · simp [h1, h2]

theorem wellFormedFrom_append (a : List String) :
    ∀ (i : Nat) (b : List String), wellFormedFrom i a = true →
      wellFormedFrom (i + a.length) b = true → wellFormedFrom i (a ++ b) = true := by
  induction a with
  | nil => intro i b _ hb; simpa using hb
  | cons c cs ih =>
    intro i b ha hb
    rw [wellFormedFrom_cons] at ha
    obtain ⟨h1, h2, h3⟩ := ha
    rw [List.cons_append, wellFormedFrom_cons]
    refine ⟨h1, ?_, ?_⟩
    · intro hc
      obtain ⟨d, rest, hcs, hd⟩ := h2 hc
      exact ⟨d, rest ++ b, by rw [hcs]; rfl, hd⟩
    · apply ih (i + 1) b h3
      rw [List.length_cons] at hb
      rw [show i + 1 + cs.length = i + (cs.length + 1) by omega]
      exact hb

theorem wellFormedFrom_pad_tab :
    ∀ (k i : Nat), (i + k) % 8 = 7 →
      wellFormedFrom i (List.replicate k "" ++ ["\t"]) = true := by
  intro k
  induction k with
  | zero =>
    intro i h
    rw [List.replicate_zero, List.nil_append, wellFormedFrom_cons]
    exact ⟨fun _ => by simpa using h, fun hc => absurd hc (by decide), rfl⟩
  | succ k ih =>
    intro i h
    rw [List.replicate_succ, List.cons_append, wellFormedFrom_cons]
    refine ⟨fun hc => absurd hc (by decide), fun _ => ?_, ih (i + 1) (by omega)⟩
    cases k with
    | zero => exact ⟨"\t", [], rfl, Or.inr rfl⟩
    | succ k' => exact ⟨"", List.replicate k' "" ++ ["\t"], rfl, Or.inl rfl⟩

theorem wellFormedFrom_single (i : Nat) (s : String) (h1 : s ≠ "") (h2 : s ≠ "\t") :
    wellFormedFrom i [s] = true := by
  rw [wellFormedFrom_cons]
  exact ⟨fun h => absurd h h2, fun h => absurd h h1, rfl⟩

theorem wellFormedFrom_replace_last (init : List String) (s s' : String)
    (h1 : s ≠ "") (h2 : s ≠ "\t") (h1' : s' ≠ "") (h2' : s' ≠ "\t") :
    ∀ i, wellFormedFrom i (init ++ [s]) = true → wellFormedFrom i (init ++ [s']) = true := by
  induction init with
  | nil => intro i _; exact wellFormedFrom_single i s' h1' h2'
  | cons c cs ih =>
    intro i hwf
    rw [List.cons_append, wellFormedFrom_cons] at hwf
    obtain ⟨g1, g2, g3⟩ := hwf
    rw [List.cons_append, wellFormedFrom_cons]
    refine ⟨g1, ?_, ih (i + 1) g3⟩
    intro hc
    obtain ⟨d, rest, hcs, hd⟩ := g2 hc
    cases cs with
    | nil =>
      simp at hcs
      rcases hd with hd | hd
      · exact absurd (hcs.1.trans hd) h1
      · exact absurd (hcs.1.trans hd) h2
    | cons c2 cs2 =>
      simp at hcs
      exact ⟨d, cs2 ++ [s'], by simp [hcs.1], hd⟩

theorem wellFormed_line (pre post : Doc) (r : Line) :
    wellFormed (pre ++ r :: post) = true
      ↔ wellFormed pre = true ∧ wellFormedFrom 0 r = true ∧ wellFormed post = true := by
  simp [wellFormed, List.all_append]


theorem append_singleton_ne (s : String) (c : Char) (hc : c ≠ '\t') :
    s ++ String.singleton c ≠ "" ∧ s ++ String.singleton c ≠ "\t" := by
  have hd : (s ++ String.singleton c).data = s.data ++ [c] := by
    rw [String.data_append]; rfl
  constructor
  · intro h
    rw [h] at hd
    have hd' : ([] : List Char) = s.data ++ [c] := hd
    simp at hd'
  · intro h
    rw [h] at hd
    have hd' : ['\t'] = s.data ++ [c] := hd
    cases hs : s.data with
    | nil =>
      rw [hs] at hd'
      simp at hd'
      exact hc hd'.symm
    | cons a l =>
      rw [hs] at hd'
      simp at hd'

/-- The code point loop keeps a line well formed; while the flag
`isCombinAble` is on, the last cell is neither padding nor the tab glyph. -/
theorem pasteRune_wellFormed (c : Char) (row : Line) (flag : Bool)
    (hwf : wellFormedFrom 0 row = true)
    (hlast : flag = true → ∃ init s, row = init ++ [s] ∧ s ≠ "" ∧ s ≠ "\t") :
    ∃ row' flag', pasteRune c row flag = some (row', flag')
      ∧ wellFormedFrom 0 row' = true
      ∧ (flag' = true → ∃ init s, row' = init ++ [s] ∧ s ≠ "" ∧ s ≠ "\t") := by
  by_cases hct : c = '\t'
  · subst hct
    refine ⟨_, _, pasteRune_tab row flag, ?_, fun h => absurd h (by decide)⟩
    rw [List.append_assoc]
    exact wellFormedFrom_append row 0 _ hwf (wellFormedFrom_pad_tab _ _ (by omega))
  · have hst : ¬ (String.singleton c = "\t") := by
      rw [singleton_eq_tab]; exact hct
    have hne := append_singleton_ne "" c hct
    rw [String.empty_append] at hne
    by_cases hm : row.length > 0 ∧ isCombiner c = true ∧ flag = true
    · obtain ⟨init, s, hrow, hs1, hs2⟩ := hlast hm.2.2
      subst hrow
      have hne' := append_singleton_ne s c hct
      have hl : (((init ++ [s]).length : Int) - 1) = (init.length : Int) := by simp
      refine ⟨init ++ [s ++ String.singleton c], flag, ?_, ?_, ?_⟩
      · simp only [pasteRune, if_neg hst, Option.bind_eq_bind, Option.some_bind, if_pos hm]
        rw [hl, goIndex_nat, getElem?_app_len]
        simp only [List.getElem?_cons_zero, Option.some_bind]
        rw [goSet_nat _ _ _ (by simp), set_app_len]
        simp
      · exact wellFormedFrom_replace_last init s _ hs1 hs2 hne'.1 hne'.2 0 hwf
      · intro _
        exact ⟨init, _, rfl, hne'.1, hne'.2⟩
    · refine ⟨row ++ [String.singleton c], isCombinable c, ?_, ?_, ?_⟩
      · simp only [pasteRune, if_neg hst, Option.bind_eq_bind, Option.some_bind, if_neg hm]
      · exact wellFormedFrom_append row 0 _ hwf (wellFormedFrom_single _ _ hne.1 hne.2)
      · intro _
        exact ⟨row, _, rfl, hne.1, hne.2⟩

theorem pasteRunes_wellFormed (s : List Char) :
    ∀ (row : Line) (flag : Bool), wellFormedFrom 0 row = true →
      (flag = true → ∃ init t, row = init ++ [t] ∧ t ≠ "" ∧ t ≠ "\t") →
      ∃ row', pasteRunes s row flag = some row' ∧ wellFormedFrom 0 row' = true := by
  induction s with
  | nil => intro row flag hwf _; exact ⟨row, rfl, hwf⟩
  | cons c cs ih =>
    intro row flag hwf hlast
    obtain ⟨row1, flag1, hrun, hwf1, hlast1⟩ := pasteRune_wellFormed c row flag hwf hlast
    obtain ⟨row', hrun', hwf'⟩ := ih row1 flag1 hwf1 hlast1
    refine ⟨row', ?_, hwf'⟩
    rw [pasteRunes, hrun]
    simpa using hrun'

/-! ## Edits that neither cut a padding run nor move a tab glyph off its stop -/

theorem wellFormedFrom_drop (row : List String) :
    ∀ (i j : Nat), wellFormedFrom i row = true → wellFormedFrom (i + j) (row.drop j) = true := by
  induction row with
  | nil => intro i j _; simp [wellFormedFrom]
  | cons c cs ih =>
    intro i j hwf
    cases j with
    | zero => simpa using hwf
    | succ j' =>
      rw [wellFormedFrom_cons] at hwf
      rw [List.drop_succ_cons, show i + (j' + 1) = (i + 1) + j' by omega]
      exact ih (i + 1) j' hwf.2.2

theorem noTab_cons (c : String) (cs : List String) :
    noTab (c :: cs) = true ↔ c ≠ "\t" ∧ noTab cs = true := by
  simp [noTab]

theorem wellFormedFrom_shift (l : List String) :
    ∀ (a b : Nat), wellFormedFrom a l = true → keepsStops a b l = true →
      wellFormedFrom b l = true := by
  induction l with
  | nil => intro a b _ _; simp [wellFormedFrom]
  | cons c cs ih =>
    intro a b hwf hk
    rw [wellFormedFrom_cons] at hwf
    obtain ⟨h1, h2, h3⟩ := hwf
    have hk' : a % 8 = b % 8 ∨ (c ≠ "\t" ∧ noTab cs = true) := by
      simp only [keepsStops, Bool.or_eq_true, decide_eq_true_eq] at hk
      rcases hk with h | h
      · exact Or.inl h
      · exact Or.inr ((noTab_cons c cs).1 h)
    rw [wellFormedFrom_cons]
    refine ⟨?_, h2, ?_⟩
    · intro hc
      rcases hk' with h | h
      · have := h1 hc
        omega
      · exact absurd hc h.1
    · apply ih (a + 1) (b + 1) h3
      simp only [keepsStops, Bool.or_eq_true, decide_eq_true_eq]
      rcases hk' with h | h
      · exact Or.inl (by omega)
      · exact Or.inr h.2

theorem wellFormedFrom_next (row : List String) :
    ∀ (i p : Nat), wellFormedFrom i row = true → row[p]? = some "" →
      row[p + 1]? = some "" ∨ row[p + 1]? = some "\t" := by
  induction row with
  | nil => intro i p _ h; simp at h
  | cons c cs ih =>
    intro i p hwf hp
    rw [wellFormedFrom_cons] at hwf
    obtain ⟨_, h2, h3⟩ := hwf
    cases p with
    | zero =>
      simp at hp
      obtain ⟨d, rest, hcs, hd⟩ := h2 hp
      subst hcs
      rcases hd with hd | hd
      · exact Or.inl (by simp [hd])
      · exact Or.inr (by simp [hd])
    | succ p' =>
      have hp' : cs[p']? = some "" := by simpa using hp
      have := ih (i + 1) p' h3 hp'
      simpa using this

/-- The cells of a well-formed line from a column on: the padding at their
head, the non-padding cell that ends it, and the cells after it. -/
theorem padLen_split (l : List String) :
    ∀ (i : Nat), wellFormedFrom i l = true → l ≠ [] →
      ∃ t rest, l = List.replicate (padLen l) "" ++ t :: rest ∧ t ≠ "" := by
  induction l with
  | nil => intro i _ h; exact absurd rfl h
  | cons c cs ih =>
    intro i hwf _
    rw [wellFormedFrom_cons] at hwf
    obtain ⟨_, h2, h3⟩ := hwf
    by_cases hc : c = ""
    · obtain ⟨d, rest0, hcs, _⟩ := h2 hc
      obtain ⟨t, rest, hsplit, ht⟩ := ih (i + 1) h3 (by rw [hcs]; simp)
      refine ⟨t, rest, ?_, ht⟩
      simp only [padLen, if_pos hc, List.replicate_succ, List.cons_append]
      rw [← hsplit, hc]
    · refine ⟨c, cs, ?_, hc⟩
      simp [padLen, hc]

theorem runStart_spec (row : List String) :
    ∀ n, runStart row n ≤ n ∧ (∀ c, runStart row n ≤ c → c < n → row[c]? = some "")
      ∧ (runStart row n = 0 ∨ row[runStart row n - 1]? ≠ some "") := by
  intro n
  induction n with
  | zero => exact ⟨Nat.le_refl _, fun c _ h => absurd h (Nat.not_lt_zero c), Or.inl rfl⟩
  | succ n ih =>
    by_cases h : row[n]? = some ""
    · obtain ⟨hj, hpad, hstop⟩ := ih
      simp only [runStart, if_pos h]
      refine ⟨by omega, ?_, hstop⟩
      intro c h1 h2
      by_cases hc : c = n
      · subst hc; exact h
      · exact hpad c h1 (by omega)
    · simp only [runStart, if_neg h]
      refine ⟨Nat.le_refl _, fun c h1 h2 => by omega, Or.inr ?_⟩
      simpa using h


theorem tabRoom_cells (ins : Bool) (pre post : Doc) (a sfx : Line) :
    ∃ row1, tabRoom "\t" ins (pre.length : Int) (a.length : Int) (a ++ sfx)
          (pre ++ (a ++ sfx) :: post) = some (row1, pre ++ row1 :: post)
      ∧ a.length < row1.length
      ∧ ∀ v, row1.set a.length v = a ++ v :: (if ins = true then sfx else sfx.drop 1) := by
  unfold tabRoom
  cases sfx with
  | nil =>
    refine ⟨a ++ ["\t"], ?_, by simp, ?_⟩
    · simp only [List.append_nil, if_true, Option.bind_eq_bind]
      rw [goSet_nat _ _ _ (by simp), set_app_len]
      simp
    · intro v
      rw [set_app_len]
      cases ins <;> simp
  | cons c s' =>
    have hne : ¬ ((a.length : Int) = ((a ++ c :: s').length : Int)) := by
      simp
      omega
    cases ins
    · refine ⟨a ++ c :: s', ?_, by simp, ?_⟩
      · simp only [if_neg hne, Bool.false_eq_true, if_false]
      · intro v
        rw [set_app_len]
        simp
    · refine ⟨a ++ c :: c :: s', ?_, by simp, ?_⟩
      · simp only [if_neg hne, if_true, Option.bind_eq_bind]
        rw [goSliceTo_nat_succ _ _ (by simp), goSliceFrom_nat _ _ (by simp)]
        simp only [Option.some_bind, take_app_add, drop_app_len, List.take_succ_cons,
          List.take_zero]
        rw [goSet_nat _ _ _ (by simp), set_app_len]
        simp
      · intro v
        rw [set_app_len]
        simp

/-- The tab key, in full: the cells before the cursor, the padding, the tab
glyph, and then the cells from the cursor on (insert mode) or the cells the
tab did not write over (overwrite mode). -/
theorem tabLoop_cells (ins : Bool) (pre post : Doc) :
    ∀ (fuel : Nat) (mx : Int) (a sfx : Line), 8 - a.length % 8 ≤ fuel →
      tabLoop "\t" ins (pre.length : Int) fuel (a.length : Int) mx (a ++ sfx)
          (pre ++ (a ++ sfx) :: post)
        = some (⟨mx + ((8 - a.length % 8 : Nat) : Int), 0⟩,
            pre ++ (a ++ (List.replicate (7 - a.length % 8) "" ++ "\t"
              :: (if ins = true then sfx else sfx.drop (8 - a.length % 8)))) :: post) := by
  intro fuel
  induction fuel with
  | zero => intro mx a sfx hf; omega
  | succ fuel ih =>
    intro mx a sfx hf
    obtain ⟨row1, hroom, hlen1, hset⟩ := tabRoom_cells ins pre post a sfx
    have hx1 : ((a.length : Int) + 1) = ((a.length + 1 : Nat) : Int) := by push_cast; rfl
    rw [tabLoop]
    simp only [Option.bind_eq_bind]
    rw [hroom]
    simp only [Option.some_bind]
    rw [goSet_nat _ _ _ hlen1, hset]
    simp only [Option.some_bind]
    rw [goSet_nat _ _ _ (by simp), set_app_len, hx1, land_tab, land_tab]
    simp only [Option.some_bind, List.set_cons_zero]
    by_cases h7 : a.length % 8 = 7
    · have e1 : (a.length + 1) % 8 = 0 := by omega
      have e2 : 8 - a.length % 8 = 1 := by omega
      have e3 : 7 - a.length % 8 = 0 := by omega
      have c1 : (((a.length % 8 : Nat) : Int) = ((tabSize - 1 : Nat) : Int)) := by
        rw [h7]; rfl
      simp only [e1, e2, e3, if_pos c1, Nat.cast_zero, if_true, Nat.cast_one,
        List.replicate_zero, List.nil_append]
    · have e1 : ¬ ((((a.length + 1) % 8 : Nat) : Int) = 0) := by
        have : (a.length + 1) % 8 ≠ 0 := by omega
        exact_mod_cast this
      have c1 : ¬ (((a.length % 8 : Nat) : Int) = ((tabSize - 1 : Nat) : Int)) := by
        intro h
        have h' : a.length % 8 = tabSize - 1 := by exact_mod_cast h
        exact h7 h'
      simp only [if_neg e1, if_neg c1]
      have hl : (a ++ [""]).length = a.length + 1 := by simp
      have h := ih (mx + 1) (a ++ [""]) (if ins = true then sfx else sfx.drop 1)
        (by rw [hl]; omega)
      rw [hl] at h
      have ea : a ++ "" :: (if ins = true then sfx else List.drop 1 sfx)
          = (a ++ [""]) ++ (if ins = true then sfx else List.drop 1 sfx) := by simp
      rw [ea, h]
      have e2 : 7 - a.length % 8 = (7 - (a.length + 1) % 8) + 1 := by omega
      have e3 : mx + 1 + ((8 - (a.length + 1) % 8 : Nat) : Int)
          = mx + ((8 - a.length % 8 : Nat) : Int) := by omega
      have e4 : 8 - a.length % 8 = 1 + (8 - (a.length + 1) % 8) := by omega
      rw [e2, e3, List.replicate_succ]
      cases ins
      · simp only [Bool.false_eq_true, if_false, List.drop_drop]
        rw [e4]
        simp
      · simp


theorem wellFormedFrom_shift_back (l : List String) :
    ∀ (a b : Nat), wellFormedFrom a l = true → wellFormedFrom b l = true →
      keepsStops a b l = true := by
  induction l with
  | nil => intro a b _ _; simp [keepsStops, noTab]
  | cons c cs ih =>
    intro a b ha hb
    rw [wellFormedFrom_cons] at ha hb
    have h := ih (a + 1) (b + 1) ha.2.2 hb.2.2
    simp only [keepsStops, Bool.or_eq_true, decide_eq_true_eq] at h ⊢
    by_cases hab : a % 8 = b % 8
    · exact Or.inl hab
    · refine Or.inr ((noTab_cons c cs).2 ⟨?_, ?_⟩)
      · intro hc
        have h1 := ha.1 hc
        have h2 := hb.1 hc
        omega
      · rcases h with h | h
        · omega
        · exact h

theorem wellFormedFrom_shift_iff (l : List String) (a b : Nat)
    (ha : wellFormedFrom a l = true) :
    wellFormedFrom b l = keepsStops a b l := by
  rw [Bool.eq_iff_iff]
  exact ⟨wellFormedFrom_shift_back l a b ha, wellFormedFrom_shift l a b ha⟩

theorem padHead_iff (l : List String) :
    padHead l = true ↔ ∃ d rest, l = d :: rest ∧ (d = "" ∨ d = "\t") := by
  cases l with
  | nil => simp [padHead]
  | cons d rest => simp [padHead]

theorem wellFormedFrom_cons_eq (i : Nat) (c : String) (cs : List String) :
    wellFormedFrom i (c :: cs)
      = ((decide (c = "\t" → i % 8 = 7) && decide (c = "" → padHead cs = true))
          && wellFormedFrom (i + 1) cs) := by
  rw [Bool.eq_iff_iff, wellFormedFrom_cons]
  simp only [Bool.and_eq_true, decide_eq_true_eq, padHead_iff, and_assoc]

/-- A prefix of a well-formed line followed by other cells: the line is well
formed when the cut leaves no padding without padding or a tab glyph behind it
and the cells behind the cut are well formed at their column. -/
theorem wellFormedFrom_splice (row : List String) :
    ∀ (i x : Nat) (b : List String), wellFormedFrom i row = true → x ≤ row.length →
      wellFormedFrom i (row.take x ++ b)
        = ((notCut row x || padHead b) && wellFormedFrom (i + x) b) := by
  induction row with
  | nil =>
    intro i x b _ hx
    have hx0 : x = 0 := by simpa using hx
    subst hx0
    simp [notCut]
  | cons c cs ih =>
    intro i x b hwf hx
    cases x with
    | zero => simp [notCut]
    | succ x' =>
      have hwf' := hwf
      rw [wellFormedFrom_cons] at hwf'
      obtain ⟨h1, h2, h3⟩ := hwf'
      have hx' : x' ≤ cs.length := by simpa using hx
      rw [List.take_succ_cons, List.cons_append, wellFormedFrom_cons_eq, ih (i + 1) x' b h3 hx',
        show i + 1 + x' = i + (x' + 1) by omega]
      have d1 : decide (c = "\t" → i % 8 = 7) = true := decide_eq_true h1
      rw [d1, Bool.true_and]
      cases x' with
      | zero =>
        have e1 : notCut cs 0 = true := by simp [notCut]
        have e2 : notCut (c :: cs) (0 + 1) = decide (c ≠ "") := by simp [notCut]
        rw [e1, e2, List.take_zero, List.nil_append]
        by_cases hc : c = "" <;> simp [hc]
      | succ x'' =>
        have e2 : notCut (c :: cs) (x'' + 1 + 1) = notCut cs (x'' + 1) := by simp [notCut]
        have d2 : decide (c = "" → padHead (List.take (x'' + 1) cs ++ b) = true) = true := by
          simp only [decide_eq_true_eq]
          intro hc
          obtain ⟨e, rest, hcs, he⟩ := h2 hc
          subst hcs
          simp only [List.take_succ_cons, List.cons_append, padHead, decide_eq_true_eq]
          exact he
        rw [e2, d2, Bool.true_and]

theorem notCut_length (row : List String) (i : Nat) (hwf : wellFormedFrom i row = true) :
    notCut row row.length = true := by
  simp only [notCut, decide_eq_true_eq]
  by_cases h0 : row.length = 0
  · exact Or.inl h0
  · refine Or.inr ?_
    intro h
    have := wellFormedFrom_next row i (row.length - 1) hwf h
    rw [show row.length - 1 + 1 = row.length by omega] at this
    simp at this

theorem padHead_noTab (l : List String) :
    ∀ (i : Nat), wellFormedFrom i l = true → padHead l = true → noTab l = false := by
  induction l with
  | nil => intro i _ h; simp [padHead] at h
  | cons c cs ih =>
    intro i hwf hp
    rw [wellFormedFrom_cons] at hwf
    obtain ⟨_, h2, h3⟩ := hwf
    simp only [padHead, decide_eq_true_eq] at hp
    cases hnt : noTab (c :: cs) with
    | false => rfl
    | true =>
      rw [noTab_cons] at hnt
      rcases hp with hp | hp
      · obtain ⟨d, rest, hcs, hd⟩ := h2 hp
        have := ih (i + 1) h3 ((padHead_iff cs).2 ⟨d, rest, hcs, hd⟩)
        rw [hnt.2] at this
        exact absurd this (by decide)
      · exact absurd hp hnt.1

theorem wellFormedFrom_pad_tab_cells :
    ∀ (k i : Nat) (l : List String), (i + k) % 8 = 7 →
      wellFormedFrom i (List.replicate k "" ++ "\t" :: l) = wellFormedFrom (i + k + 1) l := by
  intro k
  induction k with
  | zero =>
    intro i l h
    rw [List.replicate_zero, List.nil_append, wellFormedFrom_cons_eq]
    have h' : i % 8 = 7 := by simpa using h
    simp [h']
  | succ k ih =>
    intro i l h
    rw [List.replicate_succ, List.cons_append, wellFormedFrom_cons_eq, ih (i + 1) l (by omega),
      show i + 1 + k + 1 = i + (k + 1) + 1 by omega]
    have hp : padHead (List.replicate k "" ++ "\t" :: l) = true := by
      cases k with
      | zero => simp [padHead]
      | succ k' => simp [padHead, List.replicate_succ]
    simp [hp]

/-- Two well-formed lines put one after the other. -/
theorem wellFormedFrom_join (prev row : List String) (hp : wellFormedFrom 0 prev = true)
    (hr : wellFormedFrom 0 row = true) :
    wellFormedFrom 0 (prev ++ row) = keepsStops 0 prev.length row := by
  have h := wellFormedFrom_splice prev 0 prev.length row hp (Nat.le_refl _)
  rw [List.take_length, notCut_length prev 0 hp, Bool.true_or, Bool.true_and, Nat.zero_add,
    wellFormedFrom_shift_iff row 0 prev.length hr] at h
  exact h


theorem wellFormed_line_of (pre post : Doc) (r : Line) (wpre : wellFormed pre = true)
    (wpost : wellFormed post = true) :
    wellFormed (pre ++ r :: post) = wellFormedFrom 0 r := by
  rw [Bool.eq_iff_iff, wellFormed_line]
  exact ⟨fun h => h.2.1, fun h => ⟨wpre, h, wpost⟩⟩

theorem wellFormedFrom_take_eq (row : List String) (x : Nat) (hwf : wellFormedFrom 0 row = true)
    (hx : x ≤ row.length) : wellFormedFrom 0 (row.take x) = notCut row x := by
  have h := wellFormedFrom_splice row 0 x [] hwf hx
  simpa [padHead, wellFormedFrom] using h

theorem wellFormedFrom_drop_eq (row : List String) (x : Nat) (hwf : wellFormedFrom 0 row = true) :
    wellFormedFrom x (row.drop x) = true := by
  have h := wellFormedFrom_drop row 0 x hwf
  rwa [Nat.zero_add] at h

theorem getElem?_line (pre post : Doc) (row : Line) :
    (pre ++ row :: post)[pre.length]? = some row := by
  rw [getElem?_app_len]; simp

theorem getD_line (pre post : Doc) (row : Line) :
    (pre ++ row :: post).getD pre.length [] = row := by
  rw [List.getD_eq_getElem?_getD, getElem?_line]; rfl

theorem wellFormed_cons (r : Line) (post : Doc) :
    wellFormed (r :: post) = (wellFormedFrom 0 r && wellFormed post) := by
  simp [wellFormed]

theorem wellFormed_append_eq (a b : Doc) :
    wellFormed (a ++ b) = (wellFormed a && wellFormed b) := by
  simp [wellFormed, List.all_append]

/-- Key `Enter` and well-formedness. -/
theorem handlerWrite_enter_keeps (pre post : Doc) (row : Line) (x : Nat) (ins : Bool)
    (hx : x ≤ row.length) (wpre : wellFormed pre = true) (wrow : wellFormedFrom 0 row = true)
    (wpost : wellFormed post = true) :
    ∃ resp file', handlerWrite ⟨x, pre.length, "Enter", ins⟩ (pre ++ row :: post)
        = some (resp, file')
      ∧ wellFormed file' = (notCut row x && keepsStops x 0 (row.drop x)) := by
  refine ⟨_, _, handlerWrite_enter _ x pre.length row ins (getElem?_line pre post row) hx, ?_⟩
  rw [take_app_len, drop_app_add]
  have e : pre ++ [List.take x row, List.drop x row] ++ List.drop 1 (row :: post)
      = pre ++ List.take x row :: List.drop x row :: post := by simp
  rw [e, wellFormed_append_eq, wellFormed_cons, wellFormed_cons, wpre, wpost,
    wellFormedFrom_take_eq row x wrow hx,
    wellFormedFrom_shift_iff _ x 0 (wellFormedFrom_drop_eq row x wrow)]
  simp

theorem wellFormedFrom_key (i : Nat) (key : String) (l : List String) (hk : key ≠ "\t") :
    wellFormedFrom i (key :: l)
      = (decide (key = "" → padHead l = true) && wellFormedFrom (i + 1) l) := by
  rw [wellFormedFrom_cons_eq]
  simp [hk]

theorem padHead_key (key : String) (l : List String) (hk : key ≠ "\t") :
    padHead (key :: l) = decide (key = "") := by
  simp [padHead, hk]

/-- A key of the default case and well-formedness. -/
theorem handlerWrite_default_keeps (pre post : Doc) (row : Line) (x : Nat) (key : String)
    (ins : Bool) (hx : x ≤ row.length) (wpre : wellFormed pre = true)
    (wrow : wellFormedFrom 0 row = true) (wpost : wellFormed post = true)
    (hk1 : key ≠ "Enter") (hk2 : key ≠ "Delete") (hk3 : key ≠ "Backspace") (hk4 : key ≠ "\t") :
    ∃ resp file', handlerWrite ⟨x, pre.length, key, ins⟩ (pre ++ row :: post)
        = some (resp, file')
      ∧ wellFormed file'
        = (if x < row.length ∧ ¬ (ins = true ∧ row[x]? ≠ some "") then
            (if key = "" then padHead (row.drop (x + 1)) else notCut row x)
          else decide (key ≠ "") && notCut row x && noTab (row.drop x)) := by
  refine ⟨_, _, handlerWrite_default _ x pre.length row key ins (getElem?_line pre post row) hx
    hk1 hk2 hk3 hk4, ?_⟩
  rw [set_app_len, List.set_cons_zero, wellFormed_line_of pre post _ wpre wpost]
  have hs := wellFormedFrom_splice row 0 x
  by_cases hend : x = row.length
  · have hc : ¬ (x < row.length ∧ ¬ (ins = true ∧ row[x]? ≠ some "")) := by omega
    rw [if_pos hend, if_neg hc]
    have h := hs [key] wrow hx
    rw [hend, List.take_length] at h
    rw [h, hend, notCut_length row 0 wrow, List.drop_length, Nat.zero_add,
      wellFormedFrom_key _ _ _ hk4]
    simp [padHead, noTab, wellFormedFrom]
  · have hlt : x < row.length := by omega
    rw [if_neg hend]
    by_cases hi : ins = true ∧ row[x]? ≠ some ""
    · have hc : ¬ (x < row.length ∧ ¬ (ins = true ∧ row[x]? ≠ some "")) := by tauto
      rw [if_pos hi, if_neg hc, List.append_assoc, List.singleton_append, hs _ wrow hx,
        Nat.zero_add, padHead_key _ _ hk4, wellFormedFrom_key _ _ _ hk4,
        wellFormedFrom_shift_iff _ x (x + 1) (wellFormedFrom_drop_eq row x wrow)]
      have hmod : decide (x % 8 = (x + 1) % 8) = false := by
        simp only [decide_eq_false_iff_not]; omega
      simp only [keepsStops, hmod, Bool.false_or]
      by_cases hk0 : key = ""
      · have hnt : padHead (row.drop x) = true → noTab (row.drop x) = false :=
          padHead_noTab _ x (wellFormedFrom_drop_eq row x wrow)
        cases hp : padHead (row.drop x) with
        | false => simp [hk0]
        | true => simp [hk0, hnt hp]
      · simp [hk0]
    · have hc : x < row.length ∧ ¬ (ins = true ∧ row[x]? ≠ some "") := ⟨hlt, hi⟩
      have hset : row.set x key = row.take x ++ key :: row.drop (x + 1) := by
        rw [List.set_eq_take_append_cons_drop, if_pos hlt]
      rw [if_neg hi, if_pos hc, hset, hs _ wrow hx, Nat.zero_add, padHead_key _ _ hk4,
        wellFormedFrom_key _ _ _ hk4, wellFormedFrom_drop_eq row (x + 1) wrow]
      by_cases hk0 : key = "" <;> simp [hk0]


theorem handlerWrite_tab_cells (pre post : Doc) (a sfx : Line) (ins : Bool) :
    handlerWrite ⟨a.length, pre.length, "\t", ins⟩ (pre ++ (a ++ sfx) :: post)
      = some (⟨((8 - a.length % 8 : Nat) : Int), 0⟩,
          pre ++ (a ++ (List.replicate (7 - a.length % 8) "" ++ "\t"
            :: (if ins = true then sfx else sfx.drop (8 - a.length % 8)))) :: post) := by
  rw [handlerWrite_inrange _ _ a.length pre.length (a ++ sfx) rfl rfl
    (getElem?_line pre post (a ++ sfx)) (by simp)]
  simp only [show ¬ ("\t" = "Enter") by decide, show ¬ ("\t" = "Delete") by decide,
    show ¬ ("\t" = "Backspace") by decide, if_false, if_true]
  rw [tabLoop_cells ins pre post tabSize 0 a sfx (by unfold tabSize; omega)]
  simp

theorem split_line (row : Line) (x : Nat) (hx : x ≤ row.length) :
    ∃ a sfx, row = a ++ sfx ∧ x = a.length ∧ row.take x = a ∧ row.drop x = sfx := by
  refine ⟨row.take x, row.drop x, (List.take_append_drop x row).symm, ?_, rfl, rfl⟩
  rw [List.length_take]
  omega

/-- The tab key and well-formedness. -/
theorem handlerWrite_tab_keeps (pre post : Doc) (row : Line) (x : Nat) (ins : Bool)
    (hx : x ≤ row.length) (wpre : wellFormed pre = true) (wrow : wellFormedFrom 0 row = true)
    (wpost : wellFormed post = true) :
    ∃ resp file', handlerWrite ⟨x, pre.length, "\t", ins⟩ (pre ++ row :: post)
        = some (resp, file')
      ∧ wellFormed file' = (!ins || keepsStops x (x + (8 - x % 8)) (row.drop x)) := by
  have hs := wellFormedFrom_splice row 0 x
  have wd := wellFormedFrom_drop_eq row x wrow
  obtain ⟨a, sfx, hrow, hxa, htake, hdrop⟩ := split_line row x hx
  rw [htake] at hs
  rw [hdrop] at wd ⊢
  rw [hrow, hxa]
  refine ⟨_, _, handlerWrite_tab_cells pre post a sfx ins, ?_⟩
  rw [wellFormed_line_of pre post _ wpre wpost, hs _ wrow hx, Nat.zero_add, hxa,
    wellFormedFrom_pad_tab_cells _ _ _ (by omega)]
  have hp : ∀ l, padHead (List.replicate (7 - a.length % 8) "" ++ "\t" :: l) = true := by
    intro l
    cases 7 - a.length % 8 with
    | zero => simp [padHead]
    | succ k => simp [padHead, List.replicate_succ]
  rw [hp, Bool.or_true, Bool.true_and, show a.length + (7 - a.length % 8) + 1
    = a.length + (8 - a.length % 8) by omega]
  rw [hxa] at wd
  cases ins
  · have := wellFormedFrom_drop sfx a.length (8 - a.length % 8) wd
    simpa using this
  · simp only [if_true, Bool.not_true, Bool.false_or]
    exact wellFormedFrom_shift_iff sfx a.length _ wd


/-- Key `Backspace` and well-formedness. -/
theorem handlerWrite_backspace_keeps (pre post : Doc) (row : Line) (x : Nat) (ins : Bool)
    (hx : x ≤ row.length) (wpre : wellFormed pre = true) (wrow : wellFormedFrom 0 row = true)
    (wpost : wellFormed post = true) :
    ∃ resp file', handlerWrite ⟨x, pre.length, "Backspace", ins⟩ (pre ++ row :: post)
        = some (resp, file')
      ∧ wellFormed file'
        = (if x = 0 then
            decide (pre.length = 0)
              || keepsStops 0 ((pre ++ row :: post).getD (pre.length - 1) []).length row
          else keepsStops x (runStart row (x - 1)) (row.drop x)) := by
  by_cases hx0 : x = 0
  · subst hx0
    rw [if_pos rfl]
    rcases List.eq_nil_or_concat pre with h | ⟨pre', prev, h⟩
    · subst h
      refine ⟨_, _, handlerWrite_backspace_origin _ row ins (by simp), ?_⟩
      rw [List.nil_append, wellFormed_cons, wrow, wpost]
      simp
    · rw [List.concat_eq_append] at h
      subst h
      rw [wellFormed_append_eq, wellFormed_cons] at wpre
      simp only [Bool.and_eq_true] at wpre
      have e : (pre' ++ [prev]) ++ row :: post = pre' ++ prev :: row :: post := by simp
      refine ⟨⟨prev.length, -1⟩, pre' ++ (prev ++ row) :: post, ?_, ?_⟩
      · rw [e]
        exact handlerWrite_backspace_join pre' post prev row ins _ _ (by simp) (by simp)
      · have hg : ((pre' ++ [prev]) ++ row :: post).getD ((pre' ++ [prev]).length - 1) []
            = prev := by
          rw [e, show (pre' ++ [prev]).length - 1 = pre'.length by simp]
          exact getD_line pre' (row :: post) prev
        rw [hg, wellFormed_line_of pre' post _ wpre.1 wpost,
          wellFormedFrom_join prev row wpre.2.1 wrow]
        simp
  · rw [if_neg hx0]
    obtain ⟨hj, hpad, hstop⟩ := runStart_spec row (x - 1)
    have hx1 : x - 1 + 1 = x := by omega
    refine ⟨_, _, handlerWrite_backspace_run pre post row (x - 1) (runStart row (x - 1)) ins _ _
      (by omega) rfl (by omega) hj hpad hstop, ?_⟩
    have hnc : notCut row (runStart row (x - 1)) = true := by
      simp only [notCut, decide_eq_true_eq]
      exact hstop
    rw [wellFormed_line_of pre post _ wpre wpost, hx1,
      wellFormedFrom_splice row 0 _ _ wrow (by omega), hnc, Bool.true_or, Bool.true_and,
      Nat.zero_add, wellFormedFrom_shift_iff _ x _ (wellFormedFrom_drop_eq row x wrow)]

theorem handlerWrite_delete_cells (pre post : Doc) (a rest : Line) (t : String) (p : Nat)
    (ins : Bool) (ht : t ≠ "") :
    handlerWrite ⟨a.length, pre.length, "Delete", ins⟩
        (pre ++ (a ++ (List.replicate p "" ++ t :: rest)) :: post)
      = some (⟨0, 0⟩, pre ++ (a ++ rest) :: post) := by
  rw [handlerWrite_inrange _ _ a.length pre.length _ rfl rfl (getElem?_line pre post _) (by simp)]
  have hne : ¬ ((a.length : Int)
      = ((a ++ (List.replicate p "" ++ t :: rest)).length : Int)) := by
    simp
    omega
  simp only [show ¬ ("Delete" = "Enter") by decide, if_false, if_true, writeDelete, if_neg hne,
    Option.bind_eq_bind]
  rw [deleteLoop_spec a rest t ht p _ (by simp; omega)]
  simp only [Option.some_bind]
  rw [goSliceTo_nat _ _ (by simp), goSliceFrom_nat_succ _ _ (by simp)]
  simp only [Option.some_bind, take_app_len]
  rw [show a.length + 1 = a.length + 1 from rfl, drop_app_add]
  simp only [List.drop_succ_cons, List.drop_zero]
  rw [goSet_nat _ _ _ (by simp), set_app_len]
  simp

theorem handlerWrite_delete_end (pre : Doc) (row : Line) (ins : Bool) :
    handlerWrite ⟨row.length, pre.length, "Delete", ins⟩ (pre ++ [row]) = none := by
  rw [handlerWrite_inrange _ _ row.length pre.length row rfl rfl (getElem?_line pre [] row)
    (Nat.le_refl _)]
  simp only [show ¬ ("Delete" = "Enter") by decide, if_false, if_true, writeDelete,
    Option.bind_eq_bind]
  rw [goIndex_nat_succ, getElem?_app_add]
  simp

/-- Key `Delete` and well-formedness: the key panics at the end of the last
line and returns everywhere else. -/
theorem handlerWrite_delete_keeps (pre post : Doc) (row : Line) (x : Nat) (ins : Bool)
    (hx : x ≤ row.length) (wpre : wellFormed pre = true) (wrow : wellFormedFrom 0 row = true)
    (wpost : wellFormed post = true) :
    (∃ resp file', handlerWrite ⟨x, pre.length, "Delete", ins⟩ (pre ++ row :: post)
          = some (resp, file')
        ∧ wellFormed file'
          = (if x = row.length then
              decide (pre.length + 1 < (pre ++ row :: post).length)
                && keepsStops 0 row.length ((pre ++ row :: post).getD (pre.length + 1) [])
            else
              (notCut row x || padHead (row.drop (x + padLen (row.drop x) + 1)))
                && keepsStops (x + padLen (row.drop x) + 1) x
                    (row.drop (x + padLen (row.drop x) + 1))))
      ∨ (handlerWrite ⟨x, pre.length, "Delete", ins⟩ (pre ++ row :: post) = none
          ∧ x = row.length ∧ post = []) := by
  by_cases hend : x = row.length
  · subst hend
    cases post with
    | nil => exact Or.inr ⟨handlerWrite_delete_end pre row ins, rfl, rfl⟩
    | cons next post' =>
      rw [wellFormed_cons] at wpost
      simp only [Bool.and_eq_true] at wpost
      refine Or.inl ⟨_, _, handlerWrite_delete_join pre post' row next ins, ?_⟩
      have hg : (pre ++ row :: next :: post').getD (pre.length + 1) [] = next := by
        have e : pre ++ row :: next :: post' = (pre ++ [row]) ++ next :: post' := by simp
        rw [e, show pre.length + 1 = (pre ++ [row]).length by simp]
        exact getD_line _ _ _
      rw [if_pos rfl, hg, wellFormed_line_of pre post' _ wpre wpost.2,
        wellFormedFrom_join row next wrow wpost.1]
      simp
  · left
    rw [if_neg hend]
    have wd := wellFormedFrom_drop_eq row x wrow
    have hne : row.drop x ≠ [] := by
      intro h
      have := congrArg List.length h
      simp at this
      omega
    obtain ⟨t, rest, hsplit, ht⟩ := padLen_split (row.drop x) x wd hne
    have hrest : row.drop (x + padLen (row.drop x) + 1) = rest := by
      rw [show x + padLen (row.drop x) + 1 = x + (padLen (row.drop x) + 1) by omega,
        ← List.drop_drop]
      generalize padLen (row.drop x) = p at hsplit
      rw [hsplit]
      have hl : (List.replicate p "").length + 1 = p + 1 := by simp
      rw [← hl, show List.replicate p "" ++ t :: rest = (List.replicate p "" ++ [t]) ++ rest by simp]
      exact List.drop_left' (by simp)
    have hs := wellFormedFrom_splice row 0 x rest wrow hx
    have wr := wellFormedFrom_drop_eq row (x + padLen (row.drop x) + 1) wrow
    rw [hrest] at wr ⊢
    generalize padLen (row.drop x) = p at hsplit wr ⊢
    obtain ⟨a, sfx, hrow, hxa, htake, hdrop⟩ := split_line row x hx
    rw [htake] at hs
    rw [hdrop] at hsplit
    refine ⟨⟨0, 0⟩, pre ++ (a ++ rest) :: post, ?_, ?_⟩
    · rw [hrow, hsplit, hxa]
      exact handlerWrite_delete_cells pre post a rest t p ins ht
    · rw [wellFormed_line_of pre post _ wpre wpost, hs, Nat.zero_add,
        wellFormedFrom_shift_iff rest (x + p + 1) x wr]


/-- A write at an in-range cursor of a well-formed document: the handler
returns a document that is well formed exactly when `writeKeeps` holds, or it
panics (key `Delete` at the end of the last line) and `writeKeeps` fails. -/
theorem handlerWrite_keeps (pre post : Doc) (row : Line) (x : Nat) (key : String) (ins : Bool)
    (hx : x ≤ row.length) (hwf : wellFormed (pre ++ row :: post) = true) :
    (∃ resp file', handlerWrite ⟨x, pre.length, key, ins⟩ (pre ++ row :: post)
          = some (resp, file')
        ∧ wellFormed file' = writeKeeps (pre ++ row :: post) x pre.length key ins)
      ∨ (handlerWrite ⟨x, pre.length, key, ins⟩ (pre ++ row :: post) = none
          ∧ writeKeeps (pre ++ row :: post) x pre.length key ins = false) := by
  obtain ⟨wpre, wrow, wpost⟩ := (wellFormed_line pre post row).1 hwf
  simp only [writeKeeps]
  rw [getD_line]
  by_cases hk1 : key = "Enter"
  · subst hk1
    rw [if_pos rfl]
    exact Or.inl (handlerWrite_enter_keeps pre post row x ins hx wpre wrow wpost)
  rw [if_neg hk1]
  by_cases hk2 : key = "Delete"
  · subst hk2
    rw [if_pos rfl]
    rcases handlerWrite_delete_keeps pre post row x ins hx wpre wrow wpost with h | ⟨h, he, hp⟩
    · exact Or.inl h
    · refine Or.inr ⟨h, ?_⟩
      subst hp
      rw [if_pos he]
      simp
  rw [if_neg hk2]
  by_cases hk3 : key = "Backspace"
  · subst hk3
    rw [if_pos rfl]
    have h := handlerWrite_backspace_keeps pre post row x ins hx wpre wrow wpost
    by_cases hx0 : x = 0
    · rw [if_pos hx0] at h ⊢
      exact Or.inl h
    · rw [if_neg hx0] at h ⊢
      exact Or.inl h
  rw [if_neg hk3]
  by_cases hk4 : key = "\t"
  · subst hk4
    rw [if_pos rfl]
    exact Or.inl (handlerWrite_tab_keeps pre post row x ins hx wpre wrow wpost)
  rw [if_neg hk4]
  exact Or.inl (handlerWrite_default_keeps pre post row x key ins hx wpre wrow wpost
    hk1 hk2 hk3 hk4)


/-! ## Paste anywhere in a line -/

theorem pasteRune_some (c : Char) (row : Line) (flag : Bool) :
    ∃ row' flag', pasteRune c row flag = some (row', flag')
      ∧ ∀ a s l, row = a ++ s :: l → s ≠ "" → s ≠ "\t" →
          ∃ s' l', row' = a ++ s' :: l' ∧ s' ≠ "" ∧ s' ≠ "\t" := by
  by_cases hct : c = '\t'
  · subst hct
    refine ⟨_, _, pasteRune_tab row flag, ?_⟩
    intro a s l hrow hs1 hs2
    exact ⟨s, l ++ List.replicate (7 - row.length % 8) "" ++ ["\t"], by simp [hrow], hs1, hs2⟩
  · have hst : ¬ (String.singleton c = "\t") := by
      rw [singleton_eq_tab]; exact hct
    by_cases hm : row.length > 0 ∧ isCombiner c = true ∧ flag = true
    · rcases List.eq_nil_or_concat row with h | ⟨init, z, h⟩
      · rw [h] at hm
        simp at hm
      · rw [List.concat_eq_append] at h
        subst h
        have hl : (((init ++ [z]).length : Int) - 1) = (init.length : Int) := by simp
        refine ⟨init ++ [z ++ String.singleton c], flag, ?_, ?_⟩
        · simp only [pasteRune, if_neg hst, Option.bind_eq_bind, Option.some_bind, if_pos hm]
          rw [hl, goIndex_nat, getElem?_app_len]
          simp only [List.getElem?_cons_zero, Option.some_bind]
          rw [goSet_nat _ _ _ (by simp), set_app_len]
          simp
        · intro a s l hrow hs1 hs2
          rcases List.eq_nil_or_concat l with h | ⟨l', z', h⟩
          · subst h
            have e := List.append_inj' hrow (by simp)
            obtain ⟨e1, e2⟩ := e
            simp at e2
            subst e1 e2
            have hne := append_singleton_ne z c hct
            exact ⟨_, [], rfl, hne.1, hne.2⟩
          · rw [List.concat_eq_append] at h
            subst h
            have hrow' : init ++ [z] = (a ++ s :: l') ++ [z'] := by simp [hrow]
            have e := List.append_inj' hrow' (by simp)
            obtain ⟨e1, e2⟩ := e
            subst e1
            exact ⟨s, l' ++ [z ++ String.singleton c], by simp, hs1, hs2⟩
    · refine ⟨row ++ [String.singleton c], isCombinable c, ?_, ?_⟩
      · simp only [pasteRune, if_neg hst, Option.bind_eq_bind, Option.some_bind, if_neg hm]
      · intro a s l hrow hs1 hs2
        exact ⟨s, l ++ [String.singleton c], by simp [hrow], hs1, hs2⟩

/-- The code point loop returns, and it keeps the cells before a cell that is
neither padding nor the tab glyph, and such a cell after them. -/
theorem pasteRunes_some (cs : List Char) :
    ∀ (row : Line) (flag : Bool), ∃ r, pasteRunes cs row flag = some r
      ∧ ∀ a s l, row = a ++ s :: l → s ≠ "" → s ≠ "\t" →
          ∃ s' l', r = a ++ s' :: l' ∧ s' ≠ "" ∧ s' ≠ "\t" := by
  induction cs with
  | nil =>
    intro row flag
    exact ⟨row, rfl, fun a s l hrow hs1 hs2 => ⟨s, l, hrow, hs1, hs2⟩⟩
  | cons c cs ih =>
    intro row flag
    obtain ⟨row1, flag1, hrun, hkeep⟩ := pasteRune_some c row flag
    obtain ⟨r, hrun', hkeep'⟩ := ih row1 flag1
    refine ⟨r, ?_, ?_⟩
    · rw [pasteRunes, hrun]
      simpa using hrun'
    · intro a s l hrow hs1 hs2
      obtain ⟨s1, l1, hrow1, h1, h2⟩ := hkeep a s l hrow hs1 hs2
      exact hkeep' a s1 l1 hrow1 h1 h2

/-- The first pasted segment: the line it leaves is well formed exactly when
the cursor does not come right after a padding cell or the segment starts with
a tab. -/
theorem pasteRunes_first (row : Line) (x : Nat) (s0 : List Char)
    (wrow : wellFormedFrom 0 row = true) (hx : x ≤ row.length) :
    ∃ r, pasteRunes s0 (row.take x) false = some r
      ∧ wellFormedFrom 0 r = (notCut row x || decide (s0.head? = some '\t')) := by
  have hs := wellFormedFrom_splice row 0 x
  cases hnc : notCut row x with
  | true =>
    have wt : wellFormedFrom 0 (row.take x) = true := by
      rw [wellFormedFrom_take_eq row x wrow hx]; exact hnc
    obtain ⟨r, hrun, hwf⟩ := pasteRunes_wellFormed s0 (row.take x) false wt
      (fun h => absurd h (by decide))
    exact ⟨r, hrun, by rw [hwf]; simp⟩
  | false =>
    rw [Bool.false_or]
    cases s0 with
    | nil =>
      refine ⟨row.take x, rfl, ?_⟩
      rw [wellFormedFrom_take_eq row x wrow hx, hnc]
      simp
    | cons c cs =>
      have hlen : (row.take x).length = x := by rw [List.length_take]; omega
      by_cases hct : c = '\t'
      · subst hct
        have w1 : wellFormedFrom 0
            (row.take x ++ List.replicate (7 - (row.take x).length % 8) "" ++ ["\t"]) = true := by
          rw [List.append_assoc, hs _ wrow hx, hlen, Nat.zero_add,
            wellFormedFrom_pad_tab _ _ (by omega)]
          have hp : padHead (List.replicate (7 - x % 8) "" ++ ["\t"]) = true := by
            cases 7 - x % 8 with
            | zero => simp [padHead]
            | succ k => simp [padHead, List.replicate_succ]
          rw [hp]
          simp
        obtain ⟨r, hrun, hwf⟩ := pasteRunes_wellFormed cs _ false w1
          (fun h => absurd h (by decide))
        refine ⟨r, ?_, by rw [hwf]; simp⟩
        rw [pasteRunes, pasteRune_tab]
        simpa using hrun
      · have hst : ¬ (String.singleton c = "\t") := by
          rw [singleton_eq_tab]; exact hct
        have hne := append_singleton_ne "" c hct
        rw [String.empty_append] at hne
        have hm : ¬ ((row.take x).length > 0 ∧ isCombiner c = true ∧ false = true) := by
          simp
        have hrune : pasteRune c (row.take x) false
            = some (row.take x ++ [String.singleton c], isCombinable c) := by
          simp only [pasteRune, if_neg hst, Option.bind_eq_bind, Option.some_bind, if_neg hm]
        obtain ⟨r, hrun, hkeep⟩ := pasteRunes_some cs (row.take x ++ [String.singleton c])
          (isCombinable c)
        obtain ⟨s', l', hr, h1, h2⟩ := hkeep (row.take x) _ [] rfl hne.1 hne.2
        refine ⟨r, ?_, ?_⟩
        · rw [pasteRunes, hrune]
          simpa using hrun
        · rw [hr, hs _ wrow hx, hnc]
          have hp : padHead (s' :: l') = false := by simp [padHead, h1, h2]
          rw [hp]
          have hc : ¬ (c = '\t') := hct
          simp [hc]


/-- The rounds of the segment loop after the first one: every segment but an
empty last one fills a line of its own, and an empty last segment leaves its
line empty and the cursor on it. -/
theorem pasteLoop_later (m : Nat) :
    ∀ (segs : List (List Char)) (i : Nat) (A B : Doc) (rr : Line), i + segs.length = m →
      ∃ extra : Doc,
        pasteLoop m segs i ⟨A ++ (List.replicate segs.length [] ++ B), 0, (A.length : Int), some rr⟩
            = some ⟨(A ++ extra)
                ++ (List.replicate (if segs.getLast? = some [] then 1 else 0) [] ++ B),
                0, ((A ++ extra).length : Int), some rr⟩
          ∧ wellFormed extra = true := by
  intro segs
  induction segs with
  | nil =>
    intro i A B rr _
    exact ⟨[], by simp [pasteLoop], rfl⟩
  | cons s rest ih =>
    intro i A B rr hm
    rw [List.length_cons] at hm
    by_cases hbrk : s.length = 0 ∧ i + 1 = m
    · have hs : s = [] := List.length_eq_zero.mp hbrk.1
      have hr : rest = [] := List.length_eq_zero.mp (by omega)
      subst hs hr
      refine ⟨[], ?_, rfl⟩
      simp only [pasteLoop, if_pos hbrk]
      simp
    · obtain ⟨row2, hrun, hwf2⟩ := pasteRunes_wellFormed s [] false rfl
        (fun h => absurd h (by decide))
      have hrun' : pasteRunes s (([] : Line).take 0) false = some row2 := by
        rw [List.take_zero]; exact hrun
      have e1 : A ++ (List.replicate (rest.length + 1) [] ++ B)
          = A ++ [] :: (List.replicate rest.length [] ++ B) := by
        rw [List.replicate_succ, List.cons_append]
      rw [List.length_cons, e1, pasteLoop_round m s rest i A _ [] row2 0 0 A.length (some rr)
        hrun' hbrk (Nat.zero_le _) rfl rfl]
      have hY : ((A.length : Int) + 1) = (((A ++ [row2]).length : Nat) : Int) := by
        simp
      have e2 : A ++ row2 :: (List.replicate rest.length [] ++ B)
          = (A ++ [row2]) ++ (List.replicate rest.length [] ++ B) := by simp
      rw [Option.getD_some, hY, e2]
      obtain ⟨extra, hloop, hwe⟩ := ih (i + 1) (A ++ [row2]) B rr (by omega)
      refine ⟨row2 :: extra, ?_, ?_⟩
      · rw [hloop]
        have e3 : A ++ [row2] ++ extra = A ++ row2 :: extra := by simp
        have e4 : (if (s :: rest).getLast? = some [] then 1 else 0)
            = (if rest.getLast? = some [] then 1 else 0) := by
          cases rest with
          | nil =>
            have hs : s ≠ [] := by
              intro h
              apply hbrk
              rw [h]
              exact ⟨rfl, by simpa using hm⟩
            simp [hs]
          | cons s1 rest1 => rw [List.getLast?_cons_cons]
        rw [e3, e4]
      · rw [wellFormed_cons, hwf2, hwe]
        rfl

/-- The statements after the segment loop: the captured suffix goes to the
end of the line the cursor is on, a new empty line when there is none. -/
theorem paste_suffix (A tl : Doc) (rr : Line) :
    (goIndex (if ((A.length : Nat) : Int) ≥ ((A ++ tl).length : Int) then (A ++ tl) ++ [[]]
          else A ++ tl) (A.length : Int)).bind
        (fun last => goSet (if ((A.length : Nat) : Int) ≥ ((A ++ tl).length : Int)
          then (A ++ tl) ++ [[]] else A ++ tl) (A.length : Int) (last ++ rr))
      = some (A ++ (tl.headD [] ++ rr) :: tl.tail) := by
  cases tl with
  | nil =>
    have hc : ((A.length : Nat) : Int) ≥ ((A ++ ([] : Doc)).length : Int) := by simp
    rw [if_pos hc, List.append_nil, goIndex_nat, getElem?_app_len]
    simp only [List.getElem?_cons_zero, Option.some_bind]
    rw [goSet_nat _ _ _ (by simp), set_app_len]
    simp
  | cons h t =>
    have hc : ¬ (((A.length : Nat) : Int) ≥ ((A ++ h :: t).length : Int)) := by
      simp
    rw [if_neg hc, goIndex_nat, getElem?_app_len]
    simp only [List.getElem?_cons_zero, Option.some_bind]
    rw [goSet_nat _ _ _ (by simp), set_app_len]
    simp

/-- A well-formed line followed by cells that were well formed at column
`a`. -/
theorem wellFormedFrom_join_from (prev sfx : List String) (a : Nat)
    (hp : wellFormedFrom 0 prev = true) (hs : wellFormedFrom a sfx = true) :
    wellFormedFrom 0 (prev ++ sfx) = keepsStops a prev.length sfx := by
  have h := wellFormedFrom_splice prev 0 prev.length sfx hp (Nat.le_refl _)
  rw [List.take_length, notCut_length prev 0 hp, Bool.true_or, Bool.true_and, Nat.zero_add,
    wellFormedFrom_shift_iff sfx a prev.length hs] at h
  exact h


theorem getD_next (pre post : Doc) (row : Line) :
    (pre ++ row :: post).getD (pre.length + 1) [] = post.headD [] := by
  cases post with
  | nil =>
    rw [List.getD_eq_getElem?_getD, List.getElem?_eq_none (by simp)]
    rfl
  | cons n p =>
    have e : pre ++ row :: n :: p = (pre ++ [row]) ++ n :: p := by simp
    rw [e, show pre.length + 1 = (pre ++ [row]).length by simp]
    exact getD_line _ _ _

/-- A paste at an in-range cursor of a well-formed document: the handler
returns a document that is well formed exactly when `pasteKeeps` holds. -/
theorem handlerPaste_keeps (pre post : Doc) (row : Line) (x : Nat) (buf : List (List Char))
    (hx : x ≤ row.length) (hwf : wellFormed (pre ++ row :: post) = true) :
    ∃ file', handlerPaste ⟨x, pre.length, buf⟩ (pre ++ row :: post) = some file'
      ∧ wellFormed file' = pasteKeeps (pre ++ row :: post) x pre.length buf := by
  have hrow : (pre ++ row :: post)[pre.length]? = some row := getElem?_line pre post row
  obtain ⟨wpre, wrow, wpost⟩ := (wellFormed_line pre post row).1 hwf
  have hlen : ¬ ((pre.length : Int) ≥ ((pre ++ row :: post).length : Int)) := by
    simp
  have hxc : ¬ ((x : Int) > (row.length : Int)) := by omega
  simp only [handlerPaste, if_neg hlen, pasteKeeps]
  rw [goIndex_nat, hrow, getD_line]
  simp only [if_neg hxc, Option.bind_eq_bind]
  cases buf with
  | nil =>
    simp only [List.length_nil, Nat.lt_irrefl, gt_iff_lt, if_false, Option.some_bind, pasteLoop,
      Option.getD_none]
    rw [paste_suffix pre (row :: post) []]
    refine ⟨_, rfl, ?_⟩
    simpa using hwf
  | cons s0 rest =>
    have hpos : (s0 :: rest).length > 0 := by simp
    simp only [if_pos hpos]
    rw [goSliceTo_nat_succ _ _ (by simp), goSliceFrom_nat_succ _ _ (by simp)]
    simp only [Option.some_bind, take_app_add, drop_app_add, List.take_succ_cons, List.take_zero,
      List.drop_succ_cons, List.drop_zero, List.append_assoc, List.singleton_append,
      List.cons_append, List.nil_append, List.length_cons, Nat.add_sub_cancel]
    by_cases hbrk : s0.length = 0 ∧ 0 + 1 = rest.length + 1
    · have hs : s0 = [] := List.length_eq_zero.mp hbrk.1
      have hr : rest = [] := List.length_eq_zero.mp (by omega)
      subst hs hr
      simp only [pasteLoop, if_pos hbrk, Option.some_bind, Option.getD_none]
      rw [paste_suffix pre (row :: (List.replicate ([] : List (List Char)).length [] ++ post)) []]
      refine ⟨_, rfl, ?_⟩
      simpa using hwf
    · obtain ⟨P0, hrun, hP0⟩ := pasteRunes_first row x s0 wrow hx
      rw [pasteLoop_round (rest.length + 1) s0 rest 0 pre _ row P0 x _ _ none hrun
        hbrk hx rfl rfl]
      have hY : ((pre.length : Int) + 1) = (((pre ++ [P0]).length : Nat) : Int) := by simp
      have e2 : pre ++ P0 :: (List.replicate rest.length [] ++ post)
          = (pre ++ [P0]) ++ (List.replicate rest.length [] ++ post) := by simp
      rw [Option.getD_none, hY, e2]
      obtain ⟨extra, hloop, hwe⟩ := pasteLoop_later (rest.length + 1) rest (0 + 1) (pre ++ [P0])
        post (row.drop x) (by omega)
      rw [hloop]
      simp only [Option.some_bind, Option.getD_some]
      rw [paste_suffix]
      refine ⟨_, rfl, ?_⟩
      have hne : ¬ (s0 :: rest = [] ∨ s0 :: rest = [[]]) := by
        intro h
        rcases h with h | h
        · exact absurd h (by simp)
        · apply hbrk
          simp only [List.cons.injEq] at h
          rw [h.1, h.2]
          exact ⟨rfl, rfl⟩
      have hlast : ((s0 :: rest).getLast? = some []) ↔ (rest.getLast? = some []) := by
        cases rest with
        | nil =>
          have hs : s0 ≠ [] := by
            intro h
            apply hbrk
            rw [h]
            exact ⟨rfl, rfl⟩
          simp [hs]
        | cons s1 rest1 => rw [List.getLast?_cons_cons]
      have hnext := getD_next pre post row
      have wd := wellFormedFrom_drop_eq row x wrow
      rw [if_neg hne, List.headD_cons, hnext, wellFormed_append_eq, wellFormed_append_eq,
        wellFormed_append_eq, wellFormed_cons, wellFormed_cons, wpre, hwe, hP0]
      by_cases hl : rest.getLast? = some []
      · rw [if_pos hl, if_pos (hlast.2 hl)]
        simp only [List.replicate_one, List.singleton_append, List.headD_cons, List.tail_cons,
          List.nil_append]
        rw [wpost, wellFormedFrom_shift_iff _ x 0 wd]
        simp [wellFormed]
      · rw [if_neg hl, if_neg (fun h => hl (hlast.1 h))]
        simp only [List.replicate_zero, List.nil_append]
        have wh : wellFormedFrom 0 (post.headD []) = true := by
          cases post with
          | nil => rfl
          | cons n p =>
            rw [wellFormed_cons] at wpost
            simp only [Bool.and_eq_true] at wpost
            exact wpost.1
        have wt : wellFormed post.tail = true := by
          cases post with
          | nil => rfl
          | cons n p =>
            rw [wellFormed_cons] at wpost
            simp only [Bool.and_eq_true] at wpost
            exact wpost.2
        rw [wt, wellFormedFrom_join_from _ _ x wh wd]
        simp [wellFormed]


/-! ## Claim C21 -/

/-- C21 as stated fails: in the well-formed line `a`, six padding cells, tab,
a key typed in insert mode at column 0 moves the tab glyph to column 8, and a
paste at column 1 moves it to column 6 of the next line. -/
theorem tab_runs_not_kept :
    wellFormed [["a", "", "", "", "", "", "", "\t"]] = true
      ∧ handlerWrite ⟨0, 0, "b", true⟩ [["a", "", "", "", "", "", "", "\t"]]
        = some (⟨1, 0⟩, [["b", "a", "", "", "", "", "", "", "\t"]])
      ∧ wellFormed [["b", "a", "", "", "", "", "", "", "\t"]] = false
      ∧ handlerPaste ⟨1, 0, [['b'], []]⟩ [["a", "", "", "", "", "", "", "\t"]]
        = some [["a", "b"], ["", "", "", "", "", "", "\t"]]
      ∧ wellFormed [["a", "b"], ["", "", "", "", "", "", "\t"]] = false := by
  decide

/-- C21, amended: tab-run well-formedness is kept by exactly the edits that
neither leave a padding run without its tab glyph nor move a tab glyph to a
column of another residue modulo 8.  For a well-formed document and an
in-range cursor `(x, y)`, anywhere in its line: `handlerWrite`, for any key
and either insert mode, returns a well-formed document if and only if
`writeKeeps` holds, and `handlerPaste`, for any buffer, returns a well-formed
document if and only if `pasteKeeps` holds. -/
theorem edits_keep_tab_runs_iff (file : Doc) (x y : Nat) (row : Line) (key : String)
    (ins : Bool) (buf : List (List Char)) (hy : file[y]? = some row) (hx : x ≤ row.length)
    (hwf : wellFormed file = true) :
    ((∃ resp file', handlerWrite ⟨x, y, key, ins⟩ file = some (resp, file')
          ∧ wellFormed file' = true)
        ↔ writeKeeps file x y key ins = true)
      ∧ ((∃ file', handlerPaste ⟨x, y, buf⟩ file = some file' ∧ wellFormed file' = true)
        ↔ pasteKeeps file x y buf = true) := by
  obtain ⟨pre, post, rfl, rfl⟩ := split_at hy
  constructor
  · rcases handlerWrite_keeps pre post row x key ins hx hwf with
      ⟨resp, file', hrun, hw⟩ | ⟨hnone, hk⟩
    · constructor
      · rintro ⟨resp2, file2, hrun2, hw2⟩
        rw [hrun] at hrun2
        simp only [Option.some.injEq, Prod.mk.injEq] at hrun2
        rw [← hw, hrun2.2]
        exact hw2
      · intro h
        exact ⟨resp, file', hrun, by rw [hw]; exact h⟩
    · constructor
      · rintro ⟨resp2, file2, hrun2, _⟩
        rw [hnone] at hrun2
        exact absurd hrun2 (by simp)
      · intro h
        rw [hk] at h
        exact absurd h (by decide)
  · obtain ⟨file', hrun, hw⟩ := handlerPaste_keeps pre post row x buf hx hwf
    constructor
    · rintro ⟨file2, hrun2, hw2⟩
      rw [hrun] at hrun2
      simp only [Option.some.injEq] at hrun2
      rw [← hw, hrun2]
      exact hw2
    · intro h
      exact ⟨file', hrun, by rw [hw]; exact h⟩

theorem edits_keep_tab_runs_iff_witness :
    ((∃ resp file', handlerWrite ⟨(8 : Nat), (0 : Nat), "c", false⟩
            [["a", "", "", "", "", "", "", "\t", "b"]] = some (resp, file')
          ∧ wellFormed file' = true)
        ↔ writeKeeps [["a", "", "", "", "", "", "", "\t", "b"]] 8 0 "c" false = true)
      ∧ ((∃ file', handlerPaste ⟨(8 : Nat), (0 : Nat), [['c'], []]⟩
            [["a", "", "", "", "", "", "", "\t", "b"]] = some file'
          ∧ wellFormed file' = true)
        ↔ pasteKeeps [["a", "", "", "", "", "", "", "\t", "b"]] 8 0 [['c'], []] = true) :=
  edits_keep_tab_runs_iff [["a", "", "", "", "", "", "", "\t", "b"]] 8 0
    ["a", "", "", "", "", "", "", "\t", "b"] "c" false [['c'], []] rfl (by decide) (by decide)

end Editor
